import Mathlib

/-!
Verification development for the user-transaction-visualizer repository.

The backend persists User and Transaction nodes plus typed, directed,
property-bearing edges in a graph store, using MERGE-style upserts
(match-or-create).  We embed the store as explicit lists of nodes and
edges and each database statement as a pure state transformation, with
the clock reading and generated UUIDs passed in as explicit arguments.

Property values are strings, except stored payment-method lists, which
the matching query treats element-wise; we model them as a list value
whose elements are the individually serialized payment methods (the
source serializes compound attributes with JSON.stringify before any
storage or comparison, so serialized forms are opaque strings here).
-/

namespace UTV

/-- A stored property value: a string, or a list of strings
(used for the serialized payment-method list). -/
inductive Val where
  | s (v : String)
  | vlist (vs : List String)
deriving DecidableEq, Repr

/-- A node or relationship property map, as an association list. -/
abbrev Props := List (String × Val)

/-- Look up a property by key (first binding wins). -/
def lookupProp (ps : Props) (k : String) : Option Val :=
  (ps.find? (fun kv => kv.1 = k)).map (fun kv => kv.2)

/-- Cypher SET n += m semantics: keys present in the update overwrite,
all other stored keys are kept. -/
def mergeProps (old new : Props) : Props :=
  old.filter (fun kv => (lookupProp new kv.1).isNone) ++ new

/-- Node labels appearing in the schema. -/
inductive NodeLabel where
  | user
  | transaction
deriving DecidableEq, Repr

/-- A stored node: label, unique id, and its property map. -/
structure Node where
  label : NodeLabel
  id : String
  props : Props
deriving DecidableEq, Repr

/-- A stored relationship: kind (type), source node id, target node id,
and its property map. -/
structure Edge where
  kind : String
  src : String
  tgt : String
  props : Props
deriving DecidableEq, Repr

/-- The graph store state. -/
structure Graph where
  nodes : List Node
  edges : List Edge
deriving DecidableEq, Repr

/-- Does a node with the given label and id exist? -/
def nodeExists (g : Graph) (l : NodeLabel) (id : String) : Bool :=
  g.nodes.any (fun n => n.label = l && n.id = id)

/-- MERGE (n:Label {id}) ON CREATE SET n = props ON MATCH SET n += update. -/
def mergeNode (g : Graph) (l : NodeLabel) (id : String)
    (props update : Props) : Graph :=
  if nodeExists g l id then
    { g with nodes := g.nodes.map (fun n =>
        if n.label = l && n.id = id then
          { n with props := mergeProps n.props update }
        else n) }
  else
    { g with nodes := g.nodes ++ [⟨l, id, props⟩] }

/-- Does an existing edge match a MERGE relationship pattern?  The pattern
matches when kind and endpoints agree and every property listed in the
pattern has that exact value on the edge. -/
def edgeMatches (e : Edge) (kind src tgt : String) (props : Props) : Bool :=
  e.kind = kind && e.src = src && e.tgt = tgt &&
    props.all (fun kv => lookupProp e.props kv.1 = some kv.2)

/-- MERGE (a)-[r:KIND {props}]->(b) for one already-matched pair of
endpoints: create the edge unless a matching one exists. -/
def mergeEdge (g : Graph) (kind src tgt : String) (props : Props) : Graph :=
  if g.edges.any (fun e => edgeMatches e kind src tgt props) then g
  else { g with edges := g.edges ++ [⟨kind, src, tgt, props⟩] }

/-- Merge one edge per matched target, in match order. -/
def mergeEdgesTo (g : Graph) (kind src : String) (props : Props)
    (tgts : List String) : Graph :=
  tgts.foldl (fun g' t => mergeEdge g' kind src t props) g

/-- Number of stored edges with the given kind, source and target. -/
def countEdges (g : Graph) (kind src tgt : String) : Nat :=
  (g.edges.filter (fun e => e.kind = kind && e.src = src && e.tgt = tgt)).length

/-! ## JavaScript truthiness helpers

The source guards optional payload fields with plain truthiness tests
(if (x), x || default), under which both an absent field and an empty
string are skipped or defaulted. -/

/-- Truthiness of an optional string. -/
def truthy (o : Option String) : Bool :=
  match o with
  | none => false
  | some v => v ≠ ""

/-- x || d for an optional string. -/
def orFalsy (o : Option String) (d : String) : String :=
  match o with
  | none => d
  | some v => if v = "" then d else v

/-! ## User model (src/backend/models/userModel.js) -/

/-- The payload accepted by User.createOrUpdate.  The address and each
payment method arrive pre-serialized (the source applies JSON.stringify
before storing or comparing them). -/
structure UserData where
  id : Option String
  name : String
  email : Option String
  phone : Option String
  address : Option String
  paymentMethods : Option (List String)
  createdAt : Option String
deriving DecidableEq, Repr

/-- The base property map written for a user (id, name, createdAt,
updatedAt plus each populated optional attribute). -/
def userBaseProps (d : UserData) (id now : String) : Props :=
  [("id", .s id), ("name", .s d.name),
   ("createdAt", .s (orFalsy d.createdAt now)), ("updatedAt", .s now)]
  ++ (if truthy d.email then [("email", .s (d.email.getD ""))] else [])
  ++ (if truthy d.phone then [("phone", .s (d.phone.getD ""))] else [])
  ++ (if truthy d.address then [("address", .s (d.address.getD ""))] else [])
  ++ (match d.paymentMethods with
      | some pms => [("paymentMethods", .vlist pms)]
      | none => [])

/-- MATCH (u2:Label) WHERE u2.attr = value AND u2.id <> selfId:
ids of all other nodes of the label whose stored attribute equals the
written value, in store order. -/
def sharesScan (nodes : List Node) (l : NodeLabel) (selfId attr : String)
    (value : Val) : List String :=
  (nodes.filter (fun n =>
    n.label = l && n.id ≠ selfId && lookupProp n.props attr = some value)).map
    (fun n => n.id)

/-- WHERE u2.id <> selfId AND ANY(pm IN u2.paymentMethods WHERE pm = m):
ids of all other users whose stored payment-method list contains the
serialized method. -/
def pmScan (nodes : List Node) (selfId m : String) : List String :=
  (nodes.filter (fun n =>
    n.label = NodeLabel.user && n.id ≠ selfId &&
      (match lookupProp n.props "paymentMethods" with
       | some (.vlist vs) => vs.contains m
       | _ => false))).map (fun n => n.id)

/-- One shared-attribute statement: if the guard attribute is populated
and the written user exists, merge one edge to every matching user. -/
def shareStep (g : Graph) (userId : String) (o : Option String)
    (kind attrKey : String) : Graph :=
  if truthy o then
    if nodeExists g .user userId then
      mergeEdgesTo g kind userId [(attrKey, .s (o.getD ""))]
        (sharesScan g.nodes .user userId attrKey (.s (o.getD "")))
    else g
  else g

/-- One payment-method iteration of the relationship derivation: if the
written user exists, merge one edge to every user whose stored list
contains the serialized method. -/
def pmStep (userId : String) (g' : Graph) (m : String) : Graph :=
  if nodeExists g' .user userId then
    mergeEdgesTo g' "SHARES_PAYMENT_METHOD" userId
      [("paymentMethod", .s m)] (pmScan g'.nodes userId m)
  else g'

/-- User.createSharedAttributeRelationships: derive SHARES_EMAIL,
SHARES_PHONE, SHARES_ADDRESS and SHARES_PAYMENT_METHOD edges from the
written user to every existing user with an equal stored value. -/
def createSharedAttributeRelationships (g : Graph) (userId : String)
    (d : UserData) : Graph :=
  let g1 := shareStep g userId d.email "SHARES_EMAIL" "email"
  let g2 := shareStep g1 userId d.phone "SHARES_PHONE" "phone"
  let g3 := shareStep g2 userId d.address "SHARES_ADDRESS" "address"
  match d.paymentMethods with
  | some pms => if pms.length > 0 then pms.foldl (pmStep userId) g3 else g3
  | none => g3

/-- User.createOrUpdate: resolve the id (a fresh UUID when the payload
carries none), merge the node, then derive shared-attribute edges.
The clock reading and the generated UUID are explicit arguments. -/
def userCreateOrUpdate (g : Graph) (d : UserData) (now freshId : String) :
    Graph :=
  let id := orFalsy d.id freshId
  let base := userBaseProps d id now
  let g1 := mergeNode g .user id base base
  createSharedAttributeRelationships g1 id d

/-- Lexicographic comparison of code-point lists, modelling the store
ordering on string properties. -/
def charListLt : List Char → List Char → Bool
  | [], [] => false
  | [], _ :: _ => true
  | _ :: _, [] => false
  | c :: cs, d :: ds =>
    if c.toNat < d.toNat then true
    else if d.toNat < c.toNat then false
    else charListLt cs ds

/-- Lexicographic string comparison used by the ordered listings. -/
def strLt (a b : String) : Bool := charListLt a.data b.data

/-- The createdAt value a node is ordered by in the ORDER BY createdAt
DESC listing (absent values sort last). -/
def createdAtOf (n : Node) : String :=
  match lookupProp n.props "createdAt" with
  | some (.s v) => v
  | _ => ""

/-- Insert into a list sorted by descending createdAt (stable). -/
def insertByCreatedAtDesc (n : Node) : List Node → List Node
  | [] => [n]
  | m :: ms =>
    if strLt (createdAtOf m) (createdAtOf n) then n :: m :: ms
    else m :: insertByCreatedAtDesc n ms

/-- User.getAll with no filters: all user nodes ordered by createdAt
descending. -/
def usersGetAll (g : Graph) : List Node :=
  (g.nodes.filter (fun n => n.label = NodeLabel.user)).foldr
    insertByCreatedAtDesc []

/-! ## Transaction model (src/backend/models/transactionModel.js) -/

/-- The payload accepted by Transaction.createOrUpdate.  The location
arrives pre-serialized.  The amount is carried in its serialized decimal
form (only equality on it matters to the modelled behaviour). -/
structure TxData where
  id : Option String
  amount : String
  currency : Option String
  timestamp : Option String
  status : Option String
  createdAt : Option String
  ipAddress : Option String
  deviceId : Option String
  location : Option String
  description : Option String
  fromUserId : Option String
  toUserId : Option String
deriving DecidableEq, Repr

/-- The base property map written for a transaction. -/
def txBaseProps (d : TxData) (id now : String) : Props :=
  [("id", .s id), ("amount", .s d.amount),
   ("currency", .s (orFalsy d.currency "USD")),
   ("timestamp", .s (orFalsy d.timestamp now)),
   ("status", .s (orFalsy d.status "completed")),
   ("createdAt", .s (orFalsy d.createdAt now)), ("updatedAt", .s now)]
  ++ (if truthy d.ipAddress then [("ipAddress", .s (d.ipAddress.getD ""))] else [])
  ++ (if truthy d.deviceId then [("deviceId", .s (d.deviceId.getD ""))] else [])
  ++ (if truthy d.location then [("location", .s (d.location.getD ""))] else [])
  ++ (if truthy d.description then [("description", .s (d.description.getD ""))] else [])

/-- One transaction-metadata statement: if the guard attribute is
populated and the written transaction exists, merge one SHARES_* edge to
every other transaction with an equal stored value. -/
def txShareStep (g : Graph) (txId : String) (o : Option String)
    (kind attrKey : String) : Graph :=
  if truthy o then
    if nodeExists g .transaction txId then
      mergeEdgesTo g kind txId [(attrKey, .s (o.getD ""))]
        (sharesScan g.nodes .transaction txId attrKey (.s (o.getD "")))
    else g
  else g

/-- Transaction.createTransactionLinkRelationships: derive SHARES_IP,
SHARES_DEVICE and SHARES_LOCATION edges from the written transaction to
every other transaction with an equal stored value. -/
def createTransactionLinkRelationships (g : Graph) (txId : String)
    (d : TxData) : Graph :=
  let g1 := txShareStep g txId d.ipAddress "SHARES_IP" "ipAddress"
  let g2 := txShareStep g1 txId d.deviceId "SHARES_DEVICE" "deviceId"
  txShareStep g2 txId d.location "SHARES_LOCATION" "location"

/-- The SENT_MONEY and RECEIVED_BY edge property map. -/
def moneyProps (d : TxData) : Props :=
  [("amount", .s d.amount), ("currency", .s (orFalsy d.currency "USD"))]

/-- The TRANSFERRED_TO edge property tuple: transactionId, amount,
currency and timestamp. -/
def transferProps (d : TxData) (id now : String) : Props :=
  [("transactionId", .s id), ("amount", .s d.amount),
   ("currency", .s (orFalsy d.currency "USD")),
   ("timestamp", .s (orFalsy d.timestamp now))]

/-- Statement (1): MERGE a SENT_MONEY edge sender to transaction when a
sender is given and both matched nodes exist. -/
def sentMoneyStep (g : Graph) (d : TxData) (id : String) : Graph :=
  if truthy d.fromUserId then
    if nodeExists g .user (d.fromUserId.getD "") &&
        nodeExists g .transaction id then
      mergeEdge g "SENT_MONEY" (d.fromUserId.getD "") id (moneyProps d)
    else g
  else g

/-- Statement (2): MERGE a RECEIVED_BY edge transaction to receiver when
a receiver is given and both matched nodes exist. -/
def receivedByStep (g : Graph) (d : TxData) (id : String) : Graph :=
  if truthy d.toUserId then
    if nodeExists g .user (d.toUserId.getD "") &&
        nodeExists g .transaction id then
      mergeEdge g "RECEIVED_BY" id (d.toUserId.getD "") (moneyProps d)
    else g
  else g

/-- Statement (3): MERGE a TRANSFERRED_TO edge sender to receiver, keyed
by the full property tuple, when both are given and both users exist. -/
def transferredToStep (g : Graph) (d : TxData) (id now : String) : Graph :=
  if truthy d.fromUserId && truthy d.toUserId then
    if nodeExists g .user (d.fromUserId.getD "") &&
        nodeExists g .user (d.toUserId.getD "") then
      mergeEdge g "TRANSFERRED_TO" (d.fromUserId.getD "") (d.toUserId.getD "")
        (transferProps d id now)
    else g
  else g

/-- Transaction.createOrUpdate: merge the transaction node, then
(1) MERGE a SENT_MONEY edge sender to transaction when a sender is given,
(2) MERGE a RECEIVED_BY edge transaction to receiver when a receiver is
given, (3) MERGE a TRANSFERRED_TO edge sender to receiver, keyed by the
full property tuple, when both are given, (4) derive SHARES_* links to
other transactions.  Each MATCH on a user id silently matches nothing
when that user node is absent. -/
def transactionCreateOrUpdate (g : Graph) (d : TxData)
    (now freshId : String) : Graph :=
  let id := orFalsy d.id freshId
  let base := txBaseProps d id now
  let g1 := mergeNode g .transaction id base base
  let g2 := sentMoneyStep g1 d id
  let g3 := receivedByStep g2 d id
  let g4 := transferredToStep g3 d id now
  createTransactionLinkRelationships g4 id d

/-! ## Graph analytics (src/backend/utils/graphAnalyticsUtils.js)

findShortestPath issues MATCH path = shortestPath((source)-[*..max]-(target)):
every relationship is traversable in either direction and the variable-length
pattern covers 1 up to maxDepth hops.  We embed the store primitive as a
breadth-first enumeration of simple paths: paths are extended one hop per
round, and the first round in which some path reaches the target yields
the returned path (enumeration order standing in for the store's
unspecified tie-breaking order). -/

/-- Undirected adjacency of one stored edge, seen from node v. -/
def adjTo (e : Edge) (v : String) : Option String :=
  if e.src = v then some e.tgt
  else if e.tgt = v then some e.src
  else none

/-- All neighbours of v across every edge kind, in store order. -/
def neighbors (g : Graph) (v : String) : List String :=
  g.edges.filterMap (fun e => adjTo e v)

/-- Extend each simple path (held in reverse, head = current endpoint)
by one hop to every neighbour not already on the path. -/
def extendPaths (g : Graph) (ps : List (List String)) : List (List String) :=
  ps.foldr (fun p acc =>
    match p with
    | [] => acc
    | v :: _ =>
      (((neighbors g v).filter (fun w => ¬ p.contains w)).map
        (fun w => w :: p)) ++ acc) []

/-- The first extended path ending at the target, returned source-first. -/
def findPathTo (b : String) (ps : List (List String)) : Option (List String) :=
  (ps.find? (fun p => p.head? = some b)).map List.reverse

/-- Rounds of breadth-first extension: after each round, return the first
path reaching the target; stop when the hop bound is exhausted. -/
def shortestWalkFrom (g : Graph) (b : String) (ps : List (List String)) :
    Nat → Option (List String)
  | 0 => none
  | fuel + 1 =>
    let next := extendPaths g ps
    match findPathTo b next with
    | some p => some p
    | none => shortestWalkFrom g b next fuel

/-- The store shortest-path primitive over 1..maxDepth hops, as the
ordered list of node ids from source to target. -/
def shortestWalk (g : Graph) (a b : String) (maxDepth : Nat) :
    Option (List String) :=
  shortestWalkFrom g b [[a]] maxDepth

/-- A formatted path node: id, type (label) and full properties. -/
structure NodeView where
  id : String
  type : NodeLabel
  properties : Props
deriving DecidableEq, Repr

/-- A formatted path relationship: type and properties. -/
structure RelView where
  type : String
  properties : Props
deriving DecidableEq, Repr

/-- One step of the returned path: originating node, traversed
relationship, destination node. -/
structure Step where
  from_ : NodeView
  relationship : RelView
  to_ : NodeView
deriving DecidableEq, Repr

/-- The node view for an id (first stored node with that id). -/
def nodeViewOf (g : Graph) (v : String) : NodeView :=
  match g.nodes.find? (fun n => n.id = v) with
  | some n => ⟨n.id, n.label, n.props⟩
  | none => ⟨v, .user, []⟩

/-- The relationship view between two consecutive path nodes: the first
stored edge joining them in either direction. -/
def relViewOf (g : Graph) (v w : String) : RelView :=
  match g.edges.find? (fun e =>
    (e.src = v && e.tgt = w) || (e.src = w && e.tgt = v)) with
  | some e => ⟨e.kind, e.props⟩
  | none => ⟨"", []⟩

/-- Build the step list for a node-id path, in traversal order. -/
def mkSteps (g : Graph) : List String → List Step
  | v :: w :: rest => ⟨nodeViewOf g v, relViewOf g v w, nodeViewOf g w⟩ ::
      mkSteps g (w :: rest)
  | _ => []

/-- findShortestPath result shape: either pathExists false with a
message, or pathExists true with the path length and steps. -/
inductive PathResult where
  | noPath (message : String)
  | found (pathLength : Nat) (path : List Step)
deriving DecidableEq, Repr

/-- findShortestPath: validate that both users exist (throwing one fixed
error otherwise), then run the bounded shortest-path query and format
the result. -/
def findShortestPath (g : Graph) (sourceUserId targetUserId : String)
    (maxDepth : Nat) : Except String PathResult :=
  if ¬ (nodeExists g .user sourceUserId && nodeExists g .user targetUserId) then
    .error "One or both users not found"
  else
    match shortestWalk g sourceUserId targetUserId maxDepth with
    | none => .ok (.noPath "No path found between users")
    | some p => .ok (.found (p.length - 1) (mkSteps g p))

/-- The clustering attribute whitelist. -/
def validAttributes : List String :=
  ["ipAddress", "deviceId", "currency", "status", "amount"]

/-- One reported cluster. -/
structure Cluster where
  attr : String
  value : Val
  transactionIds : List String
  clusterSize : Nat
deriving DecidableEq, Repr

/-- The descending-size ordering relation on reported clusters. -/
def clusterGE (a b : Cluster) : Prop := b.clusterSize ≤ a.clusterSize

instance : DecidableRel clusterGE := fun a b => Nat.decLe b.clusterSize a.clusterSize

instance : IsTotal Cluster clusterGE :=
  ⟨fun a b => Nat.le_total b.clusterSize a.clusterSize⟩

instance : IsTrans Cluster clusterGE :=
  ⟨fun _ _ _ hab hbc => Nat.le_trans hbc hab⟩

/-- ORDER BY clusterSize DESC. -/
def sortBySizeDesc (cs : List Cluster) : List Cluster :=
  List.insertionSort clusterGE cs

/-- The distinct values of the attribute over a transaction list, in
first-occurrence order. -/
def distinctValues (attr : String) (ts : List Node) : List Val :=
  (ts.filterMap (fun n => lookupProp n.props attr)).dedup

/-- All transactions having a non-null value for the attribute. -/
def txWithAttr (g : Graph) (attr : String) : List Node :=
  g.nodes.filter (fun n =>
    n.label = NodeLabel.transaction && (lookupProp n.props attr).isSome)

/-- clusterTransactions: reject an attribute outside the whitelist; group
all transactions having a non-null value for the attribute by that value,
keep groups of at least minClusterSize members, and return them sorted by
descending size, each with the shared value, the member transaction ids
and the size. -/
def clusterTransactions (g : Graph) (attr : String)
    (minClusterSize : Nat) : Except String (List Cluster) :=
  if ¬ validAttributes.contains attr then
    .error ("Invalid attribute: " ++ attr ++
      ". Valid options are: ipAddress, deviceId, currency, status, amount")
  else
    let ts := txWithAttr g attr
    let groups := (distinctValues attr ts).map (fun v =>
      (v, (ts.filter (fun n => lookupProp n.props attr = some v)).map
        (fun n => n.id)))
    let kept := groups.filter (fun gr => minClusterSize ≤ gr.2.length)
    .ok (sortBySizeDesc (kept.map (fun gr =>
      ⟨attr, gr.1, gr.2, gr.2.length⟩)))

/-! ## Analytics route (src/backend/routes/analyticsRoutes.js) -/

/-- The response body shapes produced by the shortestPath route. -/
inductive HandlerResponse where
  | badRequest (error : String)
  | okPath (result : PathResult)
  | serverError (error details : String)
deriving DecidableEq, Repr

/-- GET /analytics/shortestPath: reject missing required parameters and a
non-positive or unparseable maxDepth with 400 before any store access;
surface a thrown store or precondition error as 500; otherwise 200.
parseInt is modelled as integer parsing of the whole parameter. -/
def shortestPathHandler (g : Graph)
    (sourceUserId targetUserId maxDepth : Option String) :
    Nat × HandlerResponse :=
  if ¬ (truthy sourceUserId && truthy targetUserId) then
    (400, .badRequest "Missing required parameters")
  else
    let parsed : Option Int :=
      if truthy maxDepth then (maxDepth.getD "").toInt? else some 5
    match parsed with
    | none => (400, .badRequest "maxDepth must be a positive integer")
    | some k =>
      if k ≤ 0 then (400, .badRequest "maxDepth must be a positive integer")
      else
        match findShortestPath g (sourceUserId.getD "") (targetUserId.getD "")
            k.toNat with
        | .ok r => (200, .okPath r)
        | .error msg => (500, .serverError "Failed to find shortest path" msg)

/-! ## Chain fixture for the shortest-path bound

A chain of users linked pairwise: one edge per consecutive pair of ids,
with an arbitrary kind and an arbitrary orientation per hop (the claim
treats every edge kind as traversable in either direction). -/

/-- The edge for one hop: kind and a flag flipping its direction. -/
def hopEdge (a b : String) (hop : String × Bool) : Edge :=
  if hop.2 then ⟨hop.1, b, a, []⟩ else ⟨hop.1, a, b, []⟩

/-- The edges of a chain over the given ids. -/
def chainEdges : List String → List (String × Bool) → List Edge
  | a :: b :: rest, hops =>
    hopEdge a b (hops.headD ("SHARES_EMAIL", false)) ::
      chainEdges (b :: rest) (hops.drop 1)
  | _, _ => []

/-- A chain graph: one user node per id, one edge per consecutive pair. -/
def chainGraph (ids : List String) (hops : List (String × Bool)) : Graph :=
  { nodes := ids.map (fun i => ⟨.user, i, [("id", .s i)]⟩),
    edges := chainEdges ids hops }

/-! ## Graph view assembly (frontend)

formatGraphData turns the API data into a Cytoscape element set in two
passes: a node pass collecting every user and transaction appearing
anywhere, then an edge pass that emits an edge only when both endpoints
exist in the node map, counting each skipped edge in a diagnostic.
JavaScript records that may be null arrive as Option values, and a falsy
id is modelled as the empty string.  Only the fields the formatter
inspects are modelled; the remaining payload fields are passed through
unchanged in the source and play no role in node identity or edges. -/

/-- A user record in the API data. -/
structure GUser where
  id : String
  name : Option String
deriving DecidableEq, Repr

/-- A transaction record in the API data. -/
structure GTxn where
  id : String
deriving DecidableEq, Repr

/-- A relationship record inside a connected-user entry. -/
structure GRel where
  type : Option String
  properties : Props
deriving DecidableEq, Repr

/-- One connected-user entry of a per-user relationship result. -/
structure GConn where
  user : Option GUser
  relationship : Option GRel
deriving DecidableEq, Repr

/-- One direct-transfer entry of a per-user relationship result. -/
structure GTransfer where
  targetUser : Option GUser
  type : Option String
  amount : Option Val
  currency : Option Val
deriving DecidableEq, Repr

/-- One per-user relationship result. -/
structure GRelData where
  user : Option GUser
  connectedUsers : List (Option GConn)
  transactions : List (Option GTxn)
  directTransfers : List (Option GTransfer)
deriving DecidableEq, Repr

/-- The complete graph data handed to the formatter. -/
structure GData where
  users : List (Option GUser)
  transactions : List (Option GTxn)
  userRelationships : List (Option GRelData)
deriving DecidableEq, Repr

/-- A Cytoscape node element (data plus style class). -/
structure GNode where
  id : String
  label : String
  type : String
  classes : String
deriving DecidableEq, Repr

/-- A Cytoscape edge element (data plus style class). -/
structure GEdge where
  id : String
  source : String
  target : String
  label : String
  relationshipType : String
  properties : Props
  classes : String
deriving DecidableEq, Repr

/-- Prefixed node key for a user id. -/
def userNodeId (id : String) : String := "user-" ++ id

/-- Prefixed node key for a transaction id. -/
def txNodeId (id : String) : String := "transaction-" ++ id

/-- The node map: insertion-ordered, keyed by prefixed node id. -/
abbrev NodeMap := List (String × GNode)

/-- nodeMap.set guarded by nodeMap.has: first occurrence wins. -/
def addIfAbsent (m : NodeMap) (k : String) (v : GNode) : NodeMap :=
  if m.any (fun kv => kv.1 = k) then m else m ++ [(k, v)]

/-- The display label for a user node: name when truthy, else a
placeholder derived from the id. -/
def userLabel (u : GUser) : String :=
  orFalsy u.name ("User " ++ u.id)

/-- The node element registered for a user record. -/
def userGNode (u : GUser) : GNode :=
  ⟨userNodeId u.id, userLabel u, "user", "user"⟩

/-- The node element registered for a transaction record. -/
def txGNode (t : GTxn) : GNode :=
  ⟨txNodeId t.id, "Transaction " ++ t.id, "transaction", "transaction"⟩

/-- Node pass, step for one main-list user. -/
def addMainUser (m : NodeMap) (ou : Option GUser) : NodeMap :=
  match ou with
  | none => m
  | some u => if u.id = "" then m else addIfAbsent m (userNodeId u.id) (userGNode u)

/-- Node pass, step for one main-list transaction. -/
def addMainTx (m : NodeMap) (ot : Option GTxn) : NodeMap :=
  match ot with
  | none => m
  | some t => if t.id = "" then m else addIfAbsent m (txNodeId t.id) (txGNode t)

/-- Node pass, step for one connected-user entry. -/
def addConnUser (m : NodeMap) (oc : Option GConn) : NodeMap :=
  match oc with
  | none => m
  | some c =>
    match c.user with
    | none => m
    | some cu =>
      if cu.id = "" then m else addIfAbsent m (userNodeId cu.id) (userGNode cu)

/-- Node pass, step for one transfer target. -/
def addTransferUser (m : NodeMap) (ot : Option GTransfer) : NodeMap :=
  match ot with
  | none => m
  | some tr =>
    match tr.targetUser with
    | none => m
    | some tu =>
      if tu.id = "" then m else addIfAbsent m (userNodeId tu.id) (userGNode tu)

/-- Node pass, step for one per-user relationship result: register the
main user, every connected user, every involved transaction and every
transfer target. -/
def addRelNodes (m : NodeMap) (ord : Option GRelData) : NodeMap :=
  match ord with
  | none => m
  | some rd =>
    match rd.user with
    | none => m
    | some u =>
      if u.id = "" then m
      else
        let m1 := addIfAbsent m (userNodeId u.id) (userGNode u)
        let m2 := rd.connectedUsers.foldl addConnUser m1
        let m3 := rd.transactions.foldl addMainTx m2
        rd.directTransfers.foldl addTransferUser m3

/-- The complete node pass over the API data. -/
def buildNodeMap (data : GData) : NodeMap :=
  let m1 := data.users.foldl addMainUser []
  let m2 := data.transactions.foldl addMainTx m1
  data.userRelationships.foldl addRelNodes m2

/-- Edge-pass accumulator: emitted edges, seen edge ids, and the count of
skipped (dropped) items reported through the diagnostic warnings. -/
structure EdgeAcc where
  edges : List GEdge
  keys : List String
  dropped : Nat
deriving DecidableEq, Repr

/-- Emit an edge unless its composite id was already seen. -/
def pushEdge (acc : EdgeAcc) (e : GEdge) : EdgeAcc :=
  if acc.keys.contains e.id then acc
  else { acc with edges := acc.edges ++ [e], keys := acc.keys ++ [e.id] }

/-- Edge pass, step for one connected-user entry. -/
def connEdgeStep (m : NodeMap) (uid : String) (acc : EdgeAcc)
    (ic : Nat × Option GConn) : EdgeAcc :=
  match ic.2 with
  | none => acc
  | some c =>
    match c.user, c.relationship with
    | some cu, some rel =>
      if cu.id = "" then acc
      else if ¬ (m.any (fun kv => kv.1 = userNodeId cu.id)) then
        { acc with dropped := acc.dropped + 1 }
      else
        let relType := orFalsy rel.type "CONNECTED"
        pushEdge acc
          ⟨"edge-user-" ++ uid ++ "-" ++ cu.id ++ "-" ++ toString ic.1,
           userNodeId uid, userNodeId cu.id, relType, relType,
           rel.properties, "user-user"⟩
    | _, _ => acc

/-- Edge pass, step for one involved transaction. -/
def txnEdgeStep (m : NodeMap) (uid : String) (acc : EdgeAcc)
    (it : Nat × Option GTxn) : EdgeAcc :=
  match it.2 with
  | none => acc
  | some t =>
    if t.id = "" then acc
    else if ¬ (m.any (fun kv => kv.1 = txNodeId t.id)) then
      { acc with dropped := acc.dropped + 1 }
    else
      pushEdge acc
        ⟨"edge-user-" ++ uid ++ "-transaction-" ++ t.id ++ "-" ++ toString it.1,
         userNodeId uid, txNodeId t.id, "INVOLVED_IN", "INVOLVED_IN",
         [], "user-transaction"⟩

/-- Edge pass, step for one direct transfer. -/
def transferEdgeStep (m : NodeMap) (uid : String) (acc : EdgeAcc)
    (it : Nat × Option GTransfer) : EdgeAcc :=
  match it.2 with
  | none => acc
  | some tr =>
    match tr.targetUser with
    | none => acc
    | some tu =>
      if tu.id = "" then acc
      else if ¬ (m.any (fun kv => kv.1 = userNodeId tu.id)) then
        { acc with dropped := acc.dropped + 1 }
      else
        let relType := orFalsy tr.type "TRANSFER"
        pushEdge acc
          ⟨"edge-transfer-" ++ uid ++ "-" ++ tu.id ++ "-" ++ toString it.1,
           userNodeId uid, userNodeId tu.id, relType, relType,
           [], "transfer"⟩

/-- Edge pass, step for one per-user relationship result: emit one edge
per connected user, involved transaction and direct transfer, but only
when both endpoints exist in the node map; otherwise count the drop. -/
def relEdgeStep (m : NodeMap) (acc : EdgeAcc) (ord : Option GRelData) :
    EdgeAcc :=
  match ord with
  | none => acc
  | some rd =>
    match rd.user with
    | none => acc
    | some u =>
      if u.id = "" then acc
      else if ¬ (m.any (fun kv => kv.1 = userNodeId u.id)) then
        { acc with dropped := acc.dropped + 1 }
      else
        let a1 := rd.connectedUsers.enum.foldl (connEdgeStep m u.id) acc
        let a2 := rd.transactions.enum.foldl (txnEdgeStep m u.id) a1
        rd.directTransfers.enum.foldl (transferEdgeStep m u.id) a2

/-- The formatter result: deduplicated nodes and edges plus the count of
dropped (skipped) edge candidates. -/
structure FormattedGraph where
  nodes : List GNode
  edges : List GEdge
  dropped : Nat
deriving DecidableEq, Repr

/-- formatGraphData: node pass, then edge pass against the node map. -/
def formatGraphData (data : GData) : FormattedGraph :=
  let m := buildNodeMap data
  let acc := data.userRelationships.foldl (relEdgeStep m) ⟨[], [], 0⟩
  ⟨m.map (fun kv => kv.2), acc.edges, acc.dropped⟩

/-- The Graph component validation pass: keep only edges whose source and
target both appear in the node set, and count the filtered-out edges for
the diagnostic log. -/
def filterValidEdges (nodes : List GNode) (edges : List GEdge) :
    List GEdge × Nat :=
  let s := nodes.map (fun n => n.id)
  (edges.filter (fun e => s.contains e.source && s.contains e.target),
   (edges.filter (fun e =>
     ¬ (s.contains e.source && s.contains e.target))).length)

/-! ## API assembly (frontend services/api.js) -/

/-- The raw response data of one per-user relationship fetch; any part
may be missing or non-array in a malformed response. -/
structure ApiRelData where
  user : Option GUser
  connectedUsers : Option (List (Option GConn))
  transactions : Option (List (Option GTxn))
  directTransfers : Option (List (Option GTransfer))
deriving DecidableEq, Repr

/-- getUserRelationships: fetch one user's relationships; on any error
return a minimal valid structure instead of throwing, and otherwise
normalise the response (defaulting the user record and every list). -/
def getUserRelationships (fetch : String → Except String ApiRelData)
    (userId : String) : GRelData :=
  match fetch userId with
  | .error _ => ⟨some ⟨userId, none⟩, [], [], []⟩
  | .ok d =>
    ⟨some (d.user.getD ⟨userId, none⟩), d.connectedUsers.getD [],
     d.transactions.getD [], d.directTransfers.getD []⟩

/-- Is a main-list record present with a truthy id? -/
def validRec (ou : Option GUser) : Bool :=
  match ou with
  | none => false
  | some u => u.id ≠ ""

/-- Is a main-list transaction present with a truthy id? -/
def validTxRec (ot : Option GTxn) : Bool :=
  match ot with
  | none => false
  | some t => t.id ≠ ""

/-- Does a relationship result carry a user with a truthy id? -/
def validRelData (rd : GRelData) : Bool :=
  match rd.user with
  | none => false
  | some u => u.id ≠ ""

/-- getCompleteGraph: keep the valid users and transactions, fan out one
relationship fetch per valid user (each isolated against failure by
getUserRelationships), and keep every structurally valid result. -/
def getCompleteGraph (users : List (Option GUser)) (txs : List (Option GTxn))
    (fetch : String → Except String ApiRelData) : GData :=
  let validUsers := users.filter validRec
  let validTxs := txs.filter validTxRec
  let rels := validUsers.map (fun ou =>
    getUserRelationships fetch ((ou.getD ⟨"", none⟩).id))
  let kept := rels.filter validRelData
  ⟨validUsers, validTxs, kept.map (fun rd => some rd)⟩

/-! ## Basic lemmas about the store operations -/

theorem lookupProp_nil (k : String) : lookupProp [] k = none := rfl

theorem lookupProp_cons (kv : String × Val) (ps : Props) (k : String) :
    lookupProp (kv :: ps) k =
      if kv.1 = k then some kv.2 else lookupProp ps k := by
  simp only [lookupProp, List.find?]
  by_cases h : kv.1 = k
  · simp [h]
  · simp [h]

theorem lookupProp_append (ps qs : Props) (k : String) :
    lookupProp (ps ++ qs) k =
      (lookupProp ps k).orElse (fun _ => lookupProp qs k) := by
  induction ps with
  | nil => simp [lookupProp_nil]
  | cons kv ps ih =>
    rw [List.cons_append, lookupProp_cons, lookupProp_cons]
    by_cases h : kv.1 = k
    · simp [h]
    · simp [h, ih]

/-- When the update map binds a key, the merged map takes its value. -/
theorem lookupProp_mergeProps_of_isSome (old new : Props) (k : String)
    (h : (lookupProp new k).isSome) :
    lookupProp (mergeProps old new) k = lookupProp new k := by
  unfold mergeProps
  rw [lookupProp_append]
  have hold : lookupProp (old.filter (fun kv => (lookupProp new kv.1).isNone)) k = none := by
    induction old with
    | nil => rfl
    | cons kv ps ih =>
      rw [List.filter_cons]
      by_cases hk : (lookupProp new kv.1).isNone
      · simp only [hk, if_pos]
        rw [lookupProp_cons]
        by_cases he : kv.1 = k
        · subst he
          simp [Option.isNone_iff_eq_none.mp hk] at h
        · simp [he, ih]
      · simp only [hk, if_neg, Bool.false_eq_true, not_false_iff]
        simpa using ih
  rw [hold]
  cases hnew : lookupProp new k <;> rfl

theorem mergeNode_edges (g : Graph) (l : NodeLabel) (id : String)
    (props update : Props) : (mergeNode g l id props update).edges = g.edges := by
  unfold mergeNode
  split <;> rfl

theorem mergeEdge_nodes (g : Graph) (kind src tgt : String) (props : Props) :
    (mergeEdge g kind src tgt props).nodes = g.nodes := by
  unfold mergeEdge
  split <;> rfl

theorem mergeEdgesTo_nodes (g : Graph) (kind src : String) (props : Props)
    (tgts : List String) : (mergeEdgesTo g kind src props tgts).nodes = g.nodes := by
  unfold mergeEdgesTo
  induction tgts generalizing g with
  | nil => rfl
  | cons t ts ih => rw [List.foldl_cons, ih, mergeEdge_nodes]

theorem shareStep_nodes (g : Graph) (userId : String) (o : Option String)
    (kind attrKey : String) :
    (shareStep g userId o kind attrKey).nodes = g.nodes := by
  unfold shareStep
  split
  · split
    · rw [mergeEdgesTo_nodes]
    · rfl
  · rfl

theorem pmStep_nodes (userId : String) (g : Graph) (m : String) :
    (pmStep userId g m).nodes = g.nodes := by
  unfold pmStep
  split
  · rw [mergeEdgesTo_nodes]
  · rfl

theorem pmFold_nodes (userId : String) (pms : List String) (g : Graph) :
    (pms.foldl (pmStep userId) g).nodes = g.nodes := by
  induction pms generalizing g with
  | nil => rfl
  | cons m ms ih => rw [List.foldl_cons, ih, pmStep_nodes]

theorem createShared_nodes (g : Graph) (userId : String) (d : UserData) :
    (createSharedAttributeRelationships g userId d).nodes = g.nodes := by
  unfold createSharedAttributeRelationships
  cases d.paymentMethods with
  | none => rw [shareStep_nodes, shareStep_nodes, shareStep_nodes]
  | some pms =>
    simp only []
    split
    · rw [pmFold_nodes, shareStep_nodes, shareStep_nodes, shareStep_nodes]
    · rw [shareStep_nodes, shareStep_nodes, shareStep_nodes]

theorem txShareStep_nodes (g : Graph) (txId : String) (o : Option String)
    (kind attrKey : String) :
    (txShareStep g txId o kind attrKey).nodes = g.nodes := by
  unfold txShareStep
  split
  · split
    · rw [mergeEdgesTo_nodes]
    · rfl
  · rfl

theorem createTxLinks_nodes (g : Graph) (txId : String) (d : TxData) :
    (createTransactionLinkRelationships g txId d).nodes = g.nodes := by
  unfold createTransactionLinkRelationships
  rw [txShareStep_nodes, txShareStep_nodes, txShareStep_nodes]

/-- Edge operations only ever append to the stored edge list. -/
theorem mergeEdge_mem (g : Graph) (kind src tgt : String) (props : Props)
    (e : Edge) (h : e ∈ g.edges) : e ∈ (mergeEdge g kind src tgt props).edges := by
  unfold mergeEdge
  split
  · exact h
  · exact List.mem_append_left _ h

theorem mergeEdgesTo_mem (g : Graph) (kind src : String) (props : Props)
    (tgts : List String) (e : Edge) (h : e ∈ g.edges) :
    e ∈ (mergeEdgesTo g kind src props tgts).edges := by
  unfold mergeEdgesTo
  induction tgts generalizing g with
  | nil => exact h
  | cons t ts ih =>
    rw [List.foldl_cons]
    exact ih _ (mergeEdge_mem _ _ _ _ _ _ h)

theorem sentMoneyStep_nodes (g : Graph) (d : TxData) (id : String) :
    (sentMoneyStep g d id).nodes = g.nodes := by
  unfold sentMoneyStep
  split
  · split
    · rw [mergeEdge_nodes]
    · rfl
  · rfl

theorem receivedByStep_nodes (g : Graph) (d : TxData) (id : String) :
    (receivedByStep g d id).nodes = g.nodes := by
  unfold receivedByStep
  split
  · split
    · rw [mergeEdge_nodes]
    · rfl
  · rfl

theorem transferredToStep_nodes (g : Graph) (d : TxData) (id now : String) :
    (transferredToStep g d id now).nodes = g.nodes := by
  unfold transferredToStep
  split
  · split
    · rw [mergeEdge_nodes]
    · rfl
  · rfl

/-- A user upsert changes nodes exactly as its node MERGE does. -/
theorem userUpsert_nodes (g : Graph) (d : UserData) (now freshId : String) :
    (userCreateOrUpdate g d now freshId).nodes =
      (mergeNode g .user (orFalsy d.id freshId)
        (userBaseProps d (orFalsy d.id freshId) now)
        (userBaseProps d (orFalsy d.id freshId) now)).nodes := by
  show (createSharedAttributeRelationships
    (mergeNode g .user (orFalsy d.id freshId)
      (userBaseProps d (orFalsy d.id freshId) now)
      (userBaseProps d (orFalsy d.id freshId) now)) (orFalsy d.id freshId)
    d).nodes = _
  rw [createShared_nodes]

/-- A transaction upsert changes nodes exactly as its node MERGE does. -/
theorem txUpsert_nodes (g : Graph) (d : TxData) (now freshId : String) :
    (transactionCreateOrUpdate g d now freshId).nodes =
      (mergeNode g .transaction (orFalsy d.id freshId)
        (txBaseProps d (orFalsy d.id freshId) now)
        (txBaseProps d (orFalsy d.id freshId) now)).nodes := by
  show (createTransactionLinkRelationships
    (transferredToStep (receivedByStep (sentMoneyStep
      (mergeNode g .transaction (orFalsy d.id freshId)
        (txBaseProps d (orFalsy d.id freshId) now)
        (txBaseProps d (orFalsy d.id freshId) now)) d (orFalsy d.id freshId))
      d (orFalsy d.id freshId)) d (orFalsy d.id freshId) now)
    (orFalsy d.id freshId) d).nodes = _
  rw [createTxLinks_nodes, transferredToStep_nodes, receivedByStep_nodes,
    sentMoneyStep_nodes]

/-- A node MERGE on an absent node appends exactly one new node carrying
the ON CREATE property map. -/
theorem mergeNode_of_not_exists (g : Graph) (l : NodeLabel) (id : String)
    (props update : Props) (h : nodeExists g l id = false) :
    (mergeNode g l id props update).nodes = g.nodes ++ [⟨l, id, props⟩] := by
  unfold mergeNode
  rw [h]
  simp

/-- Node existence is reflected in the id list. -/
theorem nodeExists_false_of_forall (g : Graph) (l : NodeLabel) (id : String)
    (h : ∀ n ∈ g.nodes, n.id ≠ id) : nodeExists g l id = false := by
  unfold nodeExists
  rw [List.any_eq_false]
  intro n hn
  simp only [Bool.and_eq_true, decide_eq_true_eq, not_and]
  intro _
  exact fun hid => h n hn hid

/-- First stored node with the given label and id. -/
def storedNode (g : Graph) (l : NodeLabel) (id : String) : Option Node :=
  g.nodes.find? (fun n => n.label = l && n.id = id)

/-- A stored property of the first node with the given label and id. -/
def storedProp (g : Graph) (l : NodeLabel) (id k : String) : Option Val :=
  match storedNode g l id with
  | some n => lookupProp n.props k
  | none => none

/-- A matched node MERGE leaves the first matching node with its old
properties merged with the update map. -/
theorem storedNode_mergeNode_self (g : Graph) (l : NodeLabel) (id : String)
    (props update : Props) (h : nodeExists g l id = true) :
    ∃ n0, storedNode g l id = some n0 ∧
      storedNode (mergeNode g l id props update) l id =
        some ⟨n0.label, n0.id, mergeProps n0.props update⟩ := by
  have hf0 : (g.nodes.find? fun n => n.label = l && n.id = id).isSome := by
    rw [List.find?_isSome]
    have h2 := h
    unfold nodeExists at h2
    rw [List.any_eq_true] at h2
    exact h2
  obtain ⟨n0, hf⟩ := Option.isSome_iff_exists.mp hf0
  refine ⟨n0, hf, ?_⟩
  unfold mergeNode
  rw [h]
  simp only [if_true]
  unfold storedNode
  simp only []
  rw [List.find?_map]
  have hcomp : ((fun n : Node => n.label = l && n.id = id) ∘
      (fun n : Node => if n.label = l && n.id = id then
        { n with props := mergeProps n.props update } else n)) =
      (fun n : Node => n.label = l && n.id = id) := by
    funext m
    by_cases hm : (m.label = l && m.id = id) = true
    · simp only [Function.comp_apply, if_pos hm]
    · simp only [Function.comp_apply, if_neg hm]
  rw [hcomp, hf]
  have hn0 := List.find?_some hf
  simp only [Option.map_some']
  rw [if_pos hn0]

end UTV

namespace UTV

theorem orFalsy_some (v d : String) (h : v ≠ "") : orFalsy (some v) d = v := by
  simp only [orFalsy]
  rw [if_neg h]

theorem orFalsy_none (d : String) : orFalsy none d = d := rfl

/-- Nodes with the same node list store the same first match. -/
theorem storedNode_congr (g1 g2 : Graph) (l : NodeLabel) (id : String)
    (h : g1.nodes = g2.nodes) : storedNode g1 l id = storedNode g2 l id := by
  unfold storedNode
  rw [h]

theorem lookupProp_userBaseProps_createdAt (d : UserData) (id now : String) :
    lookupProp (userBaseProps d id now) "createdAt" =
      some (.s (orFalsy d.createdAt now)) := rfl

theorem lookupProp_txBaseProps_createdAt (d : TxData) (id now : String) :
    lookupProp (txBaseProps d id now) "createdAt" =
      some (.s (orFalsy d.createdAt now)) := rfl

end UTV

namespace UTV

/-- C10: when the payload carries no id, createOrUpdate resolves the node
id to a freshly generated UUID, so the MERGE matches nothing and a new
node is appended; the existing nodes are untouched, and two successive
id-less calls with the same payload therefore produce two distinct new
nodes (one per generated UUID). -/
theorem idless_upsert_always_creates (g : Graph) (d : UserData) (td : TxData)
    (n1 n2 f1 f2 : String)
    (hd : d.id = none) (htd : td.id = none)
    (hf1 : ∀ n ∈ g.nodes, n.id ≠ f1) (hf2 : ∀ n ∈ g.nodes, n.id ≠ f2)
    (hne : f1 ≠ f2) :
    ((userCreateOrUpdate (userCreateOrUpdate g d n1 f1) d n2 f2).nodes =
      g.nodes ++ [⟨.user, f1, userBaseProps d f1 n1⟩] ++
        [⟨.user, f2, userBaseProps d f2 n2⟩]) ∧
    ((transactionCreateOrUpdate (transactionCreateOrUpdate g td n1 f1) td
        n2 f2).nodes =
      g.nodes ++ [⟨.transaction, f1, txBaseProps td f1 n1⟩] ++
        [⟨.transaction, f2, txBaseProps td f2 n2⟩]) := by
  constructor
  · have h1 : (userCreateOrUpdate g d n1 f1).nodes =
        g.nodes ++ [⟨.user, f1, userBaseProps d f1 n1⟩] := by
      rw [userUpsert_nodes, hd, orFalsy_none,
        mergeNode_of_not_exists _ _ _ _ _ (nodeExists_false_of_forall _ _ _ hf1)]
    rw [userUpsert_nodes, hd, orFalsy_none,
      mergeNode_of_not_exists _ _ _ _ _ (nodeExists_false_of_forall _ _ _ ?hfr), h1]
    case hfr =>
      intro n hn
      rw [h1] at hn
      rcases List.mem_append.mp hn with hl | hr
      · exact hf2 n hl
      · rw [List.mem_singleton] at hr
        rw [hr]
        exact hne
  · have h1 : (transactionCreateOrUpdate g td n1 f1).nodes =
        g.nodes ++ [⟨.transaction, f1, txBaseProps td f1 n1⟩] := by
      rw [txUpsert_nodes, htd, orFalsy_none,
        mergeNode_of_not_exists _ _ _ _ _ (nodeExists_false_of_forall _ _ _ hf1)]
    rw [txUpsert_nodes, htd, orFalsy_none,
      mergeNode_of_not_exists _ _ _ _ _ (nodeExists_false_of_forall _ _ _ ?hfr2), h1]
    case hfr2 =>
      intro n hn
      rw [h1] at hn
      rcases List.mem_append.mp hn with hl | hr
      · exact hf2 n hl
      · rw [List.mem_singleton] at hr
        rw [hr]
        exact hne

/-- The id-less payloads used to witness the id-less upsert claim. -/
def dIdless : UserData := ⟨none, "Alice", none, none, none, none, none⟩

/-- The id-less transaction payload used in the same witness. -/
def tdIdless : TxData :=
  ⟨none, "100", none, some "TS", none, none, none, none, none, none, none, none⟩

/-- Witness for the id-less upsert claim at a concrete empty store. -/
theorem idless_upsert_always_creates_witness :
    ((userCreateOrUpdate (userCreateOrUpdate ⟨[], []⟩ dIdless "T1" "u1")
        dIdless "T2" "u2").nodes =
      [] ++ [⟨.user, "u1", userBaseProps dIdless "u1" "T1"⟩] ++
        [⟨.user, "u2", userBaseProps dIdless "u2" "T2"⟩]) ∧
    ((transactionCreateOrUpdate (transactionCreateOrUpdate ⟨[], []⟩ tdIdless
        "T1" "u1") tdIdless "T2" "u2").nodes =
      [] ++ [⟨.transaction, "u1", txBaseProps tdIdless "u1" "T1"⟩] ++
        [⟨.transaction, "u2", txBaseProps tdIdless "u2" "T2"⟩]) :=
  idless_upsert_always_creates ⟨[], []⟩ dIdless tdIdless "T1" "T2" "u1" "u2"
    rfl rfl (by intro n hn; cases hn) (by intro n hn; cases hn) (by decide)

end UTV

namespace UTV

/-- C9: re-upserting an existing User or Transaction with a payload that
omits createdAt overwrites the stored createdAt with the clock reading
of the new upsert — the ON MATCH update map carries a freshly generated
createdAt — so the creation timestamp is not preserved. -/
theorem createdAt_overwritten_on_update (g : Graph) (d : UserData)
    (td : TxData) (now f i j : String)
    (hdi : d.id = some i) (hine : i ≠ "") (hdc : d.createdAt = none)
    (hex : nodeExists g .user i = true)
    (htj : td.id = some j) (hjne : j ≠ "") (htc : td.createdAt = none)
    (htex : nodeExists g .transaction j = true) :
    storedProp (userCreateOrUpdate g d now f) .user i "createdAt" =
      some (.s now) ∧
    storedProp (transactionCreateOrUpdate g td now f) .transaction j
      "createdAt" = some (.s now) := by
  constructor
  · obtain ⟨n0, hn0, hmerged⟩ := storedNode_mergeNode_self g .user i
      (userBaseProps d i now) (userBaseProps d i now) hex
    unfold storedProp
    rw [storedNode_congr _ (mergeNode g .user i (userBaseProps d i now)
      (userBaseProps d i now)) .user i
      (by rw [userUpsert_nodes, hdi, orFalsy_some i f hine])]
    rw [hmerged]
    simp only []
    rw [lookupProp_mergeProps_of_isSome _ _ _
      (by rw [lookupProp_userBaseProps_createdAt]; rfl)]
    rw [lookupProp_userBaseProps_createdAt, hdc, orFalsy_none]
  · obtain ⟨n0, hn0, hmerged⟩ := storedNode_mergeNode_self g .transaction j
      (txBaseProps td j now) (txBaseProps td j now) htex
    unfold storedProp
    rw [storedNode_congr _ (mergeNode g .transaction j (txBaseProps td j now)
      (txBaseProps td j now)) .transaction j
      (by rw [txUpsert_nodes, htj, orFalsy_some j f hjne])]
    rw [hmerged]
    simp only []
    rw [lookupProp_mergeProps_of_isSome _ _ _
      (by rw [lookupProp_txBaseProps_createdAt]; rfl)]
    rw [lookupProp_txBaseProps_createdAt, htc, orFalsy_none]

/-- Store fixture for the createdAt-overwrite witness: two users whose
createdAt values order the listing as B before A, plus one transaction. -/
def c9Store : Graph :=
  ⟨[⟨.user, "A", [("id", .s "A"), ("name", .s "a"),
      ("createdAt", .s "2024-01-01")]⟩,
    ⟨.user, "B", [("id", .s "B"), ("name", .s "b"),
      ("createdAt", .s "2025-01-01")]⟩,
    ⟨.transaction, "T", [("id", .s "T"),
      ("createdAt", .s "2024-02-02")]⟩], []⟩

/-- Re-upsert payload for user A, omitting createdAt. -/
def c9User : UserData := ⟨some "A", "a", none, none, none, none, none⟩

/-- Re-upsert payload for transaction T, omitting createdAt. -/
def c9Tx : TxData :=
  ⟨some "T", "100", none, some "TS", none, none, none, none, none, none,
   none, none⟩

/-- Witness for the createdAt-overwrite claim: the re-upsert at a later
clock reading rewrites createdAt, and the ordered-by-createdAt listing
moves user A from last to first. -/
theorem createdAt_overwritten_on_update_witness :
    (storedProp (userCreateOrUpdate c9Store c9User "2026-01-01" "f") .user
      "A" "createdAt" = some (.s "2026-01-01") ∧
     storedProp (transactionCreateOrUpdate c9Store c9Tx "2026-01-01" "f")
      .transaction "T" "createdAt" = some (.s "2026-01-01")) ∧
    (usersGetAll c9Store).map Node.id = ["B", "A"] ∧
    (usersGetAll (userCreateOrUpdate c9Store c9User "2026-01-01" "f")).map
      Node.id = ["A", "B"] :=
  ⟨createdAt_overwritten_on_update c9Store c9User c9Tx "2026-01-01" "f"
    "A" "T" rfl (by decide) rfl (by decide) rfl (by decide) rfl (by decide),
   by decide, by decide⟩

end UTV

namespace UTV

/-- One-user store missing the source user of the query. -/
def c3OnlyB : Graph := ⟨[⟨.user, "B", [("id", .s "B")]⟩], []⟩

/-- One-user store missing the target user of the query. -/
def c3OnlyA : Graph := ⟨[⟨.user, "A", [("id", .s "A")]⟩], []⟩

/-- C3 counterexample: when the source is missing and when the target is
missing, findShortestPath produces the same fixed error value, so the
NotFound condition cannot be naming which identifier is missing. -/
theorem shortestPath_error_does_not_name_missing_id :
    findShortestPath c3OnlyB "A" "B" 5 =
      .error "One or both users not found" ∧
    findShortestPath c3OnlyA "A" "B" 5 =
      .error "One or both users not found" ∧
    findShortestPath c3OnlyB "A" "B" 5 = findShortestPath c3OnlyA "A" "B" 5 :=
  ⟨rfl, rfl, rfl⟩

/-- C3 amended: findShortestPath requires both users to exist; when
either is missing it throws the one fixed error message (which does not
identify the missing user), surfaced by the route as a 500 response,
while parameter validation failures are rejected with 400 before any
lookup. -/
theorem shortestPath_notFound_amended (g : Graph) (s t : String) (k : Nat) :
    (¬ (nodeExists g .user s = true ∧ nodeExists g .user t = true) →
      findShortestPath g s t k = .error "One or both users not found") ∧
    (nodeExists g .user s = true ∧ nodeExists g .user t = true →
      ∃ r, findShortestPath g s t k = .ok r) ∧
    (∀ sp tp : Option String, truthy sp = true → truthy tp = true →
      ¬ (nodeExists g .user (sp.getD "") = true ∧
         nodeExists g .user (tp.getD "") = true) →
      shortestPathHandler g sp tp none =
        (500, .serverError "Failed to find shortest path"
          "One or both users not found")) ∧
    (∀ sp tp mk : Option String, ¬ (truthy sp = true ∧ truthy tp = true) →
      shortestPathHandler g sp tp mk =
        (400, .badRequest "Missing required parameters")) := by
  have herr : ¬ (nodeExists g .user s = true ∧ nodeExists g .user t = true) →
      findShortestPath g s t k = .error "One or both users not found" := by
    intro h
    unfold findShortestPath
    rw [if_pos (fun hco => h (Bool.and_eq_true_iff.mp hco))]
  refine ⟨herr, ?_, ?_, ?_⟩
  · intro h
    unfold findShortestPath
    rw [if_neg (fun hno => hno (Bool.and_eq_true_iff.mpr ⟨h.1, h.2⟩))]
    cases shortestWalk g s t k with
    | none => exact ⟨.noPath "No path found between users", rfl⟩
    | some p => exact ⟨.found (p.length - 1) (mkSteps g p), rfl⟩
  · intro sp tp hsp htp hmiss
    unfold shortestPathHandler
    rw [if_neg (fun hno => hno (Bool.and_eq_true_iff.mpr ⟨hsp, htp⟩))]
    simp only [truthy, Bool.false_eq_true, if_false, Int.reduceLE]
    have h5 : findShortestPath g (sp.getD "") (tp.getD "")
        ((5 : Int)).toNat = .error "One or both users not found" := by
      unfold findShortestPath
      rw [if_pos (fun hco => hmiss (Bool.and_eq_true_iff.mp hco))]
    rw [h5]
  · intro sp tp mk h
    unfold shortestPathHandler
    rw [if_pos (fun hco => h (Bool.and_eq_true_iff.mp hco))]

/-- Witness for the amended NotFound claim at a concrete store. -/
theorem shortestPath_notFound_amended_witness :
    findShortestPath c3OnlyB "A" "B" 5 =
      .error "One or both users not found" ∧
    shortestPathHandler c3OnlyB (some "A") (some "B") none =
      (500, .serverError "Failed to find shortest path"
        "One or both users not found") ∧
    shortestPathHandler c3OnlyB none (some "B") none =
      (400, .badRequest "Missing required parameters") :=
  have h := shortestPath_notFound_amended c3OnlyB "A" "B" 5
  ⟨h.1 (by decide), h.2.2.1 (some "A") (some "B") (by decide) (by decide)
    (by decide), h.2.2.2 none (some "B") none (by decide)⟩

end UTV

namespace UTV

theorem countEdges_eq_of_edges (g1 g2 : Graph) (k s t : String)
    (h : g1.edges = g2.edges) : countEdges g1 k s t = countEdges g2 k s t := by
  unfold countEdges
  rw [h]

theorem edgeMatches_triple (e : Edge) (k s t : String) (p : Props)
    (h : edgeMatches e k s t p = true) :
    (e.kind = k && e.src = s && e.tgt = t) = true := by
  unfold edgeMatches at h
  simp only [Bool.and_eq_true] at h ⊢
  exact h.1

theorem countEdges_mergeEdge_other (g : Graph) (k s t : String) (p : Props)
    (k' s' t' : String) (h : (k = k' ∧ s = s' ∧ t = t') → False) :
    countEdges (mergeEdge g k s t p) k' s' t' = countEdges g k' s' t' := by
  unfold mergeEdge
  split
  · rfl
  · unfold countEdges
    simp only [List.filter_append, List.length_append, List.filter_cons,
      List.filter_nil]
    split
    · rename_i hc
      exfalso
      simp only [Bool.and_eq_true, decide_eq_true_eq] at hc
      exact h ⟨hc.1.1, hc.1.2, hc.2⟩
    · simp

theorem countEdges_mergeEdge_eq (g : Graph) (k s t : String) (p : Props)
    (h0 : countEdges g k s t = 0) :
    countEdges (mergeEdge g k s t p) k s t = 1 := by
  unfold mergeEdge
  split
  · rename_i hany
    exfalso
    rw [List.any_eq_true] at hany
    obtain ⟨e, he, hm⟩ := hany
    have ht := edgeMatches_triple e k s t p hm
    unfold countEdges at h0
    rw [List.length_eq_zero] at h0
    have hmem : e ∈ g.edges.filter
        (fun e => e.kind = k && e.src = s && e.tgt = t) :=
      List.mem_filter.mpr ⟨he, ht⟩
    rw [h0] at hmem
    cases hmem
  · unfold countEdges
    simp only [List.filter_append, List.length_append, List.filter_cons,
      List.filter_nil]
    unfold countEdges at h0
    rw [h0]
    split
    · simp
    · rename_i hc
      exfalso
      apply hc
      simp

/-- A property map whose every binding is recovered by its own lookup
(i.e. it has no conflicting duplicate keys). -/
def selfConsistent (p : Props) : Bool :=
  p.all (fun kv => lookupProp p kv.1 = some kv.2)

theorem mergeEdge_establishes (g : Graph) (k s t : String) (p : Props)
    (hp : selfConsistent p = true) :
    ∃ e ∈ (mergeEdge g k s t p).edges, edgeMatches e k s t p = true := by
  unfold mergeEdge
  split
  · rename_i hany
    rw [List.any_eq_true] at hany
    obtain ⟨e, he, hm⟩ := hany
    exact ⟨e, he, hm⟩
  · refine ⟨⟨k, s, t, p⟩, List.mem_append_right _ (List.mem_singleton_self _), ?_⟩
    unfold edgeMatches
    unfold selfConsistent at hp
    simp only [hp]
    simp

theorem countEdges_mergeEdgesTo_stable (g : Graph) (k s b : String)
    (p : Props) (tgts : List String)
    (hex : ∃ e ∈ g.edges, edgeMatches e k s b p = true)
    (h1 : countEdges g k s b = 1) :
    countEdges (mergeEdgesTo g k s p tgts) k s b = 1 := by
  induction tgts generalizing g with
  | nil => exact h1
  | cons t ts ih =>
    unfold mergeEdgesTo
    rw [List.foldl_cons]
    by_cases hb : t = b
    · subst hb
      have hskip : mergeEdge g k s t p = g := by
        unfold mergeEdge
        rw [if_pos]
        rw [List.any_eq_true]
        exact hex
      rw [hskip]
      exact ih g hex h1
    · apply ih
      · obtain ⟨e, he, hm⟩ := hex
        exact ⟨e, mergeEdge_mem _ _ _ _ _ _ he, hm⟩
      · rw [countEdges_mergeEdge_other g k s t p k s b
          (fun hc => hb hc.2.2)]
        exact h1

theorem countEdges_mergeEdgesTo_mem (g : Graph) (k s b : String) (p : Props)
    (tgts : List String) (hp : selfConsistent p = true)
    (h0 : countEdges g k s b = 0) (hb : b ∈ tgts) :
    countEdges (mergeEdgesTo g k s p tgts) k s b = 1 := by
  induction tgts generalizing g with
  | nil => cases hb
  | cons t ts ih =>
    unfold mergeEdgesTo
    rw [List.foldl_cons]
    by_cases hbt : t = b
    · subst hbt
      have h1 : countEdges (mergeEdge g k s t p) k s t = 1 :=
        countEdges_mergeEdge_eq g k s t p h0
      exact countEdges_mergeEdgesTo_stable _ _ _ _ _ _
        (mergeEdge_establishes g k s t p hp) h1
    · have hb2 : b ∈ ts := by
        cases hb with
        | head => exact absurd rfl hbt
        | tail _ h => exact h
      apply ih _ _ hb2
      rw [countEdges_mergeEdge_other g k s t p k s b (fun hc => hbt hc.2.2)]
      exact h0

theorem mergeEdgesTo_cons (g : Graph) (k s : String) (p : Props)
    (t : String) (ts : List String) :
    mergeEdgesTo g k s p (t :: ts) = mergeEdgesTo (mergeEdge g k s t p) k s p ts := rfl

theorem countEdges_mergeEdgesTo_other (g : Graph) (k s : String) (p : Props)
    (tgts : List String) (k' s' t' : String)
    (h : ∀ t ∈ tgts, (k = k' ∧ s = s' ∧ t = t') → False) :
    countEdges (mergeEdgesTo g k s p tgts) k' s' t' = countEdges g k' s' t' := by
  induction tgts generalizing g with
  | nil => rfl
  | cons t ts ih =>
    rw [mergeEdgesTo_cons]
    rw [ih (mergeEdge g k s t p) (fun t2 ht2 => h t2 (List.mem_cons_of_mem _ ht2))]
    exact countEdges_mergeEdge_other g k s t p k' s' t' (h t (List.mem_cons_self _ _))

theorem countEdges_shareStep_other (g : Graph) (uid : String)
    (o : Option String) (kind key k' s' t' : String)
    (h : ∀ t : String, (kind = k' ∧ uid = s' ∧ t = t') → False) :
    countEdges (shareStep g uid o kind key) k' s' t' = countEdges g k' s' t' := by
  unfold shareStep
  split
  · split
    · exact countEdges_mergeEdgesTo_other _ _ _ _ _ _ _ _ (fun t _ => h t)
    · rfl
  · rfl

theorem countEdges_pmStep_other (uid : String) (g : Graph) (m : String)
    (k' s' t' : String)
    (h : ∀ t : String, ("SHARES_PAYMENT_METHOD" = k' ∧ uid = s' ∧ t = t') → False) :
    countEdges (pmStep uid g m) k' s' t' = countEdges g k' s' t' := by
  unfold pmStep
  split
  · exact countEdges_mergeEdgesTo_other _ _ _ _ _ _ _ _ (fun t _ => h t)
  · rfl

theorem countEdges_pmFold_other (uid : String) (pms : List String) (g : Graph)
    (k' s' t' : String)
    (h : ∀ t : String, ("SHARES_PAYMENT_METHOD" = k' ∧ uid = s' ∧ t = t') → False) :
    countEdges (pms.foldl (pmStep uid) g) k' s' t' = countEdges g k' s' t' := by
  induction pms generalizing g with
  | nil => rfl
  | cons m ms ih =>
    rw [List.foldl_cons, ih _]
    exact countEdges_pmStep_other uid g m k' s' t' h

end UTV

namespace UTV

theorem nodeExists_mergeNode_self (g : Graph) (l : NodeLabel) (id : String)
    (props update : Props) :
    nodeExists (mergeNode g l id props update) l id = true := by
  unfold mergeNode
  split
  · rename_i hex
    unfold nodeExists at hex ⊢
    rw [List.any_eq_true] at hex ⊢
    obtain ⟨n, hn, hp⟩ := hex
    refine ⟨if n.label = l && n.id = id then
      { n with props := mergeProps n.props update } else n,
      List.mem_map_of_mem _ hn, ?_⟩
    rw [if_pos hp]
    exact hp
  · unfold nodeExists
    rw [List.any_eq_true]
    exact ⟨⟨l, id, props⟩, List.mem_append_right _ (List.mem_singleton_self _),
      by simp⟩

theorem mem_nodes_mergeNode_of_ne (g : Graph) (l : NodeLabel) (id : String)
    (props update : Props) (n : Node) (hn : n ∈ g.nodes) (hne : n.id ≠ id) :
    n ∈ (mergeNode g l id props update).nodes := by
  unfold mergeNode
  split
  · simp only []
    refine List.mem_map.mpr ⟨n, hn, ?_⟩
    rw [if_neg]
    intro hc
    rw [Bool.and_eq_true] at hc
    exact hne (by simpa using hc.2)
  · exact List.mem_append_left _ hn

theorem mergeEdge_new_src (g : Graph) (k s t : String) (p : Props) (e : Edge)
    (he : e ∈ (mergeEdge g k s t p).edges) : e ∈ g.edges ∨ e.src = s := by
  unfold mergeEdge at he
  split at he
  · exact Or.inl he
  · rcases List.mem_append.mp he with hl | hr
    · exact Or.inl hl
    · rw [List.mem_singleton] at hr
      rw [hr]
      exact Or.inr rfl

theorem mergeEdgesTo_src (g : Graph) (k s : String) (p : Props)
    (tgts : List String) (e : Edge)
    (he : e ∈ (mergeEdgesTo g k s p tgts).edges) : e ∈ g.edges ∨ e.src = s := by
  induction tgts generalizing g with
  | nil => exact Or.inl he
  | cons t ts ih =>
    rw [mergeEdgesTo_cons] at he
    rcases ih _ he with hm | hs
    · exact mergeEdge_new_src g k s t p e hm
    · exact Or.inr hs

theorem shareStep_src (g : Graph) (uid : String) (o : Option String)
    (kind key : String) (e : Edge)
    (he : e ∈ (shareStep g uid o kind key).edges) : e ∈ g.edges ∨ e.src = uid := by
  unfold shareStep at he
  split at he
  · split at he
    · exact mergeEdgesTo_src _ _ _ _ _ _ he
    · exact Or.inl he
  · exact Or.inl he

theorem pmStep_src (uid : String) (g : Graph) (m : String) (e : Edge)
    (he : e ∈ (pmStep uid g m).edges) : e ∈ g.edges ∨ e.src = uid := by
  unfold pmStep at he
  split at he
  · exact mergeEdgesTo_src _ _ _ _ _ _ he
  · exact Or.inl he

theorem pmFold_src (uid : String) (pms : List String) (g : Graph) (e : Edge)
    (he : e ∈ (pms.foldl (pmStep uid) g).edges) : e ∈ g.edges ∨ e.src = uid := by
  induction pms generalizing g with
  | nil => exact Or.inl he
  | cons m ms ih =>
    rw [List.foldl_cons] at he
    rcases ih _ he with hm | hs
    · exact pmStep_src uid g m e hm
    · exact Or.inr hs

theorem createShared_src (g : Graph) (uid : String) (d : UserData) (e : Edge)
    (he : e ∈ (createSharedAttributeRelationships g uid d).edges) :
    e ∈ g.edges ∨ e.src = uid := by
  unfold createSharedAttributeRelationships at he
  have step3 : ∀ e2 : Edge, e2 ∈ (shareStep (shareStep (shareStep g uid d.email
      "SHARES_EMAIL" "email") uid d.phone "SHARES_PHONE" "phone") uid
      d.address "SHARES_ADDRESS" "address").edges → e2 ∈ g.edges ∨ e2.src = uid := by
    intro e2 h2
    rcases shareStep_src _ _ _ _ _ _ h2 with h2 | h2
    · rcases shareStep_src _ _ _ _ _ _ h2 with h3 | h3
      · exact shareStep_src _ _ _ _ _ _ h3
      · exact Or.inr h3
    · exact Or.inr h2
  rcases hpm : d.paymentMethods with _ | pms
  · rw [hpm] at he
    exact step3 e he
  · rw [hpm] at he
    simp only [] at he
    split at he
    · rcases pmFold_src _ _ _ _ he with hm | hs
      · exact step3 e hm
      · exact Or.inr hs
    · exact step3 e he

/-- Every edge a user upsert adds has the written user as its source. -/
theorem userUpsert_new_src (g : Graph) (d : UserData) (now f : String)
    (e : Edge) (he : e ∈ (userCreateOrUpdate g d now f).edges) :
    e ∈ g.edges ∨ e.src = orFalsy d.id f := by
  unfold userCreateOrUpdate at he
  rcases createShared_src _ _ _ _ he with hm | hs
  · rw [mergeNode_edges] at hm
    exact Or.inl hm
  · exact Or.inr hs

end UTV

namespace UTV

theorem countEdges_createShared_email (g : Graph) (uid : String)
    (d : UserData) (b : String)
    (he : truthy d.email = true) (hex : nodeExists g .user uid = true)
    (h0 : countEdges g "SHARES_EMAIL" uid b = 0)
    (hb : b ∈ sharesScan g.nodes .user uid "email" (.s (d.email.getD ""))) :
    countEdges (createSharedAttributeRelationships g uid d) "SHARES_EMAIL"
      uid b = 1 := by
  unfold createSharedAttributeRelationships
  have hemail : countEdges (shareStep g uid d.email "SHARES_EMAIL" "email")
      "SHARES_EMAIL" uid b = 1 := by
    unfold shareStep
    rw [if_pos he, if_pos hex]
    exact countEdges_mergeEdgesTo_mem _ _ _ _ _ _
      (by simp [selfConsistent, lookupProp]) h0 hb
  have hphone : countEdges (shareStep (shareStep g uid d.email "SHARES_EMAIL"
      "email") uid d.phone "SHARES_PHONE" "phone") "SHARES_EMAIL" uid b = 1 := by
    rw [countEdges_shareStep_other _ _ _ _ _ _ _ _
      (fun t hc => by exact absurd hc.1 (by decide))]
    exact hemail
  have haddr : countEdges (shareStep (shareStep (shareStep g uid d.email
      "SHARES_EMAIL" "email") uid d.phone "SHARES_PHONE" "phone") uid
      d.address "SHARES_ADDRESS" "address") "SHARES_EMAIL" uid b = 1 := by
    rw [countEdges_shareStep_other _ _ _ _ _ _ _ _
      (fun t hc => by exact absurd hc.1 (by decide))]
    exact hphone
  rcases hpm : d.paymentMethods with _ | pms
  · exact haddr
  · simp only []
    split
    · rw [countEdges_pmFold_other _ _ _ _ _ _
        (fun t hc => by exact absurd hc.1 (by decide))]
      exact haddr
    · exact haddr

theorem countEdges_createShared_other_src (g : Graph) (uid : String)
    (d : UserData) (k' s' t' : String) (hs : uid ≠ s') :
    countEdges (createSharedAttributeRelationships g uid d) k' s' t' =
      countEdges g k' s' t' := by
  unfold createSharedAttributeRelationships
  have hstep : ∀ (g2 : Graph) (o : Option String) (kind key : String),
      countEdges (shareStep g2 uid o kind key) k' s' t' =
        countEdges g2 k' s' t' :=
    fun g2 o kind key => countEdges_shareStep_other g2 uid o kind key k' s' t'
      (fun t hc => hs hc.2.1)
  rcases hpm : d.paymentMethods with _ | pms
  · rw [hstep, hstep, hstep]
  · simp only []
    split
    · rw [countEdges_pmFold_other _ _ _ _ _ _ (fun t hc => hs hc.2.1),
        hstep, hstep, hstep]
    · rw [hstep, hstep, hstep]

/-- C2: upserting only user A with an email equal to user B's stored
email, the two not yet linked, creates exactly one SHARES_EMAIL edge
A to B and none B to A; more generally every edge the upsert adds has
the written user as its source. -/
theorem shared_email_edge_asymmetric (g : Graph) (d : UserData)
    (now f a b e : String) (B : Node)
    (hda : d.id = some a) (hane : a ≠ "")
    (hde : d.email = some e) (hene : e ≠ "")
    (hBmem : B ∈ g.nodes) (hBlabel : B.label = .user) (hBid : B.id = b)
    (hBemail : lookupProp B.props "email" = some (.s e))
    (hab : a ≠ b)
    (h0ab : countEdges g "SHARES_EMAIL" a b = 0)
    (h0ba : countEdges g "SHARES_EMAIL" b a = 0) :
    countEdges (userCreateOrUpdate g d now f) "SHARES_EMAIL" a b = 1 ∧
    countEdges (userCreateOrUpdate g d now f) "SHARES_EMAIL" b a = 0 ∧
    ∀ e2 ∈ (userCreateOrUpdate g d now f).edges, e2 ∉ g.edges → e2.src = a := by
  have heq : userCreateOrUpdate g d now f =
      createSharedAttributeRelationships
        (mergeNode g .user a (userBaseProps d a now) (userBaseProps d a now))
        a d := by
    unfold userCreateOrUpdate
    rw [hda, orFalsy_some a f hane]
  have hedges : (mergeNode g .user a (userBaseProps d a now)
      (userBaseProps d a now)).edges = g.edges := mergeNode_edges _ _ _ _ _
  have hBmem2 : B ∈ (mergeNode g .user a (userBaseProps d a now)
      (userBaseProps d a now)).nodes :=
    mem_nodes_mergeNode_of_ne _ _ _ _ _ B hBmem (by rw [hBid]; exact fun hc => hab hc.symm)
  have hscan : b ∈ sharesScan (mergeNode g .user a (userBaseProps d a now)
      (userBaseProps d a now)).nodes .user a "email" (.s (d.email.getD "")) := by
    unfold sharesScan
    refine List.mem_map.mpr ⟨B, List.mem_filter.mpr ⟨hBmem2, ?_⟩, hBid⟩
    rw [hde]
    simp only [Option.getD_some, Bool.and_eq_true, decide_eq_true_eq]
    refine ⟨⟨hBlabel, ?_⟩, hBemail⟩
    rw [hBid]
    exact fun hc => hab hc.symm
  refine ⟨?_, ?_, ?_⟩
  · rw [heq]
    apply countEdges_createShared_email _ _ _ _
      (by rw [hde]; unfold truthy; simpa using hene)
      (nodeExists_mergeNode_self _ _ _ _ _) _ hscan
    rw [countEdges_eq_of_edges _ g _ _ _ hedges]
    exact h0ab
  · rw [heq]
    rw [countEdges_createShared_other_src _ _ _ _ _ _ hab]
    rw [countEdges_eq_of_edges _ g _ _ _ hedges]
    exact h0ba
  · intro e2 he2 hnew
    have := userUpsert_new_src g d now f e2 he2
    rw [hda, orFalsy_some a f hane] at this
    rcases this with hm | hs
    · exact absurd hm hnew
    · exact hs

/-- Fixture for the asymmetry witness: user B stores email e1, user A is
about to be written with the same email, no link yet in either direction. -/
def c2Store : Graph :=
  ⟨[⟨.user, "A", [("id", .s "A"), ("name", .s "a")]⟩,
    ⟨.user, "B", [("id", .s "B"), ("name", .s "b"), ("email", .s "e1")]⟩],
   []⟩

/-- The payload writing user A with B's email. -/
def c2User : UserData := ⟨some "A", "a", some "e1", none, none, none, none⟩

/-- Witness for the asymmetry claim at the concrete two-user store. -/
theorem shared_email_edge_asymmetric_witness :
    countEdges (userCreateOrUpdate c2Store c2User "T1" "f") "SHARES_EMAIL"
      "A" "B" = 1 ∧
    countEdges (userCreateOrUpdate c2Store c2User "T1" "f") "SHARES_EMAIL"
      "B" "A" = 0 ∧
    ∀ e2 ∈ (userCreateOrUpdate c2Store c2User "T1" "f").edges,
      e2 ∉ c2Store.edges → e2.src = "A" :=
  shared_email_edge_asymmetric c2Store c2User "T1" "f" "A" "B" "e1"
    ⟨.user, "B", [("id", .s "B"), ("name", .s "b"), ("email", .s "e1")]⟩
    rfl (by decide) rfl (by decide) (by decide) rfl rfl rfl (by decide)
    (by decide) (by decide)

end UTV

namespace UTV

theorem sentMoneyStep_mem (g : Graph) (d : TxData) (id : String) (e : Edge)
    (h : e ∈ g.edges) : e ∈ (sentMoneyStep g d id).edges := by
  unfold sentMoneyStep
  split
  · split
    · exact mergeEdge_mem _ _ _ _ _ _ h
    · exact h
  · exact h

theorem receivedByStep_mem (g : Graph) (d : TxData) (id : String) (e : Edge)
    (h : e ∈ g.edges) : e ∈ (receivedByStep g d id).edges := by
  unfold receivedByStep
  split
  · split
    · exact mergeEdge_mem _ _ _ _ _ _ h
    · exact h
  · exact h

theorem transferredToStep_mem (g : Graph) (d : TxData) (id now : String)
    (e : Edge) (h : e ∈ g.edges) : e ∈ (transferredToStep g d id now).edges := by
  unfold transferredToStep
  split
  · split
    · exact mergeEdge_mem _ _ _ _ _ _ h
    · exact h
  · exact h

theorem txShareStep_mem (g : Graph) (txId : String) (o : Option String)
    (kind attrKey : String) (e : Edge) (h : e ∈ g.edges) :
    e ∈ (txShareStep g txId o kind attrKey).edges := by
  unfold txShareStep
  split
  · split
    · exact mergeEdgesTo_mem _ _ _ _ _ _ h
    · exact h
  · exact h

theorem createTxLinks_mem (g : Graph) (txId : String) (d : TxData) (e : Edge)
    (h : e ∈ g.edges) :
    e ∈ (createTransactionLinkRelationships g txId d).edges := by
  unfold createTransactionLinkRelationships
  exact txShareStep_mem _ _ _ _ _ _ (txShareStep_mem _ _ _ _ _ _
    (txShareStep_mem _ _ _ _ _ _ h))

/-- A transaction upsert never removes a stored edge. -/
theorem txUpsert_mem (g : Graph) (d : TxData) (now f : String) (e : Edge)
    (h : e ∈ g.edges) : e ∈ (transactionCreateOrUpdate g d now f).edges := by
  unfold transactionCreateOrUpdate
  apply createTxLinks_mem
  apply transferredToStep_mem
  apply receivedByStep_mem
  apply sentMoneyStep_mem
  rw [mergeNode_edges]
  exact h

theorem nodeExists_mergeNode_mono (g : Graph) (l : NodeLabel) (id : String)
    (props update : Props) (l' : NodeLabel) (id' : String)
    (h : nodeExists g l' id' = true) :
    nodeExists (mergeNode g l id props update) l' id' = true := by
  unfold nodeExists at h ⊢
  rw [List.any_eq_true] at h ⊢
  obtain ⟨n, hn, hp⟩ := h
  unfold mergeNode
  split
  · simp only []
    refine ⟨if n.label = l && n.id = id then
      { n with props := mergeProps n.props update } else n,
      List.mem_map_of_mem _ hn, ?_⟩
    split
    · exact hp
    · exact hp
  · exact ⟨n, List.mem_append_left _ hn, hp⟩

/-- Node existence is preserved by a transaction upsert. -/
theorem nodeExists_txUpsert_mono (g : Graph) (d : TxData) (now f : String)
    (l : NodeLabel) (id : String) (h : nodeExists g l id = true) :
    nodeExists (transactionCreateOrUpdate g d now f) l id = true := by
  unfold nodeExists
  rw [txUpsert_nodes]
  exact nodeExists_mergeNode_mono g .transaction _ _ _ l id h

theorem transferProps_selfConsistent (d : TxData) (id now : String) :
    selfConsistent (transferProps d id now) = true := by
  simp [selfConsistent, transferProps, lookupProp]

/-- A transaction upsert naming both a sender and a receiver that exist
upserts a TRANSFERRED_TO edge keyed by the full property tuple. -/
theorem txUpsert_transfer_edge (g : Graph) (d : TxData) (now f i a b : String)
    (hid : d.id = some i) (hine : i ≠ "")
    (hfrom : d.fromUserId = some a) (hane : a ≠ "")
    (hto : d.toUserId = some b) (hbne : b ≠ "")
    (hexa : nodeExists g .user a = true) (hexb : nodeExists g .user b = true) :
    ∃ e ∈ (transactionCreateOrUpdate g d now f).edges,
      edgeMatches e "TRANSFERRED_TO" a b (transferProps d i now) = true := by
  have hidr : orFalsy d.id f = i := by rw [hid]; exact orFalsy_some i f hine
  unfold transactionCreateOrUpdate
  rw [hidr]
  have hnodes3 : (receivedByStep (sentMoneyStep (mergeNode g .transaction i
      (txBaseProps d i now) (txBaseProps d i now)) d i) d i).nodes =
      (mergeNode g .transaction i (txBaseProps d i now)
        (txBaseProps d i now)).nodes := by
    rw [receivedByStep_nodes, sentMoneyStep_nodes]
  have hexa3 : nodeExists (receivedByStep (sentMoneyStep (mergeNode g
      .transaction i (txBaseProps d i now) (txBaseProps d i now)) d i) d i)
      .user a = true := by
    unfold nodeExists
    rw [hnodes3]
    exact nodeExists_mergeNode_mono _ _ _ _ _ _ _ hexa
  have hexb3 : nodeExists (receivedByStep (sentMoneyStep (mergeNode g
      .transaction i (txBaseProps d i now) (txBaseProps d i now)) d i) d i)
      .user b = true := by
    unfold nodeExists
    rw [hnodes3]
    exact nodeExists_mergeNode_mono _ _ _ _ _ _ _ hexb
  have hstep : ∃ e ∈ (transferredToStep (receivedByStep (sentMoneyStep
      (mergeNode g .transaction i (txBaseProps d i now) (txBaseProps d i now))
      d i) d i) d i now).edges,
      edgeMatches e "TRANSFERRED_TO" a b (transferProps d i now) = true := by
    unfold transferredToStep
    rw [hfrom, hto]
    simp only [Option.getD_some]
    rw [if_pos]
    · rw [if_pos]
      · exact mergeEdge_establishes _ _ _ _ _ (transferProps_selfConsistent d i now)
      · rw [hexa3, hexb3]
        rfl
    · unfold truthy
      simp only [hfrom, hto]
      rw [decide_eq_true (by exact hane), decide_eq_true (by exact hbne)]
      rfl
  obtain ⟨e, he, hm⟩ := hstep
  exact ⟨e, createTxLinks_mem _ _ _ _ he, hm⟩

end UTV

namespace UTV

theorem edgeMatches_lookup (e : Edge) (k s t : String) (p : Props)
    (h : edgeMatches e k s t p = true) (kv : String × Val) (hkv : kv ∈ p) :
    lookupProp e.props kv.1 = some kv.2 := by
  unfold edgeMatches at h
  simp only [Bool.and_eq_true] at h
  have hall := h.2
  rw [List.all_eq_true] at hall
  have := hall kv hkv
  simpa using this

/-- C5: a transaction upsert naming both users upserts a TRANSFERRED_TO
edge sender to receiver keyed by the full tuple transactionId, amount,
currency, timestamp; because transactionId participates in the match
key, two distinct transactions between the same pair produce two
distinct edges rather than collapsing into one. -/
theorem transferredTo_distinct_transactions (g : Graph) (d1 d2 : TxData)
    (n1 n2 f1 f2 a b i1 i2 : String)
    (h1id : d1.id = some i1) (h1ne : i1 ≠ "")
    (h2id : d2.id = some i2) (h2ne : i2 ≠ "")
    (h12 : i1 ≠ i2)
    (h1from : d1.fromUserId = some a) (h2from : d2.fromUserId = some a)
    (hane : a ≠ "")
    (h1to : d1.toUserId = some b) (h2to : d2.toUserId = some b)
    (hbne : b ≠ "")
    (hexa : nodeExists g .user a = true) (hexb : nodeExists g .user b = true) :
    (∃ e ∈ (transactionCreateOrUpdate g d1 n1 f1).edges,
      edgeMatches e "TRANSFERRED_TO" a b (transferProps d1 i1 n1) = true) ∧
    (∃ e1 ∈ (transactionCreateOrUpdate (transactionCreateOrUpdate g d1 n1 f1)
        d2 n2 f2).edges,
     ∃ e2 ∈ (transactionCreateOrUpdate (transactionCreateOrUpdate g d1 n1 f1)
        d2 n2 f2).edges,
      e1 ≠ e2 ∧
      edgeMatches e1 "TRANSFERRED_TO" a b (transferProps d1 i1 n1) = true ∧
      edgeMatches e2 "TRANSFERRED_TO" a b (transferProps d2 i2 n2) = true ∧
      lookupProp e1.props "transactionId" = some (.s i1) ∧
      lookupProp e2.props "transactionId" = some (.s i2)) := by
  obtain ⟨e1, he1, hm1⟩ := txUpsert_transfer_edge g d1 n1 f1 i1 a b h1id h1ne
    h1from hane h1to hbne hexa hexb
  refine ⟨⟨e1, he1, hm1⟩, ?_⟩
  obtain ⟨e2, he2, hm2⟩ := txUpsert_transfer_edge
    (transactionCreateOrUpdate g d1 n1 f1) d2 n2 f2 i2 a b h2id h2ne
    h2from hane h2to hbne
    (nodeExists_txUpsert_mono _ _ _ _ _ _ hexa)
    (nodeExists_txUpsert_mono _ _ _ _ _ _ hexb)
  have hl1 : lookupProp e1.props "transactionId" = some (.s i1) :=
    edgeMatches_lookup e1 _ _ _ _ hm1 ("transactionId", .s i1)
      (List.mem_cons_self _ _)
  have hl2 : lookupProp e2.props "transactionId" = some (.s i2) :=
    edgeMatches_lookup e2 _ _ _ _ hm2 ("transactionId", .s i2)
      (List.mem_cons_self _ _)
  refine ⟨e1, txUpsert_mem _ _ _ _ _ he1, e2, he2, ?_, hm1, hm2, hl1, hl2⟩
  intro hcontra
  rw [hcontra, hl2] at hl1
  have : i2 = i1 := by
    have := Option.some.inj hl1
    cases this
    rfl
  exact h12 this.symm

/-- Fixture store for the distinct-transactions witness. -/
def c5Store : Graph :=
  ⟨[⟨.user, "A", [("id", .s "A")]⟩, ⟨.user, "B", [("id", .s "B")]⟩], []⟩

/-- First transfer payload between A and B. -/
def c5Tx1 : TxData :=
  ⟨some "t1", "100", none, some "TS1", none, none, none, none, none, none,
   some "A", some "B"⟩

/-- Second, distinct transfer payload between the same pair. -/
def c5Tx2 : TxData :=
  ⟨some "t2", "100", none, some "TS1", none, none, none, none, none, none,
   some "A", some "B"⟩

/-- Witness for the distinct-transactions claim at a concrete store. -/
theorem transferredTo_distinct_transactions_witness :
    (∃ e ∈ (transactionCreateOrUpdate c5Store c5Tx1 "T1" "f1").edges,
      edgeMatches e "TRANSFERRED_TO" "A" "B" (transferProps c5Tx1 "t1" "T1") =
        true) ∧
    (∃ e1 ∈ (transactionCreateOrUpdate (transactionCreateOrUpdate c5Store
        c5Tx1 "T1" "f1") c5Tx2 "T2" "f2").edges,
     ∃ e2 ∈ (transactionCreateOrUpdate (transactionCreateOrUpdate c5Store
        c5Tx1 "T1" "f1") c5Tx2 "T2" "f2").edges,
      e1 ≠ e2 ∧
      edgeMatches e1 "TRANSFERRED_TO" "A" "B" (transferProps c5Tx1 "t1" "T1") =
        true ∧
      edgeMatches e2 "TRANSFERRED_TO" "A" "B" (transferProps c5Tx2 "t2" "T2") =
        true ∧
      lookupProp e1.props "transactionId" = some (.s "t1") ∧
      lookupProp e2.props "transactionId" = some (.s "t2")) :=
  transferredTo_distinct_transactions c5Store c5Tx1 c5Tx2 "T1" "T2" "f1" "f2"
    "A" "B" "t1" "t2" rfl (by decide) rfl (by decide) (by decide) rfl rfl
    (by decide) rfl rfl (by decide) (by decide) (by decide)

end UTV

namespace UTV

/-- C6: clusterTransactions rejects an attribute outside the whitelist;
for a whitelisted attribute it groups the transactions having a non-null
value by that value, keeps only groups of at least minClusterSize
members, and returns them sorted by descending size, each reporting the
attribute, the shared value, the member transaction ids and the size;
every transaction in a large-enough value group appears in its cluster. -/
theorem clusterTransactions_spec (g : Graph) (attr : String) (m : Nat) :
    (validAttributes.contains attr = false →
      clusterTransactions g attr m = .error ("Invalid attribute: " ++ attr ++
        ". Valid options are: ipAddress, deviceId, currency, status, amount")) ∧
    (validAttributes.contains attr = true →
      ∃ cs, clusterTransactions g attr m = .ok cs ∧
        List.Sorted clusterGE cs ∧
        (∀ c ∈ cs, c.attr = attr ∧ m ≤ c.clusterSize ∧
          c.clusterSize = c.transactionIds.length ∧
          ∀ tid ∈ c.transactionIds, ∃ n ∈ g.nodes,
            n.label = .transaction ∧ n.id = tid ∧
            lookupProp n.props attr = some c.value) ∧
        (∀ n ∈ g.nodes, n.label = .transaction →
          ∀ v, lookupProp n.props attr = some v →
          m ≤ ((txWithAttr g attr).filter
            (fun n2 => lookupProp n2.props attr = some v)).length →
          ∃ c ∈ cs, c.value = v ∧ n.id ∈ c.transactionIds)) := by
  constructor
  · intro h
    unfold clusterTransactions
    rw [if_pos (by rw [h]; exact Bool.false_ne_true)]
  · intro h
    unfold clusterTransactions
    rw [if_neg (fun hno => hno h)]
    refine ⟨_, rfl, ?_, ?_, ?_⟩
    · exact List.sorted_insertionSort clusterGE _
    · intro c hc
      have hc2 := (List.perm_insertionSort clusterGE _).mem_iff.mp hc
      rw [List.mem_map] at hc2
      obtain ⟨gr, hgr, hceq⟩ := hc2
      rw [List.mem_filter] at hgr
      obtain ⟨hgrmem, hgrlen⟩ := hgr
      rw [List.mem_map] at hgrmem
      obtain ⟨v, hv, hgrv⟩ := hgrmem
      subst hceq
      refine ⟨rfl, by simpa using hgrlen, rfl, ?_⟩
      intro tid htid
      rw [← hgrv] at htid
      simp only [] at htid
      rw [List.mem_map] at htid
      obtain ⟨n, hn, hnid⟩ := htid
      rw [List.mem_filter] at hn
      obtain ⟨hnts, hnv⟩ := hn
      unfold txWithAttr at hnts
      rw [List.mem_filter] at hnts
      obtain ⟨hngm, hnl⟩ := hnts
      simp only [Bool.and_eq_true, decide_eq_true_eq] at hnl
      refine ⟨n, hngm, hnl.1, hnid, ?_⟩
      rw [← hgrv]
      simpa using hnv
    · intro n hn hlab v hv hm
      have hnts : n ∈ txWithAttr g attr := by
        unfold txWithAttr
        rw [List.mem_filter]
        exact ⟨hn, by simp [hlab, hv]⟩
      have hvd : v ∈ distinctValues attr (txWithAttr g attr) := by
        unfold distinctValues
        rw [List.mem_dedup, List.mem_filterMap]
        exact ⟨n, hnts, hv⟩
      refine ⟨⟨attr, v, ((txWithAttr g attr).filter (fun n2 =>
        lookupProp n2.props attr = some v)).map (fun n2 => n2.id),
        (((txWithAttr g attr).filter (fun n2 =>
          lookupProp n2.props attr = some v)).map (fun n2 => n2.id)).length⟩,
        ?_, rfl, ?_⟩
      · apply (List.perm_insertionSort clusterGE _).mem_iff.mpr
        rw [List.mem_map]
        refine ⟨(v, ((txWithAttr g attr).filter (fun n2 =>
          lookupProp n2.props attr = some v)).map (fun n2 => n2.id)), ?_, rfl⟩
        rw [List.mem_filter]
        constructor
        · rw [List.mem_map]
          exact ⟨v, hvd, rfl⟩
        · simpa using hm
      · rw [List.mem_map]
        exact ⟨n, List.mem_filter.mpr ⟨hnts, by simpa using hv⟩, rfl⟩

/-- Fixture: five transactions sharing one ipAddress and one with a
distinct ip. -/
def c6Store : Graph :=
  ⟨[⟨.transaction, "t1", [("ipAddress", .s "1.2.3.4")]⟩,
    ⟨.transaction, "t2", [("ipAddress", .s "1.2.3.4")]⟩,
    ⟨.transaction, "t3", [("ipAddress", .s "1.2.3.4")]⟩,
    ⟨.transaction, "t4", [("ipAddress", .s "1.2.3.4")]⟩,
    ⟨.transaction, "t5", [("ipAddress", .s "1.2.3.4")]⟩,
    ⟨.transaction, "t6", [("ipAddress", .s "9.9.9.9")]⟩], []⟩

/-- Witness for the clustering claim: the whitelisted query returns
exactly one cluster of size 5 containing t1..t5, and a non-whitelisted
attribute is rejected. -/
theorem clusterTransactions_spec_witness :
    (clusterTransactions c6Store "foo" 3 = .error ("Invalid attribute: foo" ++
      ". Valid options are: ipAddress, deviceId, currency, status, amount")) ∧
    (∃ cs, clusterTransactions c6Store "ipAddress" 3 = .ok cs ∧
      List.Sorted clusterGE cs ∧
      (∀ c ∈ cs, c.attr = "ipAddress" ∧ 3 ≤ c.clusterSize ∧
        c.clusterSize = c.transactionIds.length ∧
        ∀ tid ∈ c.transactionIds, ∃ n ∈ c6Store.nodes,
          n.label = .transaction ∧ n.id = tid ∧
          lookupProp n.props "ipAddress" = some c.value) ∧
      (∀ n ∈ c6Store.nodes, n.label = .transaction →
        ∀ v, lookupProp n.props "ipAddress" = some v →
        3 ≤ ((txWithAttr c6Store "ipAddress").filter
          (fun n2 => lookupProp n2.props "ipAddress" = some v)).length →
        ∃ c ∈ cs, c.value = v ∧ n.id ∈ c.transactionIds)) ∧
    clusterTransactions c6Store "ipAddress" 3 =
      .ok [⟨"ipAddress", .s "1.2.3.4", ["t1", "t2", "t3", "t4", "t5"], 5⟩] :=
  ⟨(clusterTransactions_spec c6Store "foo" 3).1 (by decide),
   (clusterTransactions_spec c6Store "ipAddress" 3).2 (by decide),
   rfl⟩

end UTV


namespace UTV

/-- Drop the refreshed bookkeeping timestamps from a property map. -/
def stripTimes (ps : Props) : Props :=
  ps.filter (fun kv => kv.1 ≠ "createdAt" && kv.1 ≠ "updatedAt")

/-- A node up to timestamp refresh. -/
def stripNode (n : Node) : NodeLabel × String × Props :=
  (n.label, n.id, stripTimes n.props)

theorem lookupProp_isSome_of_mem (ps : Props) (kv : String × Val)
    (h : kv ∈ ps) : (lookupProp ps kv.1).isSome = true := by
  unfold lookupProp
  rw [Option.isSome_map']
  rw [List.find?_isSome]
  exact ⟨kv, h, by simp⟩

theorem lookup_isNone_congr (ps qs : Props)
    (hk : ps.map Prod.fst = qs.map Prod.fst) (k : String) :
    (lookupProp ps k).isNone = (lookupProp qs k).isNone := by
  induction ps generalizing qs with
  | nil =>
    have hq : qs = [] := by
      cases qs with
      | nil => rfl
      | cons q qs2 => simp at hk
    rw [hq]
  | cons kv ps ih =>
    cases qs with
    | nil => simp at hk
    | cons q qs2 =>
      simp only [List.map_cons, List.cons.injEq] at hk
      rw [lookupProp_cons, lookupProp_cons, hk.1]
      by_cases hq : q.1 = k
      · rw [if_pos hq, if_pos hq]
        rfl
      · rw [if_neg hq, if_neg hq]
        exact ih qs2 hk.2

theorem stripTimes_append (ps qs : Props) :
    stripTimes (ps ++ qs) = stripTimes ps ++ stripTimes qs := by
  unfold stripTimes
  rw [List.filter_append]

theorem filter_isNone_eq_nil (b1 b2 : Props)
    (hk : ∀ k, (lookupProp b1 k).isNone = (lookupProp b2 k).isNone) :
    b1.filter (fun kv => (lookupProp b2 kv.1).isNone) = [] := by
  rw [List.filter_eq_nil_iff]
  intro kv hkv
  rw [← hk kv.1]
  have hsome := lookupProp_isSome_of_mem b1 kv hkv
  rw [Bool.not_eq_true, Option.isNone_eq_false_iff]
  exact hsome

/-- Merging an update with the same key set onto the create map leaves
the non-timestamp properties unchanged. -/
theorem stripTimes_mergeProps_once (b1 b2 : Props)
    (hk : ∀ k, (lookupProp b1 k).isNone = (lookupProp b2 k).isNone)
    (hs : stripTimes b1 = stripTimes b2) :
    stripTimes (mergeProps b1 b2) = stripTimes b1 := by
  unfold mergeProps
  rw [filter_isNone_eq_nil b1 b2 hk]
  rw [List.nil_append]
  exact hs.symm

/-- Merging a same-key-set update onto an already-merged map leaves the
non-timestamp properties unchanged. -/
theorem stripTimes_mergeProps_twice (p b1 b2 : Props)
    (hk : ∀ k, (lookupProp b1 k).isNone = (lookupProp b2 k).isNone)
    (hs : stripTimes b1 = stripTimes b2) :
    stripTimes (mergeProps (mergeProps p b1) b2) =
      stripTimes (mergeProps p b1) := by
  unfold mergeProps
  rw [List.filter_append]
  rw [filter_isNone_eq_nil b1 b2 hk]
  have hp : (p.filter (fun kv => (lookupProp b1 kv.1).isNone)).filter
      (fun kv => (lookupProp b2 kv.1).isNone) =
      p.filter (fun kv => (lookupProp b1 kv.1).isNone) := by
    rw [List.filter_eq_self]
    intro kv hkv
    rw [List.mem_filter] at hkv
    rw [← hk kv.1]
    exact hkv.2
  rw [hp, List.append_nil]
  rw [stripTimes_append, stripTimes_append, hs]

/-- The key list of the written user property map does not depend on the
clock reading. -/
theorem userBaseProps_keys (d : UserData) (i n n' : String) :
    (userBaseProps d i n).map Prod.fst = (userBaseProps d i n').map Prod.fst := by
  simp only [userBaseProps, List.map_append]
  rfl

/-- The key list of the written transaction property map does not depend
on the clock reading. -/
theorem txBaseProps_keys (d : TxData) (i n n' : String) :
    (txBaseProps d i n).map Prod.fst = (txBaseProps d i n').map Prod.fst := by
  simp only [txBaseProps, List.map_append]
  rfl

/-- The non-timestamp part of the written user property map does not
depend on the clock reading. -/
theorem stripTimes_userBaseProps (d : UserData) (i n n' : String) :
    stripTimes (userBaseProps d i n) = stripTimes (userBaseProps d i n') := by
  simp only [userBaseProps, stripTimes, List.filter_append]
  rfl

/-- With an explicit timestamp, the non-timestamp part of the written
transaction property map does not depend on the clock reading. -/
theorem stripTimes_txBaseProps (d : TxData) (i n n' : String)
    (ht : truthy d.timestamp = true) :
    stripTimes (txBaseProps d i n) = stripTimes (txBaseProps d i n') := by
  have horf : orFalsy d.timestamp n = orFalsy d.timestamp n' := by
    cases hts : d.timestamp with
    | none => rw [hts] at ht; simp [truthy] at ht
    | some v =>
      rw [hts] at ht
      unfold truthy at ht
      simp only [decide_eq_true_eq] at ht
      rw [orFalsy_some v n ht, orFalsy_some v n' ht]
  simp only [txBaseProps, stripTimes, List.filter_append, horf]
  rfl

/-- mergeNode reads and writes only the node list. -/
theorem mergeNode_nodes_congr (g1 g2 : Graph) (l : NodeLabel) (id : String)
    (props update : Props) (h : g1.nodes = g2.nodes) :
    (mergeNode g1 l id props update).nodes = (mergeNode g2 l id props update).nodes := by
  unfold mergeNode nodeExists
  rw [h]
  split <;> rfl

/-- A node MERGE on one label and id does not change whether any other
label-id pair exists. -/
theorem nodeExists_mergeNode_of_ne (g : Graph) (l : NodeLabel) (id : String)
    (props update : Props) (l' : NodeLabel) (id' : String)
    (hne : ¬ (l' = l ∧ id' = id)) :
    nodeExists (mergeNode g l id props update) l' id' = nodeExists g l' id' := by
  unfold mergeNode
  split
  · unfold nodeExists
    simp only []
    rw [List.any_map]
    congr 1
    funext n
    simp only [Function.comp_apply]
    split
    · rfl
    · rfl
  · unfold nodeExists
    simp only []
    rw [List.any_append]
    have hlast : ((⟨l, id, props⟩ : Node).label = l' &&
        (⟨l, id, props⟩ : Node).id = id') = false := by
      cases hb : ((⟨l, id, props⟩ : Node).label = l' &&
          (⟨l, id, props⟩ : Node).id = id') with
      | false => rfl
      | true =>
        exfalso
        simp only [Bool.and_eq_true, decide_eq_true_eq] at hb
        exact hne ⟨hb.1.symm, hb.2.symm⟩
    simp only [List.any_cons, List.any_nil]
    rw [hlast]
    simp

end UTV


namespace UTV

/-- Scans over an updated node list are unchanged when the update
preserves the scan predicate and fixes every matching node. -/
theorem scanmap_eq (p : Node → Bool) (f : Node → Node)
    (hpf : ∀ n, p (f n) = p n) (hid : ∀ n, p n = true → f n = n) :
    ∀ ns : List Node,
      ((ns.map f).filter p).map (fun n => n.id) =
        (ns.filter p).map (fun n => n.id) := by
  intro ns
  induction ns with
  | nil => rfl
  | cons n ns ih =>
    rw [List.map_cons, List.filter_cons, List.filter_cons, hpf n]
    by_cases hp : p n = true
    · rw [if_pos hp, if_pos hp, List.map_cons, List.map_cons, ih, hid n hp]
    · rw [Bool.not_eq_true] at hp
      rw [hp]
      simp only [Bool.false_eq_true, if_false]
      exact ih

/-- A shared-attribute scan for the written id is unchanged by the node
MERGE of that id: the scan excludes the written node, and other nodes
are untouched. -/
theorem sharesScan_mergeNode (g : Graph) (l : NodeLabel) (i : String)
    (props update : Props) (l' : NodeLabel) (attr : String) (v : Val) :
    sharesScan (mergeNode g l i props update).nodes l' i attr v =
      sharesScan g.nodes l' i attr v := by
  unfold mergeNode
  split
  · unfold sharesScan
    simp only []
    apply scanmap_eq
    · intro n
      by_cases hm : (n.label = l && n.id = i) = true
      · have hni : n.id = i := by
          simp only [Bool.and_eq_true, decide_eq_true_eq] at hm
          exact hm.2
        rw [if_pos hm]
        simp [hni]
      · rw [if_neg hm]
    · intro n hp
      simp only [Bool.and_eq_true, decide_eq_true_eq] at hp
      rw [if_neg]
      intro hc
      simp only [Bool.and_eq_true, decide_eq_true_eq] at hc
      exact hp.1.2 hc.2
  · unfold sharesScan
    simp only []
    rw [List.filter_append, List.map_append]
    have hlast : List.filter (fun n : Node => n.label = l' && n.id ≠ i &&
        (lookupProp n.props attr = some v : Bool)) [⟨l, i, props⟩] = [] := by
      simp
    rw [hlast]
    simp

/-- The payment-method scan for the written id is likewise unchanged by
the node MERGE of that id. -/
theorem pmScan_mergeNode (g : Graph) (l : NodeLabel) (i : String)
    (props update : Props) (m : String) :
    pmScan (mergeNode g l i props update).nodes i m = pmScan g.nodes i m := by
  unfold mergeNode
  split
  · unfold pmScan
    simp only []
    apply scanmap_eq
    · intro n
      by_cases hm : (n.label = l && n.id = i) = true
      · have hni : n.id = i := by
          simp only [Bool.and_eq_true, decide_eq_true_eq] at hm
          exact hm.2
        rw [if_pos hm]
        simp [hni]
      · rw [if_neg hm]
    · intro n hp
      simp only [Bool.and_eq_true, decide_eq_true_eq] at hp
      rw [if_neg]
      intro hc
      simp only [Bool.and_eq_true, decide_eq_true_eq] at hc
      exact hp.1.2 hc.2
  · unfold pmScan
    simp only []
    rw [List.filter_append, List.map_append]
    have hlast : List.filter (fun n : Node => n.label = NodeLabel.user &&
        n.id ≠ i && (match lookupProp n.props "paymentMethods" with
          | some (.vlist vs) => vs.contains m
          | _ => false)) [⟨l, i, props⟩] = [] := by
      simp
    rw [hlast]
    simp

theorem shareStep_mem (g : Graph) (uid : String) (o : Option String)
    (kind key : String) (e : Edge) (h : e ∈ g.edges) :
    e ∈ (shareStep g uid o kind key).edges := by
  unfold shareStep
  split
  · split
    · exact mergeEdgesTo_mem _ _ _ _ _ _ h
    · exact h
  · exact h

theorem pmStep_mem (uid : String) (g : Graph) (m : String) (e : Edge)
    (h : e ∈ g.edges) : e ∈ (pmStep uid g m).edges := by
  unfold pmStep
  split
  · exact mergeEdgesTo_mem _ _ _ _ _ _ h
  · exact h

theorem pmFold_mem (uid : String) (pms : List String) (g : Graph) (e : Edge)
    (h : e ∈ g.edges) : e ∈ (pms.foldl (pmStep uid) g).edges := by
  induction pms generalizing g with
  | nil => exact h
  | cons m ms ih =>
    rw [List.foldl_cons]
    exact ih _ (pmStep_mem _ _ _ _ h)

/-- MERGE of every scanned edge is a no-op when a matching edge already
exists for every target. -/
theorem mergeEdgesTo_noop (g : Graph) (k s : String) (p : Props)
    (tgts : List String)
    (h : ∀ t ∈ tgts, ∃ e ∈ g.edges, edgeMatches e k s t p = true) :
    mergeEdgesTo g k s p tgts = g := by
  induction tgts with
  | nil => rfl
  | cons t ts ih =>
    rw [mergeEdgesTo_cons]
    have hskip : mergeEdge g k s t p = g := by
      unfold mergeEdge
      rw [if_pos]
      rw [List.any_eq_true]
      exact h t (List.mem_cons_self _ _)
    rw [hskip]
    exact ih (fun t2 ht2 => h t2 (List.mem_cons_of_mem _ ht2))

/-- After merging an edge to every target, a matching edge exists for
every target. -/
theorem mergeEdgesTo_establishes (g : Graph) (k s : String) (p : Props)
    (tgts : List String) (hp : selfConsistent p = true) :
    ∀ t ∈ tgts, ∃ e ∈ (mergeEdgesTo g k s p tgts).edges,
      edgeMatches e k s t p = true := by
  induction tgts generalizing g with
  | nil =>
    intro t ht
    cases ht
  | cons t0 ts ih =>
    intro t ht
    rw [mergeEdgesTo_cons]
    rcases List.mem_cons.mp ht with h1 | h2
    · subst h1
      obtain ⟨e, he, hm⟩ := mergeEdge_establishes g k s t p hp
      exact ⟨e, mergeEdgesTo_mem _ _ _ _ _ _ he, hm⟩
    · exact ih (mergeEdge g k s t0 p) t h2

end UTV


namespace UTV

theorem nodeExists_eq_of_nodes (g1 g2 : Graph) (l : NodeLabel) (id : String)
    (h : g1.nodes = g2.nodes) : nodeExists g1 l id = nodeExists g2 l id := by
  unfold nodeExists
  rw [h]

/-- A shared-attribute statement with a populated attribute and an
existing written user runs its edge MERGE over the scan. -/
theorem shareStep_run (g : Graph) (uid : String) (o : Option String)
    (kind key : String) (htr : truthy o = true)
    (hex : nodeExists g .user uid = true) :
    shareStep g uid o kind key =
      mergeEdgesTo g kind uid [(key, .s (o.getD ""))]
        (sharesScan g.nodes .user uid key (.s (o.getD ""))) := by
  unfold shareStep
  rw [if_pos htr, if_pos hex]

theorem pmStep_run (i : String) (g : Graph) (m : String)
    (hex : nodeExists g .user i = true) :
    pmStep i g m =
      mergeEdgesTo g "SHARES_PAYMENT_METHOD" i [("paymentMethod", .s m)]
        (pmScan g.nodes i m) := by
  unfold pmStep
  rw [if_pos hex]

theorem pmFold_establishes_aux (gst : Graph) (i : String) (pms : List String)
    (hex : nodeExists gst .user i = true) :
    ∀ m ∈ pms, ∀ t ∈ pmScan gst.nodes i m,
      ∃ e ∈ (pms.foldl (pmStep i) gst).edges,
        edgeMatches e "SHARES_PAYMENT_METHOD" i t [("paymentMethod", .s m)] = true := by
  induction pms generalizing gst with
  | nil =>
    intro m hm
    cases hm
  | cons m0 ms ih =>
    intro m hm t ht
    rw [List.foldl_cons]
    rcases List.mem_cons.mp hm with h1 | h2
    · subst h1
      have hest : ∃ e ∈ (pmStep i gst m).edges,
          edgeMatches e "SHARES_PAYMENT_METHOD" i t
            [("paymentMethod", .s m)] = true := by
        rw [pmStep_run i gst m hex]
        exact mergeEdgesTo_establishes _ _ _ _ _
          (by simp [selfConsistent, lookupProp]) t ht
      obtain ⟨e, he, hme⟩ := hest
      exact ⟨e, pmFold_mem _ _ _ _ he, hme⟩
    · have hex2 : nodeExists (pmStep i gst m0) .user i = true := by
        rw [nodeExists_eq_of_nodes _ gst _ _ (pmStep_nodes i gst m0)]
        exact hex
      have ht2 : t ∈ pmScan (pmStep i gst m0).nodes i m := by
        rw [pmStep_nodes]
        exact ht
      exact ih (pmStep i gst m0) hex2 m h2 t ht2

theorem mergeNode_nodes_of_exists (g : Graph) (l : NodeLabel) (i : String)
    (p u : Props) (hex : nodeExists g l i = true) :
    (mergeNode g l i p u).nodes = g.nodes.map (fun n =>
      if n.label = l && n.id = i then { n with props := mergeProps n.props u }
      else n) := by
  unfold mergeNode
  rw [hex]
  simp

/-- Every node matching the merged label and id carries either the fresh
create map or a previous map merged with the update map. -/
theorem mergeNode_matching_props (g : Graph) (l : NodeLabel) (i : String)
    (b1 : Props) :
    ∀ n ∈ (mergeNode g l i b1 b1).nodes, (n.label = l && n.id = i) = true →
      (∃ q, n.props = mergeProps q b1) ∨ n.props = b1 := by
  intro n hn hm
  unfold mergeNode at hn
  split at hn
  · simp only [] at hn
    rw [List.mem_map] at hn
    obtain ⟨m, hmem, hupd⟩ := hn
    by_cases hmm : (m.label = l && m.id = i) = true
    · rw [if_pos hmm] at hupd
      rw [← hupd]
      exact Or.inl ⟨m.props, rfl⟩
    · rw [if_neg hmm] at hupd
      rw [hupd] at hmm
      exact absurd hm hmm
  · rename_i hnex
    rcases List.mem_append.mp hn with hg | hnew
    · exfalso
      apply hnex
      unfold nodeExists
      rw [List.any_eq_true]
      exact ⟨n, hg, hm⟩
    · rw [List.mem_singleton] at hnew
      rw [hnew]
      exact Or.inr rfl

/-- Re-merging a node with a same-key-set update map preserves every
node up to timestamp refresh. -/
theorem mergeNode_twice_strip (g : Graph) (l : NodeLabel) (i : String)
    (b1 b2 : Props)
    (hk : ∀ k, (lookupProp b1 k).isNone = (lookupProp b2 k).isNone)
    (hs : stripTimes b1 = stripTimes b2) :
    ((mergeNode (mergeNode g l i b1 b1) l i b2 b2).nodes).map stripNode =
      ((mergeNode g l i b1 b1).nodes).map stripNode := by
  rw [mergeNode_nodes_of_exists _ _ _ _ _ (nodeExists_mergeNode_self g l i b1 b1)]
  rw [List.map_map]
  apply List.map_congr_left
  intro n hn
  simp only [Function.comp_apply]
  by_cases hm : (n.label = l && n.id = i) = true
  · rw [if_pos hm]
    unfold stripNode
    simp only []
    rcases mergeNode_matching_props g l i b1 n hn hm with ⟨q, hq⟩ | hq
    · rw [hq, stripTimes_mergeProps_twice q b1 b2 hk hs]
    · rw [hq, stripTimes_mergeProps_once b1 b2 hk hs]
  · rw [if_neg hm]

end UTV

namespace UTV

/-- All shared-attribute edge derivations of a user write already have
matching stored edges after that write. -/
theorem createShared_establishes (gg : Graph) (i : String) (d : UserData)
    (hex : nodeExists gg .user i = true) :
    (truthy d.email = true →
      ∀ t ∈ sharesScan gg.nodes .user i "email" (.s (d.email.getD "")),
      ∃ e ∈ (createSharedAttributeRelationships gg i d).edges,
        edgeMatches e "SHARES_EMAIL" i t [("email", .s (d.email.getD ""))] = true) ∧
    (truthy d.phone = true →
      ∀ t ∈ sharesScan gg.nodes .user i "phone" (.s (d.phone.getD "")),
      ∃ e ∈ (createSharedAttributeRelationships gg i d).edges,
        edgeMatches e "SHARES_PHONE" i t [("phone", .s (d.phone.getD ""))] = true) ∧
    (truthy d.address = true →
      ∀ t ∈ sharesScan gg.nodes .user i "address" (.s (d.address.getD "")),
      ∃ e ∈ (createSharedAttributeRelationships gg i d).edges,
        edgeMatches e "SHARES_ADDRESS" i t [("address", .s (d.address.getD ""))] = true) ∧
    (∀ pms, d.paymentMethods = some pms → pms.length > 0 →
      ∀ m ∈ pms, ∀ t ∈ pmScan gg.nodes i m,
      ∃ e ∈ (createSharedAttributeRelationships gg i d).edges,
        edgeMatches e "SHARES_PAYMENT_METHOD" i t [("paymentMethod", .s m)] = true) := by
  have hg1nodes : (shareStep gg i d.email "SHARES_EMAIL" "email").nodes =
      gg.nodes := shareStep_nodes _ _ _ _ _
  have hg2nodes : (shareStep (shareStep gg i d.email "SHARES_EMAIL" "email")
      i d.phone "SHARES_PHONE" "phone").nodes = gg.nodes := by
    rw [shareStep_nodes, shareStep_nodes]
  have hg3nodes : (shareStep (shareStep (shareStep gg i d.email "SHARES_EMAIL"
      "email") i d.phone "SHARES_PHONE" "phone") i d.address "SHARES_ADDRESS"
      "address").nodes = gg.nodes := by
    rw [shareStep_nodes, shareStep_nodes, shareStep_nodes]
  have hfin : ∀ e : Edge, e ∈ (shareStep (shareStep (shareStep gg i d.email
      "SHARES_EMAIL" "email") i d.phone "SHARES_PHONE" "phone") i d.address
      "SHARES_ADDRESS" "address").edges →
      e ∈ (createSharedAttributeRelationships gg i d).edges := by
    intro e he
    unfold createSharedAttributeRelationships
    rcases hpm : d.paymentMethods with _ | pms
    · exact he
    · simp only []
      split
      · exact pmFold_mem _ _ _ _ he
      · exact he
  refine ⟨?_, ?_, ?_, ?_⟩
  · intro htr t ht
    have hest : ∃ e ∈ (shareStep gg i d.email "SHARES_EMAIL" "email").edges,
        edgeMatches e "SHARES_EMAIL" i t [("email", .s (d.email.getD ""))] = true := by
      rw [shareStep_run gg i d.email "SHARES_EMAIL" "email" htr hex]
      exact mergeEdgesTo_establishes gg _ _ _ _
        (by simp [selfConsistent, lookupProp]) t ht
    obtain ⟨e, he, hm⟩ := hest
    exact ⟨e, hfin e (shareStep_mem _ _ _ _ _ _ (shareStep_mem _ _ _ _ _ _ he)), hm⟩
  · intro htr t ht
    have hexg1 : nodeExists (shareStep gg i d.email "SHARES_EMAIL" "email")
        .user i = true := by
      rw [nodeExists_eq_of_nodes _ gg _ _ hg1nodes]
      exact hex
    have hest : ∃ e ∈ (shareStep (shareStep gg i d.email "SHARES_EMAIL"
        "email") i d.phone "SHARES_PHONE" "phone").edges,
        edgeMatches e "SHARES_PHONE" i t [("phone", .s (d.phone.getD ""))] = true := by
      rw [shareStep_run _ i d.phone "SHARES_PHONE" "phone" htr hexg1, hg1nodes]
      exact mergeEdgesTo_establishes _ _ _ _ _
        (by simp [selfConsistent, lookupProp]) t ht
    obtain ⟨e, he, hm⟩ := hest
    exact ⟨e, hfin e (shareStep_mem _ _ _ _ _ _ he), hm⟩
  · intro htr t ht
    have hexg2 : nodeExists (shareStep (shareStep gg i d.email "SHARES_EMAIL"
        "email") i d.phone "SHARES_PHONE" "phone") .user i = true := by
      rw [nodeExists_eq_of_nodes _ gg _ _ hg2nodes]
      exact hex
    have hest : ∃ e ∈ (shareStep (shareStep (shareStep gg i d.email
        "SHARES_EMAIL" "email") i d.phone "SHARES_PHONE" "phone") i d.address
        "SHARES_ADDRESS" "address").edges,
        edgeMatches e "SHARES_ADDRESS" i t [("address", .s (d.address.getD ""))] = true := by
      rw [shareStep_run _ i d.address "SHARES_ADDRESS" "address" htr hexg2,
        hg2nodes]
      exact mergeEdgesTo_establishes _ _ _ _ _
        (by simp [selfConsistent, lookupProp]) t ht
    obtain ⟨e, he, hm⟩ := hest
    exact ⟨e, hfin e he, hm⟩
  · intro pms hpm hlen m hm t ht
    unfold createSharedAttributeRelationships
    rw [hpm]
    simp only []
    rw [if_pos hlen]
    have hexg3 : nodeExists (shareStep (shareStep (shareStep gg i d.email
        "SHARES_EMAIL" "email") i d.phone "SHARES_PHONE" "phone") i d.address
        "SHARES_ADDRESS" "address") .user i = true := by
      rw [nodeExists_eq_of_nodes _ gg _ _ hg3nodes]
      exact hex
    have hscan3 : t ∈ pmScan (shareStep (shareStep (shareStep gg i d.email
        "SHARES_EMAIL" "email") i d.phone "SHARES_PHONE" "phone") i d.address
        "SHARES_ADDRESS" "address").nodes i m := by
      rw [hg3nodes]
      exact ht
    exact pmFold_establishes_aux _ _ _ hexg3 m hm t hscan3

theorem pmFold_noop (i : String) (pms : List String) (gg : Graph)
    (h : ∀ m ∈ pms, pmStep i gg m = gg) : pms.foldl (pmStep i) gg = gg := by
  induction pms with
  | nil => rfl
  | cons m ms ih =>
    rw [List.foldl_cons, h m (List.mem_cons_self _ _)]
    exact ih (fun m2 hm2 => h m2 (List.mem_cons_of_mem _ hm2))

/-- A user write whose every derived edge already exists is a no-op. -/
theorem createShared_noop (gg : Graph) (i : String) (d : UserData)
    (hex : nodeExists gg .user i = true)
    (hE : truthy d.email = true →
      ∀ t ∈ sharesScan gg.nodes .user i "email" (.s (d.email.getD "")),
      ∃ e ∈ gg.edges,
        edgeMatches e "SHARES_EMAIL" i t [("email", .s (d.email.getD ""))] = true)
    (hP : truthy d.phone = true →
      ∀ t ∈ sharesScan gg.nodes .user i "phone" (.s (d.phone.getD "")),
      ∃ e ∈ gg.edges,
        edgeMatches e "SHARES_PHONE" i t [("phone", .s (d.phone.getD ""))] = true)
    (hA : truthy d.address = true →
      ∀ t ∈ sharesScan gg.nodes .user i "address" (.s (d.address.getD "")),
      ∃ e ∈ gg.edges,
        edgeMatches e "SHARES_ADDRESS" i t [("address", .s (d.address.getD ""))] = true)
    (hM : ∀ pms, d.paymentMethods = some pms →
      ∀ m ∈ pms, ∀ t ∈ pmScan gg.nodes i m,
      ∃ e ∈ gg.edges,
        edgeMatches e "SHARES_PAYMENT_METHOD" i t [("paymentMethod", .s m)] = true) :
    createSharedAttributeRelationships gg i d = gg := by
  have h1 : shareStep gg i d.email "SHARES_EMAIL" "email" = gg := by
    by_cases htr : truthy d.email = true
    · rw [shareStep_run gg i d.email "SHARES_EMAIL" "email" htr hex]
      exact mergeEdgesTo_noop _ _ _ _ _ (hE htr)
    · unfold shareStep
      rw [if_neg htr]
  have h2 : shareStep gg i d.phone "SHARES_PHONE" "phone" = gg := by
    by_cases htr : truthy d.phone = true
    · rw [shareStep_run gg i d.phone "SHARES_PHONE" "phone" htr hex]
      exact mergeEdgesTo_noop _ _ _ _ _ (hP htr)
    · unfold shareStep
      rw [if_neg htr]
  have h3 : shareStep gg i d.address "SHARES_ADDRESS" "address" = gg := by
    by_cases htr : truthy d.address = true
    · rw [shareStep_run gg i d.address "SHARES_ADDRESS" "address" htr hex]
      exact mergeEdgesTo_noop _ _ _ _ _ (hA htr)
    · unfold shareStep
      rw [if_neg htr]
  unfold createSharedAttributeRelationships
  simp only [h1, h2, h3]
  rcases hpm : d.paymentMethods with _ | pms
  · rfl
  · simp only []
    split
    · apply pmFold_noop
      intro m hm
      rw [pmStep_run i gg m hex]
      exact mergeEdgesTo_noop _ _ _ _ _ (hM pms hpm m hm)
    · rfl

end UTV

namespace UTV

/-- Re-running an identical user payload (with its id) adds no edge and
changes no node beyond the timestamp refresh. -/
theorem userUpsert_idem (g : Graph) (d : UserData) (n1 n2 f1 f2 i : String)
    (hdi : d.id = some i) (hine : i ≠ "") :
    (userCreateOrUpdate (userCreateOrUpdate g d n1 f1) d n2 f2).edges =
      (userCreateOrUpdate g d n1 f1).edges ∧
    ((userCreateOrUpdate (userCreateOrUpdate g d n1 f1) d n2 f2).nodes).map
      stripNode = ((userCreateOrUpdate g d n1 f1).nodes).map stripNode := by
  have heq1 : userCreateOrUpdate g d n1 f1 =
      createSharedAttributeRelationships (mergeNode g .user i
        (userBaseProps d i n1) (userBaseProps d i n1)) i d := by
    unfold userCreateOrUpdate
    rw [hdi, orFalsy_some i f1 hine]
  have heq2 : userCreateOrUpdate (userCreateOrUpdate g d n1 f1) d n2 f2 =
      createSharedAttributeRelationships
        (mergeNode (userCreateOrUpdate g d n1 f1) .user i
          (userBaseProps d i n2) (userBaseProps d i n2)) i d := by
    conv_lhs => rw [userCreateOrUpdate]
    rw [hdi, orFalsy_some i f2 hine]
  have hn1 : (userCreateOrUpdate g d n1 f1).nodes =
      (mergeNode g .user i (userBaseProps d i n1) (userBaseProps d i n1)).nodes := by
    rw [heq1, createShared_nodes]
  have hexgm2 : nodeExists (mergeNode (userCreateOrUpdate g d n1 f1) .user i
      (userBaseProps d i n2) (userBaseProps d i n2)) .user i = true :=
    nodeExists_mergeNode_self _ _ _ _ _
  have hE := createShared_establishes
    (mergeNode g .user i (userBaseProps d i n1) (userBaseProps d i n1)) i d
    (nodeExists_mergeNode_self _ _ _ _ _)
  have hnoop : createSharedAttributeRelationships
      (mergeNode (userCreateOrUpdate g d n1 f1) .user i
        (userBaseProps d i n2) (userBaseProps d i n2)) i d =
      mergeNode (userCreateOrUpdate g d n1 f1) .user i
        (userBaseProps d i n2) (userBaseProps d i n2) := by
    apply createShared_noop _ _ _ hexgm2
    · intro htr t ht
      rw [sharesScan_mergeNode (userCreateOrUpdate g d n1 f1) .user i _ _
        .user "email" _, hn1] at ht
      obtain ⟨e, he, hm⟩ := hE.1 htr t ht
      rw [← heq1] at he
      refine ⟨e, ?_, hm⟩
      rw [mergeNode_edges]
      exact he
    · intro htr t ht
      rw [sharesScan_mergeNode (userCreateOrUpdate g d n1 f1) .user i _ _
        .user "phone" _, hn1] at ht
      obtain ⟨e, he, hm⟩ := hE.2.1 htr t ht
      rw [← heq1] at he
      refine ⟨e, ?_, hm⟩
      rw [mergeNode_edges]
      exact he
    · intro htr t ht
      rw [sharesScan_mergeNode (userCreateOrUpdate g d n1 f1) .user i _ _
        .user "address" _, hn1] at ht
      obtain ⟨e, he, hm⟩ := hE.2.2.1 htr t ht
      rw [← heq1] at he
      refine ⟨e, ?_, hm⟩
      rw [mergeNode_edges]
      exact he
    · intro pms hpm m hm t ht
      rw [pmScan_mergeNode (userCreateOrUpdate g d n1 f1) .user i _ _ m,
        hn1] at ht
      have hlen : pms.length > 0 :=
        List.length_pos.mpr (List.ne_nil_of_mem hm)
      obtain ⟨e, he, hmm⟩ := hE.2.2.2 pms hpm hlen m hm t ht
      rw [← heq1] at he
      refine ⟨e, ?_, hmm⟩
      rw [mergeNode_edges]
      exact he
  constructor
  · rw [heq2, hnoop, mergeNode_edges]
  · rw [heq2, hnoop]
    rw [mergeNode_nodes_congr (userCreateOrUpdate g d n1 f1)
      (mergeNode g .user i (userBaseProps d i n1) (userBaseProps d i n1))
      .user i (userBaseProps d i n2) (userBaseProps d i n2) hn1]
    rw [mergeNode_twice_strip g .user i (userBaseProps d i n1)
      (userBaseProps d i n2)
      (fun k => lookup_isNone_congr _ _ (userBaseProps_keys d i n1 n2) k)
      (stripTimes_userBaseProps d i n1 n2)]
    rw [hn1]

end UTV

namespace UTV

theorem txShareStep_run (g : Graph) (txId : String) (o : Option String)
    (kind key : String) (htr : truthy o = true)
    (hex : nodeExists g .transaction txId = true) :
    txShareStep g txId o kind key =
      mergeEdgesTo g kind txId [(key, .s (o.getD ""))]
        (sharesScan g.nodes .transaction txId key (.s (o.getD ""))) := by
  unfold txShareStep
  rw [if_pos htr, if_pos hex]

/-- All transaction-metadata edge derivations of a transaction write
already have matching stored edges after that write. -/
theorem createTxLinks_establishes (gg : Graph) (txId : String) (d : TxData)
    (hex : nodeExists gg .transaction txId = true) :
    (truthy d.ipAddress = true →
      ∀ t ∈ sharesScan gg.nodes .transaction txId "ipAddress"
        (.s (d.ipAddress.getD "")),
      ∃ e ∈ (createTransactionLinkRelationships gg txId d).edges,
        edgeMatches e "SHARES_IP" txId t
          [("ipAddress", .s (d.ipAddress.getD ""))] = true) ∧
    (truthy d.deviceId = true →
      ∀ t ∈ sharesScan gg.nodes .transaction txId "deviceId"
        (.s (d.deviceId.getD "")),
      ∃ e ∈ (createTransactionLinkRelationships gg txId d).edges,
        edgeMatches e "SHARES_DEVICE" txId t
          [("deviceId", .s (d.deviceId.getD ""))] = true) ∧
    (truthy d.location = true →
      ∀ t ∈ sharesScan gg.nodes .transaction txId "location"
        (.s (d.location.getD "")),
      ∃ e ∈ (createTransactionLinkRelationships gg txId d).edges,
        edgeMatches e "SHARES_LOCATION" txId t
          [("location", .s (d.location.getD ""))] = true) := by
  have hg1nodes : (txShareStep gg txId d.ipAddress "SHARES_IP"
      "ipAddress").nodes = gg.nodes := txShareStep_nodes _ _ _ _ _
  have hg2nodes : (txShareStep (txShareStep gg txId d.ipAddress "SHARES_IP"
      "ipAddress") txId d.deviceId "SHARES_DEVICE" "deviceId").nodes =
      gg.nodes := by
    rw [txShareStep_nodes, txShareStep_nodes]
  refine ⟨?_, ?_, ?_⟩
  · intro htr t ht
    have hest : ∃ e ∈ (txShareStep gg txId d.ipAddress "SHARES_IP"
        "ipAddress").edges, edgeMatches e "SHARES_IP" txId t
          [("ipAddress", .s (d.ipAddress.getD ""))] = true := by
      rw [txShareStep_run gg txId d.ipAddress "SHARES_IP" "ipAddress" htr hex]
      exact mergeEdgesTo_establishes _ _ _ _ _
        (by simp [selfConsistent, lookupProp]) t ht
    obtain ⟨e, he, hm⟩ := hest
    exact ⟨e, txShareStep_mem _ _ _ _ _ _ (txShareStep_mem _ _ _ _ _ _ he), hm⟩
  · intro htr t ht
    have hex1 : nodeExists (txShareStep gg txId d.ipAddress "SHARES_IP"
        "ipAddress") .transaction txId = true := by
      rw [nodeExists_eq_of_nodes _ gg _ _ hg1nodes]
      exact hex
    have hest : ∃ e ∈ (txShareStep (txShareStep gg txId d.ipAddress
        "SHARES_IP" "ipAddress") txId d.deviceId "SHARES_DEVICE"
        "deviceId").edges, edgeMatches e "SHARES_DEVICE" txId t
          [("deviceId", .s (d.deviceId.getD ""))] = true := by
      rw [txShareStep_run _ txId d.deviceId "SHARES_DEVICE" "deviceId" htr
        hex1, hg1nodes]
      exact mergeEdgesTo_establishes _ _ _ _ _
        (by simp [selfConsistent, lookupProp]) t ht
    obtain ⟨e, he, hm⟩ := hest
    exact ⟨e, txShareStep_mem _ _ _ _ _ _ he, hm⟩
  · intro htr t ht
    have hex2 : nodeExists (txShareStep (txShareStep gg txId d.ipAddress
        "SHARES_IP" "ipAddress") txId d.deviceId "SHARES_DEVICE" "deviceId")
        .transaction txId = true := by
      rw [nodeExists_eq_of_nodes _ gg _ _ hg2nodes]
      exact hex
    have hest : ∃ e ∈ (txShareStep (txShareStep (txShareStep gg txId
        d.ipAddress "SHARES_IP" "ipAddress") txId d.deviceId "SHARES_DEVICE"
        "deviceId") txId d.location "SHARES_LOCATION" "location").edges,
        edgeMatches e "SHARES_LOCATION" txId t
          [("location", .s (d.location.getD ""))] = true := by
      rw [txShareStep_run _ txId d.location "SHARES_LOCATION" "location" htr
        hex2, hg2nodes]
      exact mergeEdgesTo_establishes _ _ _ _ _
        (by simp [selfConsistent, lookupProp]) t ht
    obtain ⟨e, he, hm⟩ := hest
    exact ⟨e, he, hm⟩

/-- A transaction-metadata derivation whose every edge already exists is
a no-op. -/
theorem createTxLinks_noop (gg : Graph) (txId : String) (d : TxData)
    (hex : nodeExists gg .transaction txId = true)
    (hI : truthy d.ipAddress = true →
      ∀ t ∈ sharesScan gg.nodes .transaction txId "ipAddress"
        (.s (d.ipAddress.getD "")),
      ∃ e ∈ gg.edges, edgeMatches e "SHARES_IP" txId t
        [("ipAddress", .s (d.ipAddress.getD ""))] = true)
    (hD : truthy d.deviceId = true →
      ∀ t ∈ sharesScan gg.nodes .transaction txId "deviceId"
        (.s (d.deviceId.getD "")),
      ∃ e ∈ gg.edges, edgeMatches e "SHARES_DEVICE" txId t
        [("deviceId", .s (d.deviceId.getD ""))] = true)
    (hL : truthy d.location = true →
      ∀ t ∈ sharesScan gg.nodes .transaction txId "location"
        (.s (d.location.getD "")),
      ∃ e ∈ gg.edges, edgeMatches e "SHARES_LOCATION" txId t
        [("location", .s (d.location.getD ""))] = true) :
    createTransactionLinkRelationships gg txId d = gg := by
  have h1 : txShareStep gg txId d.ipAddress "SHARES_IP" "ipAddress" = gg := by
    by_cases htr : truthy d.ipAddress = true
    · rw [txShareStep_run gg txId d.ipAddress "SHARES_IP" "ipAddress" htr hex]
      exact mergeEdgesTo_noop _ _ _ _ _ (hI htr)
    · unfold txShareStep
      rw [if_neg htr]
  have h2 : txShareStep gg txId d.deviceId "SHARES_DEVICE" "deviceId" = gg := by
    by_cases htr : truthy d.deviceId = true
    · rw [txShareStep_run gg txId d.deviceId "SHARES_DEVICE" "deviceId" htr hex]
      exact mergeEdgesTo_noop _ _ _ _ _ (hD htr)
    · unfold txShareStep
      rw [if_neg htr]
  have h3 : txShareStep gg txId d.location "SHARES_LOCATION" "location" = gg := by
    by_cases htr : truthy d.location = true
    · rw [txShareStep_run gg txId d.location "SHARES_LOCATION" "location" htr hex]
      exact mergeEdgesTo_noop _ _ _ _ _ (hL htr)
    · unfold txShareStep
      rw [if_neg htr]
  unfold createTransactionLinkRelationships
  simp only [h1, h2, h3]

theorem moneyProps_selfConsistent (d : TxData) :
    selfConsistent (moneyProps d) = true := by
  simp [selfConsistent, moneyProps, lookupProp]

/-- With an explicit timestamp the TRANSFERRED_TO property tuple does
not depend on the clock reading. -/
theorem transferProps_indep (d : TxData) (i n1 n2 : String)
    (hts : truthy d.timestamp = true) :
    transferProps d i n1 = transferProps d i n2 := by
  unfold transferProps
  cases h : d.timestamp with
  | none => rw [h] at hts; simp [truthy] at hts
  | some v =>
    rw [h] at hts
    unfold truthy at hts
    simp only [decide_eq_true_eq] at hts
    rw [orFalsy_some v n1 hts, orFalsy_some v n2 hts]

theorem sentMoneyStep_establishes (gg : Graph) (d : TxData) (i : String)
    (htr : truthy d.fromUserId = true)
    (hu : nodeExists gg .user (d.fromUserId.getD "") = true)
    (ht : nodeExists gg .transaction i = true) :
    ∃ e ∈ (sentMoneyStep gg d i).edges,
      edgeMatches e "SENT_MONEY" (d.fromUserId.getD "") i (moneyProps d) = true := by
  unfold sentMoneyStep
  rw [if_pos htr, if_pos (by rw [hu, ht]; rfl)]
  exact mergeEdge_establishes _ _ _ _ _ (moneyProps_selfConsistent d)

theorem receivedByStep_establishes (gg : Graph) (d : TxData) (i : String)
    (htr : truthy d.toUserId = true)
    (hu : nodeExists gg .user (d.toUserId.getD "") = true)
    (ht : nodeExists gg .transaction i = true) :
    ∃ e ∈ (receivedByStep gg d i).edges,
      edgeMatches e "RECEIVED_BY" i (d.toUserId.getD "") (moneyProps d) = true := by
  unfold receivedByStep
  rw [if_pos htr, if_pos (by rw [hu, ht]; rfl)]
  exact mergeEdge_establishes _ _ _ _ _ (moneyProps_selfConsistent d)

theorem transferredToStep_establishes (gg : Graph) (d : TxData)
    (i now : String) (htr : (truthy d.fromUserId && truthy d.toUserId) = true)
    (hu1 : nodeExists gg .user (d.fromUserId.getD "") = true)
    (hu2 : nodeExists gg .user (d.toUserId.getD "") = true) :
    ∃ e ∈ (transferredToStep gg d i now).edges,
      edgeMatches e "TRANSFERRED_TO" (d.fromUserId.getD "")
        (d.toUserId.getD "") (transferProps d i now) = true := by
  unfold transferredToStep
  rw [if_pos htr, if_pos (by rw [hu1, hu2]; rfl)]
  exact mergeEdge_establishes _ _ _ _ _ (transferProps_selfConsistent d i now)

theorem sentMoneyStep_noop (gg : Graph) (d : TxData) (i : String)
    (h : truthy d.fromUserId = true →
      nodeExists gg .user (d.fromUserId.getD "") = true →
      nodeExists gg .transaction i = true →
      ∃ e ∈ gg.edges,
        edgeMatches e "SENT_MONEY" (d.fromUserId.getD "") i (moneyProps d) = true) :
    sentMoneyStep gg d i = gg := by
  unfold sentMoneyStep
  split
  · rename_i htr
    split
    · rename_i hcond
      rw [Bool.and_eq_true] at hcond
      unfold mergeEdge
      rw [if_pos]
      rw [List.any_eq_true]
      exact h htr hcond.1 hcond.2
    · rfl
  · rfl

theorem receivedByStep_noop (gg : Graph) (d : TxData) (i : String)
    (h : truthy d.toUserId = true →
      nodeExists gg .user (d.toUserId.getD "") = true →
      nodeExists gg .transaction i = true →
      ∃ e ∈ gg.edges,
        edgeMatches e "RECEIVED_BY" i (d.toUserId.getD "") (moneyProps d) = true) :
    receivedByStep gg d i = gg := by
  unfold receivedByStep
  split
  · rename_i htr
    split
    · rename_i hcond
      rw [Bool.and_eq_true] at hcond
      unfold mergeEdge
      rw [if_pos]
      rw [List.any_eq_true]
      exact h htr hcond.1 hcond.2
    · rfl
  · rfl

theorem transferredToStep_noop (gg : Graph) (d : TxData) (i now : String)
    (h : (truthy d.fromUserId && truthy d.toUserId) = true →
      nodeExists gg .user (d.fromUserId.getD "") = true →
      nodeExists gg .user (d.toUserId.getD "") = true →
      ∃ e ∈ gg.edges, edgeMatches e "TRANSFERRED_TO" (d.fromUserId.getD "")
        (d.toUserId.getD "") (transferProps d i now) = true) :
    transferredToStep gg d i now = gg := by
  unfold transferredToStep
  split
  · rename_i htr
    split
    · rename_i hcond
      rw [Bool.and_eq_true] at hcond
      unfold mergeEdge
      rw [if_pos]
      rw [List.any_eq_true]
      exact h htr hcond.1 hcond.2
    · rfl
  · rfl

end UTV

namespace UTV

/-- Re-running an identical transaction payload (with its id and an
explicit timestamp) adds no edge and changes no node beyond the
timestamp refresh. -/
theorem txUpsert_idem (g : Graph) (d : TxData) (n1 n2 f1 f2 i : String)
    (hdi : d.id = some i) (hine : i ≠ "") (hts : truthy d.timestamp = true) :
    (transactionCreateOrUpdate (transactionCreateOrUpdate g d n1 f1) d n2
      f2).edges = (transactionCreateOrUpdate g d n1 f1).edges ∧
    ((transactionCreateOrUpdate (transactionCreateOrUpdate g d n1 f1) d n2
      f2).nodes).map stripNode =
      ((transactionCreateOrUpdate g d n1 f1).nodes).map stripNode := by
  have heq1 : transactionCreateOrUpdate g d n1 f1 =
      createTransactionLinkRelationships
        (transferredToStep (receivedByStep (sentMoneyStep
          (mergeNode g .transaction i (txBaseProps d i n1)
            (txBaseProps d i n1)) d i) d i) d i n1) i d := by
    conv_lhs => rw [transactionCreateOrUpdate]
    rw [hdi, orFalsy_some i f1 hine]
  have heq2 : transactionCreateOrUpdate (transactionCreateOrUpdate g d n1 f1)
      d n2 f2 =
      createTransactionLinkRelationships
        (transferredToStep (receivedByStep (sentMoneyStep
          (mergeNode (transactionCreateOrUpdate g d n1 f1) .transaction i
            (txBaseProps d i n2) (txBaseProps d i n2)) d i) d i) d i n2) i d := by
    conv_lhs => rw [transactionCreateOrUpdate]
    rw [hdi, orFalsy_some i f2 hine]
  have hn1 : (transactionCreateOrUpdate g d n1 f1).nodes =
      (mergeNode g .transaction i (txBaseProps d i n1)
        (txBaseProps d i n1)).nodes := by
    rw [txUpsert_nodes, hdi, orFalsy_some i f1 hine]
  have hs1n : (sentMoneyStep (mergeNode g .transaction i (txBaseProps d i n1)
      (txBaseProps d i n1)) d i).nodes =
      (mergeNode g .transaction i (txBaseProps d i n1)
        (txBaseProps d i n1)).nodes := sentMoneyStep_nodes _ _ _
  have hr1n : (receivedByStep (sentMoneyStep (mergeNode g .transaction i
      (txBaseProps d i n1) (txBaseProps d i n1)) d i) d i).nodes =
      (mergeNode g .transaction i (txBaseProps d i n1)
        (txBaseProps d i n1)).nodes := by
    rw [receivedByStep_nodes, sentMoneyStep_nodes]
  have ht1n : (transferredToStep (receivedByStep (sentMoneyStep (mergeNode g
      .transaction i (txBaseProps d i n1) (txBaseProps d i n1)) d i) d i)
      d i n1).nodes =
      (mergeNode g .transaction i (txBaseProps d i n1)
        (txBaseProps d i n1)).nodes := by
    rw [transferredToStep_nodes, receivedByStep_nodes, sentMoneyStep_nodes]
  have hexgm1 : nodeExists (mergeNode g .transaction i (txBaseProps d i n1)
      (txBaseProps d i n1)) .transaction i = true :=
    nodeExists_mergeNode_self _ _ _ _ _
  have huser2 : ∀ x : String,
      nodeExists (mergeNode (transactionCreateOrUpdate g d n1 f1)
        .transaction i (txBaseProps d i n2) (txBaseProps d i n2)) .user x =
      nodeExists (mergeNode g .transaction i (txBaseProps d i n1)
        (txBaseProps d i n1)) .user x := by
    intro x
    rw [nodeExists_mergeNode_of_ne _ _ _ _ _ _ _
      (fun hc => NodeLabel.noConfusion hc.1)]
    exact nodeExists_eq_of_nodes _ _ _ _ hn1
  have hedges2 : (mergeNode (transactionCreateOrUpdate g d n1 f1)
      .transaction i (txBaseProps d i n2) (txBaseProps d i n2)).edges =
      (transactionCreateOrUpdate g d n1 f1).edges := mergeNode_edges _ _ _ _ _
  have hlift1 : ∀ e : Edge, e ∈ (sentMoneyStep (mergeNode g .transaction i
      (txBaseProps d i n1) (txBaseProps d i n1)) d i).edges →
      e ∈ (transactionCreateOrUpdate g d n1 f1).edges := by
    intro e he
    rw [heq1]
    exact createTxLinks_mem _ _ _ _ (transferredToStep_mem _ _ _ _ _
      (receivedByStep_mem _ _ _ _ he))
  have hlift2 : ∀ e : Edge, e ∈ (receivedByStep (sentMoneyStep (mergeNode g
      .transaction i (txBaseProps d i n1) (txBaseProps d i n1)) d i) d
      i).edges → e ∈ (transactionCreateOrUpdate g d n1 f1).edges := by
    intro e he
    rw [heq1]
    exact createTxLinks_mem _ _ _ _ (transferredToStep_mem _ _ _ _ _ he)
  have hlift3 : ∀ e : Edge, e ∈ (transferredToStep (receivedByStep
      (sentMoneyStep (mergeNode g .transaction i (txBaseProps d i n1)
        (txBaseProps d i n1)) d i) d i) d i n1).edges →
      e ∈ (transactionCreateOrUpdate g d n1 f1).edges := by
    intro e he
    rw [heq1]
    exact createTxLinks_mem _ _ _ _ he
  have hsms2 : sentMoneyStep (mergeNode (transactionCreateOrUpdate g d n1 f1)
      .transaction i (txBaseProps d i n2) (txBaseProps d i n2)) d i =
      mergeNode (transactionCreateOrUpdate g d n1 f1) .transaction i
        (txBaseProps d i n2) (txBaseProps d i n2) := by
    apply sentMoneyStep_noop
    intro htr hu _
    rw [huser2] at hu
    obtain ⟨e, he, hm⟩ := sentMoneyStep_establishes _ d i htr hu hexgm1
    refine ⟨e, ?_, hm⟩
    rw [hedges2]
    exact hlift1 e he
  have hrbs2 : receivedByStep (mergeNode (transactionCreateOrUpdate g d n1 f1)
      .transaction i (txBaseProps d i n2) (txBaseProps d i n2)) d i =
      mergeNode (transactionCreateOrUpdate g d n1 f1) .transaction i
        (txBaseProps d i n2) (txBaseProps d i n2) := by
    apply receivedByStep_noop
    intro htr hu _
    rw [huser2] at hu
    have hexs1 : nodeExists (sentMoneyStep (mergeNode g .transaction i
        (txBaseProps d i n1) (txBaseProps d i n1)) d i) .user
        (d.toUserId.getD "") = true := by
      rw [nodeExists_eq_of_nodes _ _ _ _ hs1n]
      exact hu
    have hext1 : nodeExists (sentMoneyStep (mergeNode g .transaction i
        (txBaseProps d i n1) (txBaseProps d i n1)) d i) .transaction i = true := by
      rw [nodeExists_eq_of_nodes _ _ _ _ hs1n]
      exact hexgm1
    obtain ⟨e, he, hm⟩ := receivedByStep_establishes _ d i htr hexs1 hext1
    refine ⟨e, ?_, hm⟩
    rw [hedges2]
    exact hlift2 e he
  have htts2 : transferredToStep (mergeNode (transactionCreateOrUpdate g d n1
      f1) .transaction i (txBaseProps d i n2) (txBaseProps d i n2)) d i n2 =
      mergeNode (transactionCreateOrUpdate g d n1 f1) .transaction i
        (txBaseProps d i n2) (txBaseProps d i n2) := by
    apply transferredToStep_noop
    intro htr hu1 hu2
    rw [huser2] at hu1 hu2
    have hexr1u1 : nodeExists (receivedByStep (sentMoneyStep (mergeNode g
        .transaction i (txBaseProps d i n1) (txBaseProps d i n1)) d i) d i)
        .user (d.fromUserId.getD "") = true := by
      rw [nodeExists_eq_of_nodes _ _ _ _ hr1n]
      exact hu1
    have hexr1u2 : nodeExists (receivedByStep (sentMoneyStep (mergeNode g
        .transaction i (txBaseProps d i n1) (txBaseProps d i n1)) d i) d i)
        .user (d.toUserId.getD "") = true := by
      rw [nodeExists_eq_of_nodes _ _ _ _ hr1n]
      exact hu2
    obtain ⟨e, he, hm⟩ := transferredToStep_establishes _ d i n1 htr
      hexr1u1 hexr1u2
    rw [transferProps_indep d i n1 n2 hts] at hm
    refine ⟨e, ?_, hm⟩
    rw [hedges2]
    exact hlift3 e he
  have hext1s : nodeExists (transferredToStep (receivedByStep (sentMoneyStep
      (mergeNode g .transaction i (txBaseProps d i n1) (txBaseProps d i n1))
      d i) d i) d i n1) .transaction i = true := by
    rw [nodeExists_eq_of_nodes _ _ _ _ ht1n]
    exact hexgm1
  have hEtx := createTxLinks_establishes (transferredToStep (receivedByStep
    (sentMoneyStep (mergeNode g .transaction i (txBaseProps d i n1)
      (txBaseProps d i n1)) d i) d i) d i n1) i d hext1s
  have hctl2 : createTransactionLinkRelationships
      (mergeNode (transactionCreateOrUpdate g d n1 f1) .transaction i
        (txBaseProps d i n2) (txBaseProps d i n2)) i d =
      mergeNode (transactionCreateOrUpdate g d n1 f1) .transaction i
        (txBaseProps d i n2) (txBaseProps d i n2) := by
    apply createTxLinks_noop _ _ _ (nodeExists_mergeNode_self _ _ _ _ _)
    · intro htr t ht
      rw [sharesScan_mergeNode (transactionCreateOrUpdate g d n1 f1)
        .transaction i _ _ .transaction "ipAddress" _, hn1, ← ht1n] at ht
      obtain ⟨e, he, hm⟩ := hEtx.1 htr t ht
      rw [← heq1] at he
      refine ⟨e, ?_, hm⟩
      rw [hedges2]
      exact he
    · intro htr t ht
      rw [sharesScan_mergeNode (transactionCreateOrUpdate g d n1 f1)
        .transaction i _ _ .transaction "deviceId" _, hn1, ← ht1n] at ht
      obtain ⟨e, he, hm⟩ := hEtx.2.1 htr t ht
      rw [← heq1] at he
      refine ⟨e, ?_, hm⟩
      rw [hedges2]
      exact he
    · intro htr t ht
      rw [sharesScan_mergeNode (transactionCreateOrUpdate g d n1 f1)
        .transaction i _ _ .transaction "location" _, hn1, ← ht1n] at ht
      obtain ⟨e, he, hm⟩ := hEtx.2.2 htr t ht
      rw [← heq1] at he
      refine ⟨e, ?_, hm⟩
      rw [hedges2]
      exact he
  constructor
  · rw [heq2, hsms2, hrbs2, htts2, hctl2, hedges2]
  · rw [heq2, hsms2, hrbs2, htts2, hctl2]
    rw [mergeNode_nodes_congr (transactionCreateOrUpdate g d n1 f1)
      (mergeNode g .transaction i (txBaseProps d i n1) (txBaseProps d i n1))
      .transaction i (txBaseProps d i n2) (txBaseProps d i n2) hn1]
    rw [mergeNode_twice_strip g .transaction i (txBaseProps d i n1)
      (txBaseProps d i n2)
      (fun k => lookup_isNone_congr _ _ (txBaseProps_keys d i n1 n2) k)
      (stripTimes_txBaseProps d i n1 n2 hts)]
    rw [hn1]

end UTV

namespace UTV

/-- A transfer payload that omits its timestamp. -/
def c1TxNoTs : TxData :=
  ⟨some "t1", "100", none, none, none, none, none, none, none, none,
   some "A", some "B"⟩

/-- C1 counterexample: re-running an identical Transaction payload that
omits timestamp at a later clock reading duplicates the TRANSFERRED_TO
edge (the merge key contains the refreshed timestamp), so the edge set
is not preserved: the claim fails as stated. -/
theorem tx_upsert_not_idempotent_counterexample :
    (transactionCreateOrUpdate (transactionCreateOrUpdate c5Store c1TxNoTs
      "T1" "f1") c1TxNoTs "T2" "f2").edges.length = 4 ∧
    (transactionCreateOrUpdate c5Store c1TxNoTs "T1" "f1").edges.length = 3 ∧
    countEdges (transactionCreateOrUpdate (transactionCreateOrUpdate c5Store
      c1TxNoTs "T1" "f1") c1TxNoTs "T2" "f2") "TRANSFERRED_TO" "A" "B" = 2 ∧
    countEdges (transactionCreateOrUpdate c5Store c1TxNoTs "T1" "f1")
      "TRANSFERRED_TO" "A" "B" = 1 := by
  refine ⟨rfl, rfl, rfl, rfl⟩

/-- C1 (amended): upserting an identical User payload twice yields the
same edge set and the same nodes up to createdAt and updatedAt refresh;
the same holds for an identical Transaction payload provided it carries
an explicit timestamp — when the timestamp is omitted, the refreshed
clock reading enters the TRANSFERRED_TO merge key and a duplicate edge
is created (see the counterexample). -/
theorem upsert_idempotent_amended (g : Graph) (d : UserData) (td : TxData)
    (n1 n2 f1 f2 i j : String)
    (hdi : d.id = some i) (hine : i ≠ "")
    (htj : td.id = some j) (hjne : j ≠ "")
    (hts : truthy td.timestamp = true) :
    ((userCreateOrUpdate (userCreateOrUpdate g d n1 f1) d n2 f2).edges =
      (userCreateOrUpdate g d n1 f1).edges ∧
     ((userCreateOrUpdate (userCreateOrUpdate g d n1 f1) d n2 f2).nodes).map
      stripNode = ((userCreateOrUpdate g d n1 f1).nodes).map stripNode) ∧
    ((transactionCreateOrUpdate (transactionCreateOrUpdate g td n1 f1) td n2
      f2).edges = (transactionCreateOrUpdate g td n1 f1).edges ∧
     ((transactionCreateOrUpdate (transactionCreateOrUpdate g td n1 f1) td n2
      f2).nodes).map stripNode =
      ((transactionCreateOrUpdate g td n1 f1).nodes).map stripNode) :=
  ⟨userUpsert_idem g d n1 n2 f1 f2 i hdi hine,
   txUpsert_idem g td n1 n2 f1 f2 j htj hjne hts⟩

/-- Witness for the amended idempotence claim at a concrete store. -/
theorem upsert_idempotent_amended_witness :
    ((userCreateOrUpdate (userCreateOrUpdate c5Store c2User "T1" "f1") c2User
      "T2" "f2").edges = (userCreateOrUpdate c5Store c2User "T1" "f1").edges ∧
     ((userCreateOrUpdate (userCreateOrUpdate c5Store c2User "T1" "f1") c2User
      "T2" "f2").nodes).map stripNode =
      ((userCreateOrUpdate c5Store c2User "T1" "f1").nodes).map stripNode) ∧
    ((transactionCreateOrUpdate (transactionCreateOrUpdate c5Store c5Tx1 "T1"
      "f1") c5Tx1 "T2" "f2").edges =
      (transactionCreateOrUpdate c5Store c5Tx1 "T1" "f1").edges ∧
     ((transactionCreateOrUpdate (transactionCreateOrUpdate c5Store c5Tx1 "T1"
      "f1") c5Tx1 "T2" "f2").nodes).map stripNode =
      ((transactionCreateOrUpdate c5Store c5Tx1 "T1" "f1").nodes).map
        stripNode) :=
  upsert_idempotent_amended c5Store c2User c5Tx1 "T1" "T2" "f1" "f2" "A" "t1"
    rfl (by decide) rfl (by decide) (by decide)

end UTV

namespace UTV

/-! ## C4: shortest path over a chain -/

theorem chainEdges_nil (hops : List (String × Bool)) :
    chainEdges [] hops = [] := rfl

theorem chainEdges_single (a : String) (hops : List (String × Bool)) :
    chainEdges [a] hops = [] := rfl

theorem chainEdges_cons (a b : String) (rest : List String)
    (hops : List (String × Bool)) :
    chainEdges (a :: b :: rest) hops =
      hopEdge a b (hops.headD ("SHARES_EMAIL", false)) ::
        chainEdges (b :: rest) (hops.drop 1) := rfl

theorem neighbors_chainGraph (l : List String) (hops : List (String × Bool))
    (v : String) :
    neighbors (chainGraph l hops) v =
      (chainEdges l hops).filterMap (fun e => adjTo e v) := rfl

/-- Every chain edge joins two chain members. -/
theorem chainEdges_touch : ∀ (l : List String) (hops : List (String × Bool)),
    ∀ e ∈ chainEdges l hops, e.src ∈ l ∧ e.tgt ∈ l := by
  intro l
  induction l with
  | nil =>
    intro hops e he
    rw [chainEdges_nil] at he
    cases he
  | cons a rest ih =>
    intro hops e he
    cases rest with
    | nil =>
      rw [chainEdges_single] at he
      cases he
    | cons b rest2 =>
      rw [chainEdges_cons] at he
      rcases List.mem_cons.mp he with h1 | h2
      · subst h1
        unfold hopEdge
        split
        · exact ⟨by simp, by simp⟩
        · exact ⟨by simp, by simp⟩
      · have hin := ih (hops.drop 1) e h2
        exact ⟨List.mem_cons_of_mem _ hin.1, List.mem_cons_of_mem _ hin.2⟩

theorem adjTo_none (e : Edge) (v : String) (h1 : e.src ≠ v) (h2 : e.tgt ≠ v) :
    adjTo e v = none := by
  unfold adjTo
  rw [if_neg h1, if_neg h2]

theorem adjTo_hopEdge_left (a b : String) (h : String × Bool) (hab : a ≠ b) :
    adjTo (hopEdge a b h) a = some b := by
  rcases h with ⟨k, flip⟩
  cases flip <;> simp [hopEdge, adjTo, hab, Ne.symm hab]

theorem adjTo_hopEdge_right (a b : String) (h : String × Bool) (hab : a ≠ b) :
    adjTo (hopEdge a b h) b = some a := by
  rcases h with ⟨k, flip⟩
  cases flip <;> simp [hopEdge, adjTo, hab, Ne.symm hab]

/-- A non-member of the chain has no neighbours. -/
theorem neighbors_chain_not_mem (l : List String)
    (hops : List (String × Bool)) (v : String) (hv : v ∉ l) :
    neighbors (chainGraph l hops) v = [] := by
  rw [neighbors_chainGraph, List.filterMap_eq_nil_iff]
  intro e he
  have ht := chainEdges_touch l hops e he
  exact adjTo_none e v (fun hc => hv (hc ▸ ht.1)) (fun hc => hv (hc ▸ ht.2))

/-- The neighbours of a chain member are exactly its predecessor and its
successor, in that order. -/
theorem neighbors_chain (a : String) :
    ∀ (u w : List String) (hops : List (String × Bool)),
      (u ++ a :: w).Nodup →
      neighbors (chainGraph (u ++ a :: w) hops) a =
        u.getLast?.toList ++ w.head?.toList := by
  intro u
  induction u with
  | nil =>
    intro w hops hnd
    rw [List.nil_append] at hnd ⊢
    cases w with
    | nil =>
      rw [neighbors_chainGraph, chainEdges_single]
      rfl
    | cons y w2 =>
      have hanotin : a ∉ y :: w2 := (List.nodup_cons.mp hnd).1
      have hay : a ≠ y := fun hc => hanotin (hc ▸ List.mem_cons_self y w2)
      rw [neighbors_chainGraph, chainEdges_cons, List.filterMap_cons,
        adjTo_hopEdge_left a y _ hay]
      have hrest : (chainEdges (y :: w2) (hops.drop 1)).filterMap
          (fun e => adjTo e a) = [] := by
        rw [List.filterMap_eq_nil_iff]
        intro e he
        have ht := chainEdges_touch _ _ e he
        exact adjTo_none e a (fun hc => hanotin (hc ▸ ht.1))
          (fun hc => hanotin (hc ▸ ht.2))
      rw [hrest]
      rfl
  | cons x u2 ih =>
    intro w hops hnd
    rw [List.cons_append, List.nodup_cons] at hnd
    have hxrest : x ∉ u2 ++ a :: w := hnd.1
    have hndrest : (u2 ++ a :: w).Nodup := hnd.2
    have hxa : x ≠ a := fun hc => hxrest (by rw [hc]; simp)
    cases u2 with
    | nil =>
      rw [List.cons_append, List.nil_append, neighbors_chainGraph,
        chainEdges_cons, List.filterMap_cons, adjTo_hopEdge_right x a _ hxa]
      have hn2 := ih w (hops.drop 1) hndrest
      rw [List.nil_append] at hn2
      rw [neighbors_chainGraph] at hn2
      rw [hn2]
      rfl
    | cons z u3 =>
      have hza : z ≠ a := by
        intro hc
        rw [List.cons_append, List.nodup_cons] at hndrest
        exact hndrest.1 (by rw [hc]; simp)
      rw [List.cons_append, List.cons_append, neighbors_chainGraph,
        chainEdges_cons, List.filterMap_cons]
      rw [show adjTo (hopEdge x z (hops.headD ("SHARES_EMAIL", false))) a =
        none from by
          rcases hops.headD ("SHARES_EMAIL", false) with ⟨k, flip⟩
          cases flip <;> exact adjTo_none _ _ (by simp [hopEdge, hxa, hza])
            (by simp [hopEdge, hxa, hza])]
      have hn2 := ih w (hops.drop 1) hndrest
      rw [neighbors_chainGraph] at hn2
      rw [List.cons_append] at hn2
      rw [hn2, List.getLast?_cons_cons]

end UTV

namespace UTV

theorem getLast_mem_of_getLast? {l : List String} {a : String}
    (h : l.getLast? = some a) : a ∈ l := by
  rcases List.mem_getLast?_eq_getLast (Option.mem_def.mpr h) with ⟨hne, heq⟩
  exact heq ▸ List.getLast_mem hne

/-- One round of extension applied to a single frontier path. -/
theorem extendPaths_single (g : Graph) (v : String) (rest : List String) :
    extendPaths g [v :: rest] =
      ((neighbors g v).filter (fun w => ¬ (v :: rest).contains w)).map
        (fun w => w :: v :: rest) := by
  unfold extendPaths
  rw [List.foldr_cons, List.foldr_nil]
  exact List.append_nil _

/-- Extending the frontier path that has reached a along the chain keeps
exactly the forward continuation: the predecessor is already on the path
and the successor never is. -/
theorem extendPaths_chain (a : String) (u w : List String)
    (hops : List (String × Bool)) (hnd : (u ++ a :: w).Nodup) :
    extendPaths (chainGraph (u ++ a :: w) hops) [a :: u.reverse] =
      (w.head?.toList).map (fun y => y :: a :: u.reverse) := by
  rw [extendPaths_single, neighbors_chain a u w hops hnd, List.filter_append,
    List.map_append]
  have hu : (u.getLast?.toList.filter
      (fun x => ¬ (a :: u.reverse).contains x)) = [] := by
    cases hq : u.getLast? with
    | none => rfl
    | some x =>
      have hxu : x ∈ u := getLast_mem_of_getLast? hq
      rw [List.filter_eq_nil_iff]
      intro c hc
      have hcx : c = x := by simpa using hc
      subst hcx
      simp [List.mem_reverse, hxu]
  have hw : (w.head?.toList.filter
      (fun x => ¬ (a :: u.reverse).contains x)) = w.head?.toList := by
    cases w with
    | nil => rfl
    | cons y w2 =>
      rw [List.nodup_append] at hnd
      have hya : y ≠ a := by
        intro hc
        exact (List.nodup_cons.mp hnd.2.1).1 (hc ▸ List.mem_cons_self y w2)
      have hyu : y ∉ u := by
        intro hc
        exact hnd.2.2 hc (List.mem_cons_of_mem a (List.mem_cons_self y w2))
      rw [List.filter_eq_self]
      intro c hc
      have hcy : c = y := by simpa using hc
      subst hcy
      simp [List.mem_reverse, hya, hyu]
  rw [hu, hw, List.map_nil, List.nil_append]

theorem findPathTo_pos (b : String) (p : List String)
    (rest : List (List String)) (h : p.head? = some b) :
    findPathTo b (p :: rest) = some p.reverse := by
  unfold findPathTo
  rw [List.find?_cons_of_pos _ (by simp [h]), Option.map_some']

theorem findPathTo_neg_singleton (b : String) (p : List String)
    (h : ¬ p.head? = some b) :
    findPathTo b [p] = none := by
  unfold findPathTo
  rw [List.find?_cons_of_neg _ (by simp [h]), List.find?_nil]
  rfl

theorem shortestWalkFrom_zero (g : Graph) (b : String)
    (ps : List (List String)) :
    shortestWalkFrom g b ps 0 = none := rfl

theorem shortestWalkFrom_succ (g : Graph) (b : String)
    (ps : List (List String)) (fuel : Nat) :
    shortestWalkFrom g b ps (fuel + 1) =
      match findPathTo b (extendPaths g ps) with
      | some p => some p
      | none => shortestWalkFrom g b (extendPaths g ps) fuel := rfl

/-- The breadth-first walk along a chain: from the frontier that has
traversed u and sits at a, the target (the chain's last node) is reached
exactly when the remaining hop count fits in the fuel, and then the walk
returns the whole chain. -/
theorem walk_chain (l : List String) (hops : List (String × Bool))
    (hnd : l.Nodup) (b : String) :
    ∀ (fuel : Nat) (u : List String) (a : String) (w : List String),
      l = u ++ a :: w → w.getLast? = some b →
      shortestWalkFrom (chainGraph l hops) b [a :: u.reverse] fuel =
        if w.length ≤ fuel then some l else none := by
  intro fuel
  induction fuel with
  | zero =>
    intro u a w hl hb
    have hwne : w ≠ [] := by
      intro hc
      rw [hc] at hb
      simp at hb
    rw [shortestWalkFrom_zero,
      if_neg (by rw [Nat.not_le]; exact List.length_pos.mpr hwne)]
  | succ fuel ih =>
    intro u a w hl hb
    cases w with
    | nil => simp at hb
    | cons y w2 =>
      subst hl
      have hext : extendPaths (chainGraph (u ++ a :: y :: w2) hops)
          [a :: u.reverse] = [y :: a :: u.reverse] := by
        rw [extendPaths_chain a u (y :: w2) hops hnd]
        rfl
      rw [shortestWalkFrom_succ, hext]
      cases w2 with
      | nil =>
        have hby : y = b := by
          rw [show ([y] : List String).getLast? = some y from rfl] at hb
          exact Option.some.inj hb
        rw [findPathTo_pos b (y :: a :: u.reverse) []
          (by rw [show (y :: a :: u.reverse).head? = some y from rfl, hby])]
        rw [if_pos (show ([y] : List String).length ≤ fuel + 1 by simp)]
        show some ((y :: a :: u.reverse).reverse) = some (u ++ a :: [y])
        rw [List.reverse_cons, List.reverse_cons, List.reverse_reverse,
          List.append_assoc]
        rfl
      | cons z w3 =>
        have hgl : (z :: w3).getLast? = some b := by
          rw [List.getLast?_cons_cons] at hb
          exact hb
        have hbmem : b ∈ z :: w3 := getLast_mem_of_getLast? hgl
        have hndw : (y :: z :: w3).Nodup := by
          rw [List.nodup_append] at hnd
          exact (List.nodup_cons.mp hnd.2.1).2
        have hyb : y ≠ b := by
          intro hc
          exact (List.nodup_cons.mp hndw).1 (hc ▸ hbmem)
        rw [findPathTo_neg_singleton b (y :: a :: u.reverse)
          (by rw [show (y :: a :: u.reverse).head? = some y from rfl]
              intro hc
              exact hyb (Option.some.inj hc))]
        show shortestWalkFrom (chainGraph (u ++ a :: y :: z :: w3) hops) b
            [y :: a :: u.reverse] fuel =
          if (y :: z :: w3).length ≤ fuel + 1 then
            some (u ++ a :: y :: z :: w3) else none
        have hihp := ih (u ++ [a]) y (z :: w3) (by simp) hgl
        simp only [List.reverse_append, List.reverse_cons, List.reverse_nil,
          List.nil_append, List.cons_append] at hihp
        rw [hihp]
        exact if_congr (by simp only [List.length_cons]; omega) rfl rfl

end UTV

namespace UTV

/-- The formatted node of a path step carries the path node's own id,
whether or not the node is stored. -/
theorem nodeViewOf_id (g : Graph) (v : String) : (nodeViewOf g v).id = v := by
  unfold nodeViewOf
  cases hf : g.nodes.find? (fun n => n.id = v) with
  | none => rfl
  | some n =>
    have hp := List.find?_some hf
    have hid : n.id = v := by simpa using hp
    simp [hid]

/-- A path of k+1 nodes formats to k steps. -/
theorem mkSteps_length (g : Graph) :
    ∀ p : List String, (mkSteps g p).length = p.length - 1 := by
  intro p
  induction p with
  | nil => rfl
  | cons v rest ih =>
    cases rest with
    | nil => rfl
    | cons w rest2 =>
      show (⟨nodeViewOf g v, relViewOf g v w, nodeViewOf g w⟩ ::
        mkSteps g (w :: rest2)).length = (v :: w :: rest2).length - 1
      rw [List.length_cons, ih]
      simp only [List.length_cons]
      omega

/-- The step endpoints are the consecutive node pairs of the path, in
traversal order. -/
theorem mkSteps_fromTo (g : Graph) :
    ∀ p : List String,
      (mkSteps g p).map (fun s => (s.from_.id, s.to_.id)) = p.zip p.tail := by
  intro p
  induction p with
  | nil => rfl
  | cons v rest ih =>
    cases rest with
    | nil => rfl
    | cons w rest2 =>
      show ((⟨nodeViewOf g v, relViewOf g v w, nodeViewOf g w⟩ : Step) ::
        mkSteps g (w :: rest2)).map (fun s => (s.from_.id, s.to_.id)) = _
      rw [List.map_cons, ih]
      show ((nodeViewOf g v).id, (nodeViewOf g w).id) :: _ = _
      rw [nodeViewOf_id, nodeViewOf_id]
      rfl

/-- Every chain member is a stored user node of the chain graph. -/
theorem nodeExists_chainGraph (ids : List String)
    (hops : List (String × Bool)) (v : String) (hv : v ∈ ids) :
    nodeExists (chainGraph ids hops) .user v = true := by
  unfold nodeExists chainGraph
  rw [List.any_eq_true]
  exact ⟨⟨.user, v, [("id", .s v)]⟩, List.mem_map.mpr ⟨v, hv, rfl⟩, by simp⟩

end UTV

namespace UTV

/-- A fixture hop list mixing edge kinds and stored directions. -/
def c4Hops : List (String × Bool) :=
  [("SHARES_EMAIL", false), ("TRANSFERRED_TO", true), ("SHARES_PHONE", false)]

/-- C4: for a chain of users linked pairwise by N hops (arbitrary edge
kinds, each hop stored in either direction), findShortestPath with
maxDepth = N-1 reports that no path exists, while with maxDepth ≥ N it
reports a found path with pathLength = N and N steps whose endpoints run
down the chain in traversal order from source to target. -/
theorem chain_shortest_path_bound (a : String) (rest : List String)
    (hops : List (String × Bool)) (b : String)
    (hnd : (a :: rest).Nodup) (hb : rest.getLast? = some b) :
    findShortestPath (chainGraph (a :: rest) hops) a b (rest.length - 1) =
      .ok (.noPath "No path found between users") ∧
    ∀ k, rest.length ≤ k →
      findShortestPath (chainGraph (a :: rest) hops) a b k =
        .ok (.found rest.length
          (mkSteps (chainGraph (a :: rest) hops) (a :: rest))) ∧
      (mkSteps (chainGraph (a :: rest) hops) (a :: rest)).length =
        rest.length ∧
      (mkSteps (chainGraph (a :: rest) hops) (a :: rest)).map
        (fun s => (s.from_.id, s.to_.id)) = (a :: rest).zip rest := by
  have hrne : rest ≠ [] := by
    intro hc
    rw [hc] at hb
    simp at hb
  have hbmem : b ∈ rest := getLast_mem_of_getLast? hb
  have hexA : nodeExists (chainGraph (a :: rest) hops) .user a = true :=
    nodeExists_chainGraph _ hops a (List.mem_cons_self a rest)
  have hexB : nodeExists (chainGraph (a :: rest) hops) .user b = true :=
    nodeExists_chainGraph _ hops b (List.mem_cons_of_mem a hbmem)
  have hwalk : ∀ fuel, shortestWalk (chainGraph (a :: rest) hops) a b fuel =
      if rest.length ≤ fuel then some (a :: rest) else none := by
    intro fuel
    exact walk_chain (a :: rest) hops hnd b fuel [] a rest rfl hb
  constructor
  · unfold findShortestPath
    rw [if_neg (by simp [hexA, hexB]), hwalk (rest.length - 1),
      if_neg (by
        have hlp : 0 < rest.length := List.length_pos.mpr hrne
        omega)]
  · intro k hk
    refine ⟨?_, ?_, ?_⟩
    · unfold findShortestPath
      rw [if_neg (by simp [hexA, hexB]), hwalk k, if_pos hk]
      show (Except.ok (PathResult.found ((a :: rest).length - 1)
        (mkSteps (chainGraph (a :: rest) hops) (a :: rest))) :
          Except String PathResult) = _
      rw [List.length_cons, Nat.add_sub_cancel]
    · rw [mkSteps_length, List.length_cons, Nat.add_sub_cancel]
    · exact mkSteps_fromTo _ (a :: rest)

/-- Witness: a 4-user chain of 3 hops with mixed kinds and directions;
depth 2 finds no path, depth 3 finds the 3-step chain path. -/
theorem chain_shortest_path_bound_witness :
    ("u1" :: ["u2", "u3", "u4"] : List String).Nodup ∧
    (["u2", "u3", "u4"] : List String).getLast? = some "u4" ∧
    findShortestPath (chainGraph ("u1" :: ["u2", "u3", "u4"]) c4Hops) "u1"
      "u4" ((["u2", "u3", "u4"] : List String).length - 1) =
      .ok (.noPath "No path found between users") ∧
    findShortestPath (chainGraph ("u1" :: ["u2", "u3", "u4"]) c4Hops) "u1"
      "u4" 3 =
      .ok (.found (["u2", "u3", "u4"] : List String).length
        (mkSteps (chainGraph ("u1" :: ["u2", "u3", "u4"]) c4Hops)
          ("u1" :: ["u2", "u3", "u4"]))) := by
  have h := chain_shortest_path_bound "u1" ["u2", "u3", "u4"] c4Hops "u4"
    (by decide) rfl
  exact ⟨by decide, rfl, h.1, (h.2 3 (by decide)).1⟩

end UTV

namespace UTV

/-! ## C7: dangling-edge drop in the assembled graph view -/

/-- Every entry of the node map stores a node whose id is its key. -/
def mapWF (m : NodeMap) : Prop := ∀ kv ∈ m, kv.2.id = kv.1

/-- Every emitted edge's endpoints are keys of the node map. -/
def accValid (m : NodeMap) (acc : EdgeAcc) : Prop :=
  ∀ e ∈ acc.edges, m.any (fun kv => kv.1 = e.source) = true ∧
    m.any (fun kv => kv.1 = e.target) = true

theorem foldl_preserve {α β : Type} (P : α → Prop) (f : α → β → α)
    (hstep : ∀ a b, P a → P (f a b)) :
    ∀ (l : List β) (init : α), P init → P (l.foldl f init) := by
  intro l
  induction l with
  | nil => intro init h; exact h
  | cons b t ih => intro init h; exact ih (f init b) (hstep init b h)

theorem mapWF_addIfAbsent (m : NodeMap) (k : String) (v : GNode)
    (hm : mapWF m) (hv : v.id = k) : mapWF (addIfAbsent m k v) := by
  unfold addIfAbsent
  split
  · exact hm
  · intro kv hkv
    rcases List.mem_append.mp hkv with h1 | h2
    · exact hm kv h1
    · have hkv2 : kv = (k, v) := by simpa using h2
      subst hkv2
      exact hv

theorem mapWF_addMainUser (m : NodeMap) (ou : Option GUser)
    (hm : mapWF m) : mapWF (addMainUser m ou) := by
  unfold addMainUser
  cases ou with
  | none => exact hm
  | some u =>
    show mapWF (if u.id = "" then m
      else addIfAbsent m (userNodeId u.id) (userGNode u))
    split
    · exact hm
    · exact mapWF_addIfAbsent m (userNodeId u.id) (userGNode u) hm rfl

theorem mapWF_addMainTx (m : NodeMap) (ot : Option GTxn)
    (hm : mapWF m) : mapWF (addMainTx m ot) := by
  unfold addMainTx
  cases ot with
  | none => exact hm
  | some t =>
    show mapWF (if t.id = "" then m
      else addIfAbsent m (txNodeId t.id) (txGNode t))
    split
    · exact hm
    · exact mapWF_addIfAbsent m (txNodeId t.id) (txGNode t) hm rfl

theorem mapWF_addConnUser (m : NodeMap) (oc : Option GConn)
    (hm : mapWF m) : mapWF (addConnUser m oc) := by
  unfold addConnUser
  rcases oc with _ | ⟨ocu, orel⟩
  · exact hm
  · rcases ocu with _ | cu
    · exact hm
    · show mapWF (if cu.id = "" then m
        else addIfAbsent m (userNodeId cu.id) (userGNode cu))
      split
      · exact hm
      · exact mapWF_addIfAbsent m (userNodeId cu.id) (userGNode cu) hm rfl

theorem mapWF_addTransferUser (m : NodeMap) (ot : Option GTransfer)
    (hm : mapWF m) : mapWF (addTransferUser m ot) := by
  unfold addTransferUser
  rcases ot with _ | ⟨otu, oty, oam, ocur⟩
  · exact hm
  · rcases otu with _ | tu
    · exact hm
    · show mapWF (if tu.id = "" then m
        else addIfAbsent m (userNodeId tu.id) (userGNode tu))
      split
      · exact hm
      · exact mapWF_addIfAbsent m (userNodeId tu.id) (userGNode tu) hm rfl

theorem mapWF_addRelNodes (m : NodeMap) (ord : Option GRelData)
    (hm : mapWF m) : mapWF (addRelNodes m ord) := by
  unfold addRelNodes
  rcases ord with _ | ⟨ou, cus, txs, dts⟩
  · exact hm
  · rcases ou with _ | u
    · exact hm
    · show mapWF (if u.id = "" then m
        else dts.foldl addTransferUser (txs.foldl addMainTx
          (cus.foldl addConnUser
            (addIfAbsent m (userNodeId u.id) (userGNode u)))))
      split
      · exact hm
      · exact foldl_preserve mapWF addTransferUser mapWF_addTransferUser dts _
          (foldl_preserve mapWF addMainTx mapWF_addMainTx txs _
            (foldl_preserve mapWF addConnUser mapWF_addConnUser cus _
              (mapWF_addIfAbsent m (userNodeId u.id) (userGNode u) hm rfl)))

/-- The node pass always builds a well-formed node map. -/
theorem buildNodeMap_wf (data : GData) : mapWF (buildNodeMap data) := by
  unfold buildNodeMap
  exact foldl_preserve mapWF addRelNodes mapWF_addRelNodes _ _
    (foldl_preserve mapWF addMainTx mapWF_addMainTx _ _
      (foldl_preserve mapWF addMainUser mapWF_addMainUser _ _
        (fun kv hkv => absurd hkv (List.not_mem_nil kv))))

end UTV

namespace UTV

theorem accValid_pushEdge (m : NodeMap) (acc : EdgeAcc) (e : GEdge)
    (hacc : accValid m acc)
    (hs : m.any (fun kv => kv.1 = e.source) = true)
    (ht : m.any (fun kv => kv.1 = e.target) = true) :
    accValid m (pushEdge acc e) := by
  unfold pushEdge
  split
  · exact hacc
  · intro e2 he2
    rcases List.mem_append.mp he2 with h1 | h2
    · exact hacc e2 h1
    · have he2e : e2 = e := by simpa using h2
      subst he2e
      exact ⟨hs, ht⟩

theorem accValid_connEdgeStep (m : NodeMap) (uid : String) (acc : EdgeAcc)
    (ic : Nat × Option GConn)
    (hsrc : m.any (fun kv => kv.1 = userNodeId uid) = true)
    (hacc : accValid m acc) :
    accValid m (connEdgeStep m uid acc ic) := by
  unfold connEdgeStep
  rcases ic with ⟨i, _ | ⟨ocu, orel⟩⟩
  · exact hacc
  · rcases ocu with _ | cu
    · exact hacc
    · rcases orel with _ | rel
      · exact hacc
      · show accValid m (if cu.id = "" then acc
          else if ¬ (m.any (fun kv => kv.1 = userNodeId cu.id)) then
            { acc with dropped := acc.dropped + 1 }
          else pushEdge acc
            ⟨"edge-user-" ++ uid ++ "-" ++ cu.id ++ "-" ++ toString i,
             userNodeId uid, userNodeId cu.id, orFalsy rel.type "CONNECTED",
             orFalsy rel.type "CONNECTED", rel.properties, "user-user"⟩)
        split
        · exact hacc
        · split
          · intro e2 he2
            exact hacc e2 he2
          · rename_i hcheck
            exact accValid_pushEdge m acc _ hacc hsrc (not_not.mp hcheck)

theorem accValid_txnEdgeStep (m : NodeMap) (uid : String) (acc : EdgeAcc)
    (it : Nat × Option GTxn)
    (hsrc : m.any (fun kv => kv.1 = userNodeId uid) = true)
    (hacc : accValid m acc) :
    accValid m (txnEdgeStep m uid acc it) := by
  unfold txnEdgeStep
  rcases it with ⟨i, _ | t⟩
  · exact hacc
  · show accValid m (if t.id = "" then acc
      else if ¬ (m.any (fun kv => kv.1 = txNodeId t.id)) then
        { acc with dropped := acc.dropped + 1 }
      else pushEdge acc
        ⟨"edge-user-" ++ uid ++ "-transaction-" ++ t.id ++ "-" ++ toString i,
         userNodeId uid, txNodeId t.id, "INVOLVED_IN", "INVOLVED_IN",
         [], "user-transaction"⟩)
    split
    · exact hacc
    · split
      · intro e2 he2
        exact hacc e2 he2
      · rename_i hcheck
        exact accValid_pushEdge m acc _ hacc hsrc (not_not.mp hcheck)

theorem accValid_transferEdgeStep (m : NodeMap) (uid : String)
    (acc : EdgeAcc) (it : Nat × Option GTransfer)
    (hsrc : m.any (fun kv => kv.1 = userNodeId uid) = true)
    (hacc : accValid m acc) :
    accValid m (transferEdgeStep m uid acc it) := by
  unfold transferEdgeStep
  rcases it with ⟨i, _ | ⟨otu, oty, oam, ocur⟩⟩
  · exact hacc
  · rcases otu with _ | tu
    · exact hacc
    · show accValid m (if tu.id = "" then acc
        else if ¬ (m.any (fun kv => kv.1 = userNodeId tu.id)) then
          { acc with dropped := acc.dropped + 1 }
        else pushEdge acc
          ⟨"edge-transfer-" ++ uid ++ "-" ++ tu.id ++ "-" ++ toString i,
           userNodeId uid, userNodeId tu.id, orFalsy oty "TRANSFER",
           orFalsy oty "TRANSFER", [], "transfer"⟩)
      split
      · exact hacc
      · split
        · intro e2 he2
          exact hacc e2 he2
        · rename_i hcheck
          exact accValid_pushEdge m acc _ hacc hsrc (not_not.mp hcheck)

theorem accValid_relEdgeStep (m : NodeMap) (acc : EdgeAcc)
    (ord : Option GRelData) (hacc : accValid m acc) :
    accValid m (relEdgeStep m acc ord) := by
  unfold relEdgeStep
  rcases ord with _ | ⟨ou, cus, txs, dts⟩
  · exact hacc
  · rcases ou with _ | u
    · exact hacc
    · show accValid m (if u.id = "" then acc
        else if ¬ (m.any (fun kv => kv.1 = userNodeId u.id)) then
          { acc with dropped := acc.dropped + 1 }
        else dts.enum.foldl (transferEdgeStep m u.id)
          (txs.enum.foldl (txnEdgeStep m u.id)
            (cus.enum.foldl (connEdgeStep m u.id) acc)))
      split
      · exact hacc
      · split
        · intro e2 he2
          exact hacc e2 he2
        · rename_i hcheck
          have hsrc := not_not.mp hcheck
          exact foldl_preserve (accValid m) (transferEdgeStep m u.id)
            (fun a b h => accValid_transferEdgeStep m u.id a b hsrc h)
            dts.enum _
            (foldl_preserve (accValid m) (txnEdgeStep m u.id)
              (fun a b h => accValid_txnEdgeStep m u.id a b hsrc h)
              txs.enum _
              (foldl_preserve (accValid m) (connEdgeStep m u.id)
                (fun a b h => accValid_connEdgeStep m u.id a b hsrc h)
                cus.enum _ hacc))

/-- Every edge emitted by the formatter has both endpoints among the
assembled nodes. -/
theorem formatGraphData_endpoints (data : GData) :
    ∀ e ∈ (formatGraphData data).edges,
      (∃ n ∈ (formatGraphData data).nodes, n.id = e.source) ∧
      (∃ n ∈ (formatGraphData data).nodes, n.id = e.target) := by
  intro e he
  have hwf : mapWF (buildNodeMap data) := buildNodeMap_wf data
  have hval : accValid (buildNodeMap data)
      (data.userRelationships.foldl (relEdgeStep (buildNodeMap data))
        ⟨[], [], 0⟩) :=
    foldl_preserve _ _
      (fun a b h => accValid_relEdgeStep (buildNodeMap data) a b h) _ _
      (fun e2 he2 => absurd he2 (List.not_mem_nil e2))
  have hee := hval e he
  constructor
  · rcases List.any_eq_true.mp hee.1 with ⟨kv, hkvm, hkveq⟩
    have hk : kv.1 = e.source := by simpa using hkveq
    exact ⟨kv.2, List.mem_map.mpr ⟨kv, hkvm, rfl⟩, (hwf kv hkvm).trans hk⟩
  · rcases List.any_eq_true.mp hee.2 with ⟨kv, hkvm, hkveq⟩
    have hk : kv.1 = e.target := by simpa using hkveq
    exact ⟨kv.2, List.mem_map.mpr ⟨kv, hkvm, rfl⟩, (hwf kv hkvm).trans hk⟩

end UTV

namespace UTV

/-- A connected-user candidate whose target node is missing from the map
adds no edge and increments the dropped count by one. -/
theorem connEdgeStep_drop (m : NodeMap) (uid : String) (acc : EdgeAcc)
    (i : Nat) (c : GConn) (cu : GUser) (rel : GRel)
    (hcu : c.user = some cu) (hrel : c.relationship = some rel)
    (hid : cu.id ≠ "")
    (hmiss : m.any (fun kv => kv.1 = userNodeId cu.id) = false) :
    connEdgeStep m uid acc (i, some c) =
      { acc with dropped := acc.dropped + 1 } := by
  rcases c with ⟨ocu, orel⟩
  have h1 : ocu = some cu := hcu
  have h2 : orel = some rel := hrel
  subst h1 h2
  show (if cu.id = "" then acc
    else if ¬ (m.any (fun kv => kv.1 = userNodeId cu.id)) then
      { acc with dropped := acc.dropped + 1 }
    else pushEdge acc
      ⟨"edge-user-" ++ uid ++ "-" ++ cu.id ++ "-" ++ toString i,
       userNodeId uid, userNodeId cu.id, orFalsy rel.type "CONNECTED",
       orFalsy rel.type "CONNECTED", rel.properties, "user-user"⟩) =
    { acc with dropped := acc.dropped + 1 }
  rw [if_neg hid, if_pos (by simp [hmiss])]

/-- An involved-transaction candidate whose transaction node is missing
from the map adds no edge and increments the dropped count by one. -/
theorem txnEdgeStep_drop (m : NodeMap) (uid : String) (acc : EdgeAcc)
    (i : Nat) (t : GTxn) (hid : t.id ≠ "")
    (hmiss : m.any (fun kv => kv.1 = txNodeId t.id) = false) :
    txnEdgeStep m uid acc (i, some t) =
      { acc with dropped := acc.dropped + 1 } := by
  show (if t.id = "" then acc
    else if ¬ (m.any (fun kv => kv.1 = txNodeId t.id)) then
      { acc with dropped := acc.dropped + 1 }
    else pushEdge acc
      ⟨"edge-user-" ++ uid ++ "-transaction-" ++ t.id ++ "-" ++ toString i,
       userNodeId uid, txNodeId t.id, "INVOLVED_IN", "INVOLVED_IN",
       [], "user-transaction"⟩) =
    { acc with dropped := acc.dropped + 1 }
  rw [if_neg hid, if_pos (by simp [hmiss])]

/-- A direct-transfer candidate whose target node is missing from the
map adds no edge and increments the dropped count by one. -/
theorem transferEdgeStep_drop (m : NodeMap) (uid : String) (acc : EdgeAcc)
    (i : Nat) (tr : GTransfer) (tu : GUser)
    (htu : tr.targetUser = some tu) (hid : tu.id ≠ "")
    (hmiss : m.any (fun kv => kv.1 = userNodeId tu.id) = false) :
    transferEdgeStep m uid acc (i, some tr) =
      { acc with dropped := acc.dropped + 1 } := by
  rcases tr with ⟨otu, oty, oam, ocur⟩
  have h1 : otu = some tu := htu
  subst h1
  show (if tu.id = "" then acc
    else if ¬ (m.any (fun kv => kv.1 = userNodeId tu.id)) then
      { acc with dropped := acc.dropped + 1 }
    else pushEdge acc
      ⟨"edge-transfer-" ++ uid ++ "-" ++ tu.id ++ "-" ++ toString i,
       userNodeId uid, userNodeId tu.id, orFalsy oty "TRANSFER",
       orFalsy oty "TRANSFER", [], "transfer"⟩) =
    { acc with dropped := acc.dropped + 1 }
  rw [if_neg hid, if_pos (by simp [hmiss])]

/-- A relationship entry whose main user node is missing from the map
contributes no edges and increments the dropped count by one. -/
theorem relEdgeStep_drop (m : NodeMap) (acc : EdgeAcc) (rd : GRelData)
    (u : GUser) (hu : rd.user = some u) (hid : u.id ≠ "")
    (hmiss : m.any (fun kv => kv.1 = userNodeId u.id) = false) :
    relEdgeStep m acc (some rd) =
      { acc with dropped := acc.dropped + 1 } := by
  rcases rd with ⟨ou, cus, txs, dts⟩
  have h1 : ou = some u := hu
  subst h1
  show (if u.id = "" then acc
    else if ¬ (m.any (fun kv => kv.1 = userNodeId u.id)) then
      { acc with dropped := acc.dropped + 1 }
    else dts.enum.foldl (transferEdgeStep m u.id)
      (txs.enum.foldl (txnEdgeStep m u.id)
        (cus.enum.foldl (connEdgeStep m u.id) acc))) =
    { acc with dropped := acc.dropped + 1 }
  rw [if_neg hid, if_pos (by simp [hmiss])]

theorem length_filter_not_aux {α : Type} (p : α → Bool) (l : List α) :
    (l.filter p).length + (l.filter (fun a => ¬ p a)).length = l.length := by
  induction l with
  | nil => rfl
  | cons a t ih =>
    rw [List.filter_cons, List.filter_cons]
    cases hpa : p a
    · rw [if_neg (by simp [hpa]), if_pos (by simp [hpa])]
      simp only [List.length_cons]
      omega
    · rw [if_pos (by simp [hpa]), if_neg (by simp [hpa])]
      simp only [List.length_cons]
      omega

/-- Every edge the validation pass keeps has both endpoints among the
node ids. -/
theorem filterValidEdges_sound (nodes : List GNode) (edges : List GEdge) :
    ∀ e ∈ (filterValidEdges nodes edges).1,
      (nodes.map (fun n => n.id)).contains e.source = true ∧
      (nodes.map (fun n => n.id)).contains e.target = true := by
  intro e he
  have he2 : e ∈ edges.filter (fun e =>
      (nodes.map (fun n => n.id)).contains e.source &&
      (nodes.map (fun n => n.id)).contains e.target) := he
  have hc := (List.mem_filter.mp he2).2
  simp only [Bool.and_eq_true] at hc
  exact hc

/-- The validation pass accounts for every input edge: kept plus counted
invalid equals the input count. -/
theorem filterValidEdges_count (nodes : List GNode) (edges : List GEdge) :
    (filterValidEdges nodes edges).1.length + (filterValidEdges nodes edges).2
      = edges.length :=
  length_filter_not_aux _ edges

end UTV

namespace UTV

/-- C7: an edge referencing a node id absent from the assembled node set
is never present in the final edge list — every emitted edge has both
endpoints among the nodes produced by the node pass — and each skipped
candidate whose endpoint is missing from the node map increments the
dropped-edges diagnostic by one; the view's validation pass likewise
keeps exactly the edges with both endpoints present and counts the
rest. -/
theorem dangling_edges_never_emitted :
    (∀ data : GData, ∀ e ∈ (formatGraphData data).edges,
      (∃ n ∈ (formatGraphData data).nodes, n.id = e.source) ∧
      (∃ n ∈ (formatGraphData data).nodes, n.id = e.target)) ∧
    (∀ (m : NodeMap) (uid : String) (acc : EdgeAcc) (i : Nat) (c : GConn)
      (cu : GUser) (rel : GRel), c.user = some cu →
      c.relationship = some rel → cu.id ≠ "" →
      m.any (fun kv => kv.1 = userNodeId cu.id) = false →
      connEdgeStep m uid acc (i, some c) =
        { acc with dropped := acc.dropped + 1 }) ∧
    (∀ (m : NodeMap) (uid : String) (acc : EdgeAcc) (i : Nat) (t : GTxn),
      t.id ≠ "" → m.any (fun kv => kv.1 = txNodeId t.id) = false →
      txnEdgeStep m uid acc (i, some t) =
        { acc with dropped := acc.dropped + 1 }) ∧
    (∀ (m : NodeMap) (uid : String) (acc : EdgeAcc) (i : Nat)
      (tr : GTransfer) (tu : GUser), tr.targetUser = some tu → tu.id ≠ "" →
      m.any (fun kv => kv.1 = userNodeId tu.id) = false →
      transferEdgeStep m uid acc (i, some tr) =
        { acc with dropped := acc.dropped + 1 }) ∧
    (∀ (m : NodeMap) (acc : EdgeAcc) (rd : GRelData) (u : GUser),
      rd.user = some u → u.id ≠ "" →
      m.any (fun kv => kv.1 = userNodeId u.id) = false →
      relEdgeStep m acc (some rd) =
        { acc with dropped := acc.dropped + 1 }) ∧
    (∀ (nodes : List GNode) (edges : List GEdge),
      (∀ e ∈ (filterValidEdges nodes edges).1,
        (nodes.map (fun n => n.id)).contains e.source = true ∧
        (nodes.map (fun n => n.id)).contains e.target = true) ∧
      (filterValidEdges nodes edges).1.length +
        (filterValidEdges nodes edges).2 = edges.length) :=
  ⟨formatGraphData_endpoints, connEdgeStep_drop, txnEdgeStep_drop,
   transferEdgeStep_drop, relEdgeStep_drop,
   fun nodes edges => ⟨filterValidEdges_sound nodes edges,
     filterValidEdges_count nodes edges⟩⟩

/-- C7 fixtures: a two-user data set with one relationship entry. -/
def c7UserA : GUser := ⟨"A", none⟩

def c7UserB : GUser := ⟨"B", some "Bob"⟩

def c7Rel : GRel := ⟨some "SHARES_EMAIL", []⟩

def c7Conn : GConn := ⟨some c7UserB, some c7Rel⟩

def c7Data : GData :=
  ⟨[some c7UserA, some c7UserB], [some ⟨"t1"⟩],
   [some ⟨some c7UserA, [some c7Conn], [some ⟨"t1"⟩],
     [some ⟨some c7UserB, some "TRANSFER", none, none⟩]⟩]⟩

/-- The connected-user edge the formatter emits for the fixture. -/
def c7Edge : GEdge :=
  ⟨"edge-user-A-B-0", userNodeId "A", userNodeId "B",
   "SHARES_EMAIL", "SHARES_EMAIL", [], "user-user"⟩

def c7NodeA : GNode := ⟨userNodeId "A", "A", "user", "user"⟩

/-- Witness: the fixture's emitted edge has both endpoints among the
assembled nodes; a candidate aimed at an empty node map is dropped and
counted; the validation pass accounts for a concrete edge list. -/
theorem dangling_edges_never_emitted_witness :
    (c7Edge ∈ (formatGraphData c7Data).edges ∧
     (∃ n ∈ (formatGraphData c7Data).nodes, n.id = c7Edge.source) ∧
     (∃ n ∈ (formatGraphData c7Data).nodes, n.id = c7Edge.target)) ∧
    (c7Conn.user = some c7UserB ∧ c7Conn.relationship = some c7Rel ∧
     c7UserB.id ≠ "" ∧
     ([] : NodeMap).any (fun kv => kv.1 = userNodeId c7UserB.id) = false ∧
     connEdgeStep [] "A" ⟨[], [], 0⟩ (0, some c7Conn) =
       { edges := [], keys := [], dropped := 1 }) ∧
    (filterValidEdges [c7NodeA] [c7Edge]).1.length +
      (filterValidEdges [c7NodeA] [c7Edge]).2 =
      ([c7Edge] : List GEdge).length := by
  have h := dangling_edges_never_emitted
  refine ⟨⟨by decide, ?_, ?_⟩, ⟨rfl, rfl, by decide, rfl, ?_⟩, ?_⟩
  · exact (h.1 c7Data c7Edge (by decide)).1
  · exact (h.1 c7Data c7Edge (by decide)).2
  · exact h.2.1 [] "A" ⟨[], [], 0⟩ 0 c7Conn c7UserB c7Rel rfl rfl
      (by decide) rfl
  · exact (h.2.2.2.2.2 [c7NodeA] [c7Edge]).2

end UTV

namespace UTV

/-! ## C8: failure isolation in full-graph assembly -/

theorem any_addIfAbsent_mono (m : NodeMap) (k : String) (v : GNode)
    (p : String × GNode → Bool) (h : m.any p = true) :
    (addIfAbsent m k v).any p = true := by
  unfold addIfAbsent
  split
  · exact h
  · rw [List.any_append, h]
    rfl

theorem any_addMainUser_mono (p : String × GNode → Bool) (m : NodeMap)
    (ou : Option GUser) (h : m.any p = true) :
    (addMainUser m ou).any p = true := by
  unfold addMainUser
  cases ou with
  | none => exact h
  | some u =>
    show (if u.id = "" then m
      else addIfAbsent m (userNodeId u.id) (userGNode u)).any p = true
    split
    · exact h
    · exact any_addIfAbsent_mono m _ _ p h

theorem any_addMainTx_mono (p : String × GNode → Bool) (m : NodeMap)
    (ot : Option GTxn) (h : m.any p = true) :
    (addMainTx m ot).any p = true := by
  unfold addMainTx
  cases ot with
  | none => exact h
  | some t =>
    show (if t.id = "" then m
      else addIfAbsent m (txNodeId t.id) (txGNode t)).any p = true
    split
    · exact h
    · exact any_addIfAbsent_mono m _ _ p h

theorem any_addConnUser_mono (p : String × GNode → Bool) (m : NodeMap)
    (oc : Option GConn) (h : m.any p = true) :
    (addConnUser m oc).any p = true := by
  unfold addConnUser
  rcases oc with _ | ⟨ocu, orel⟩
  · exact h
  · rcases ocu with _ | cu
    · exact h
    · show (if cu.id = "" then m
        else addIfAbsent m (userNodeId cu.id) (userGNode cu)).any p = true
      split
      · exact h
      · exact any_addIfAbsent_mono m _ _ p h

theorem any_addTransferUser_mono (p : String × GNode → Bool) (m : NodeMap)
    (ot : Option GTransfer) (h : m.any p = true) :
    (addTransferUser m ot).any p = true := by
  unfold addTransferUser
  rcases ot with _ | ⟨otu, oty, oam, ocur⟩
  · exact h
  · rcases otu with _ | tu
    · exact h
    · show (if tu.id = "" then m
        else addIfAbsent m (userNodeId tu.id) (userGNode tu)).any p = true
      split
      · exact h
      · exact any_addIfAbsent_mono m _ _ p h

theorem any_addRelNodes_mono (p : String × GNode → Bool) (m : NodeMap)
    (ord : Option GRelData) (h : m.any p = true) :
    (addRelNodes m ord).any p = true := by
  unfold addRelNodes
  rcases ord with _ | ⟨ou, cus, txs, dts⟩
  · exact h
  · rcases ou with _ | u
    · exact h
    · show (if u.id = "" then m
        else dts.foldl addTransferUser (txs.foldl addMainTx
          (cus.foldl addConnUser
            (addIfAbsent m (userNodeId u.id) (userGNode u))))).any p = true
      split
      · exact h
      · exact foldl_preserve (fun m2 => m2.any p = true) addTransferUser
          (any_addTransferUser_mono p) dts _
          (foldl_preserve (fun m2 => m2.any p = true) addMainTx
            (any_addMainTx_mono p) txs _
            (foldl_preserve (fun m2 => m2.any p = true) addConnUser
              (any_addConnUser_mono p) cus _
              (any_addIfAbsent_mono m _ _ p h)))

theorem hasKey_addIfAbsent_self (m : NodeMap) (k : String) (v : GNode) :
    (addIfAbsent m k v).any (fun kv => kv.1 = k) = true := by
  unfold addIfAbsent
  split
  · rename_i h
    exact h
  · rw [List.any_append]
    simp

theorem hasKey_addMainUser_self (m : NodeMap) (u : GUser) (hid : u.id ≠ "") :
    (addMainUser m (some u)).any (fun kv => kv.1 = userNodeId u.id) = true := by
  show (if u.id = "" then m
    else addIfAbsent m (userNodeId u.id) (userGNode u)).any
      (fun kv => kv.1 = userNodeId u.id) = true
  rw [if_neg hid]
  exact hasKey_addIfAbsent_self m _ _

theorem foldl_establish {α β : Type} (P : α → Prop) (f : α → β → α)
    (hstep : ∀ a b, P a → P (f a b)) (b : β) (hb : ∀ a, P (f a b)) :
    ∀ (l : List β) (init : α), b ∈ l → P (l.foldl f init) := by
  intro l
  induction l with
  | nil =>
    intro init hmem
    cases hmem
  | cons c t ih =>
    intro init hmem
    rcases List.mem_cons.mp hmem with h1 | h2
    · subst h1
      exact foldl_preserve P f hstep t (f init b) (hb init)
    · exact ih (f init c) h2

/-- A main-list user with a truthy id is always keyed in the node map. -/
theorem buildNodeMap_hasKey_user (data : GData) (u : GUser)
    (hu : some u ∈ data.users) (hid : u.id ≠ "") :
    (buildNodeMap data).any (fun kv => kv.1 = userNodeId u.id) = true := by
  unfold buildNodeMap
  exact foldl_preserve (fun m => m.any (fun kv => kv.1 = userNodeId u.id) = true)
    addRelNodes (any_addRelNodes_mono _) data.userRelationships _
    (foldl_preserve (fun m => m.any (fun kv => kv.1 = userNodeId u.id) = true)
      addMainTx (any_addMainTx_mono _) data.transactions _
      (foldl_establish (fun m => m.any (fun kv => kv.1 = userNodeId u.id) = true)
        addMainUser (any_addMainUser_mono _) (some u)
        (fun a => hasKey_addMainUser_self a u hid) data.users [] hu))

end UTV

namespace UTV

/-- The fallback relationship entry of a failed fetch contributes no
edges and no drops once its user is keyed in the node map. -/
theorem relEdgeStep_fallback_neutral (m : NodeMap) (acc : EdgeAcc)
    (uid : String) (hid : uid ≠ "")
    (hsrc : m.any (fun kv => kv.1 = userNodeId uid) = true) :
    relEdgeStep m acc (some ⟨some ⟨uid, none⟩, [], [], []⟩) = acc := by
  show (if uid = "" then acc
    else if ¬ (m.any (fun kv => kv.1 = userNodeId uid)) then
      { acc with dropped := acc.dropped + 1 }
    else ([] : List (Option GTransfer)).enum.foldl (transferEdgeStep m uid)
      (([] : List (Option GTxn)).enum.foldl (txnEdgeStep m uid)
        (([] : List (Option GConn)).enum.foldl (connEdgeStep m uid) acc))) =
    acc
  rw [if_neg hid, if_neg (by simp [hsrc])]
  rfl

/-- A failed per-user fetch resolves to the minimal fallback entry. -/
theorem getUserRelationships_error (fetch : String → Except String ApiRelData)
    (userId msg : String) (h : fetch userId = .error msg) :
    getUserRelationships fetch userId = ⟨some ⟨userId, none⟩, [], [], []⟩ := by
  unfold getUserRelationships
  rw [h]

/-- A successful per-user fetch resolves to the normalised response. -/
theorem getUserRelationships_ok (fetch : String → Except String ApiRelData)
    (userId : String) (d : ApiRelData) (h : fetch userId = .ok d) :
    getUserRelationships fetch userId =
      ⟨some (d.user.getD ⟨userId, none⟩), d.connectedUsers.getD [],
       d.transactions.getD [], d.directTransfers.getD []⟩ := by
  unfold getUserRelationships
  rw [h]

/-- Any valid user's relationship result is kept in the assembled data
whenever it carries a user with a truthy id. -/
theorem getCompleteGraph_keeps (users : List (Option GUser))
    (txs : List (Option GTxn)) (fetch : String → Except String ApiRelData)
    (V : GUser) (hV : some V ∈ users) (hVid : V.id ≠ "")
    (hvalid : validRelData (getUserRelationships fetch V.id) = true) :
    some (getUserRelationships fetch V.id) ∈
      (getCompleteGraph users txs fetch).userRelationships := by
  show some (getUserRelationships fetch V.id) ∈
    (((users.filter validRec).map (fun ou =>
      getUserRelationships fetch ((ou.getD ⟨"", none⟩).id))).filter
        validRelData).map (fun rd => some rd)
  refine List.mem_map.mpr ⟨getUserRelationships fetch V.id, ?_, rfl⟩
  refine List.mem_filter.mpr ⟨?_, hvalid⟩
  refine List.mem_map.mpr ⟨some V, ?_, rfl⟩
  exact List.mem_filter.mpr ⟨hV, by simp [validRec, hVid]⟩

end UTV

namespace UTV

/-- C8: when the relationship fetch for user U fails, the failure is
isolated: the assembled global user and transaction lists are unaffected,
U's entry becomes the kept fallback structure, U still appears as a node
of the formatted graph, the fallback entry contributes zero edges in the
edge pass, and every other user's successful fetch is still normalised
and kept. -/
theorem fetch_failure_isolated (users : List (Option GUser))
    (txs : List (Option GTxn)) (fetch : String → Except String ApiRelData)
    (U : GUser) (msg : String)
    (hU : some U ∈ users) (hUid : U.id ≠ "")
    (hfail : fetch U.id = .error msg) :
    (getCompleteGraph users txs fetch).users = users.filter validRec ∧
    (getCompleteGraph users txs fetch).transactions = txs.filter validTxRec ∧
    getUserRelationships fetch U.id = ⟨some ⟨U.id, none⟩, [], [], []⟩ ∧
    some (⟨some ⟨U.id, none⟩, [], [], []⟩ : GRelData) ∈
      (getCompleteGraph users txs fetch).userRelationships ∧
    (∃ n ∈ (formatGraphData (getCompleteGraph users txs fetch)).nodes,
      n.id = userNodeId U.id) ∧
    (∀ (m : NodeMap) (acc : EdgeAcc),
      m.any (fun kv => kv.1 = userNodeId U.id) = true →
      relEdgeStep m acc (some ⟨some ⟨U.id, none⟩, [], [], []⟩) = acc) ∧
    (∀ (V : GUser) (dv : ApiRelData), some V ∈ users → V.id ≠ "" →
      fetch V.id = .ok dv → (dv.user.getD ⟨V.id, none⟩).id ≠ "" →
      some (⟨some (dv.user.getD ⟨V.id, none⟩), dv.connectedUsers.getD [],
        dv.transactions.getD [], dv.directTransfers.getD []⟩ : GRelData) ∈
        (getCompleteGraph users txs fetch).userRelationships) := by
  have hfall := getUserRelationships_error fetch U.id msg hfail
  have hUmem : some U ∈ (getCompleteGraph users txs fetch).users := by
    show some U ∈ users.filter validRec
    exact List.mem_filter.mpr ⟨hU, by simp [validRec, hUid]⟩
  have hkey : (buildNodeMap (getCompleteGraph users txs fetch)).any
      (fun kv => kv.1 = userNodeId U.id) = true :=
    buildNodeMap_hasKey_user _ U hUmem hUid
  refine ⟨rfl, rfl, hfall, ?_, ?_, ?_, ?_⟩
  · have hk := getCompleteGraph_keeps users txs fetch U hU hUid
      (by rw [hfall]; simp [validRelData, hUid])
    rw [hfall] at hk
    exact hk
  · rcases List.any_eq_true.mp hkey with ⟨kv, hkvm, hkveq⟩
    have hk2 : kv.1 = userNodeId U.id := by simpa using hkveq
    exact ⟨kv.2, List.mem_map.mpr ⟨kv, hkvm, rfl⟩,
      (buildNodeMap_wf _ kv hkvm).trans hk2⟩
  · intro m acc hsrc
    exact relEdgeStep_fallback_neutral m acc U.id hUid hsrc
  · intro V dv hV hVid hok hdvid
    have hnorm := getUserRelationships_ok fetch V.id dv hok
    have hk := getCompleteGraph_keeps users txs fetch V hV hVid
      (by rw [hnorm]; simp [validRelData, hdvid])
    rw [hnorm] at hk
    exact hk

/-- C8 fixtures: two users; fetching A fails, fetching anyone else
returns a fixed successful response connecting back to A. -/
def c8ConnA : GConn := ⟨some ⟨"A", none⟩, some ⟨some "SHARES_EMAIL", []⟩⟩

def c8OkB : ApiRelData := ⟨some ⟨"B", none⟩, some [some c8ConnA], some [],
  some []⟩

def c8Fetch : String → Except String ApiRelData :=
  fun uid => if uid = "A" then .error "network down" else .ok c8OkB

def c8Users : List (Option GUser) := [some ⟨"A", none⟩, some ⟨"B", none⟩]

def c8Txs : List (Option GTxn) := [some ⟨"t1"⟩]

/-- Witness: with A's fetch failing and B's succeeding, A's entry is the
kept fallback, A is still a node, the fallback entry adds nothing in the
edge pass, and B's normalised result (which still links to A) is kept. -/
theorem fetch_failure_isolated_witness :
    (some (⟨"A", none⟩ : GUser) ∈ c8Users ∧ ("A" : String) ≠ "" ∧
     c8Fetch "A" = .error "network down") ∧
    (getCompleteGraph c8Users c8Txs c8Fetch).users = c8Users.filter validRec ∧
    getUserRelationships c8Fetch "A" = ⟨some ⟨"A", none⟩, [], [], []⟩ ∧
    some (⟨some ⟨"A", none⟩, [], [], []⟩ : GRelData) ∈
      (getCompleteGraph c8Users c8Txs c8Fetch).userRelationships ∧
    (∃ n ∈ (formatGraphData (getCompleteGraph c8Users c8Txs c8Fetch)).nodes,
      n.id = userNodeId "A") ∧
    relEdgeStep [(userNodeId "A", c7NodeA)] ⟨[], [], 0⟩
      (some ⟨some ⟨"A", none⟩, [], [], []⟩) = ⟨[], [], 0⟩ ∧
    some (⟨some ⟨"B", none⟩, [some c8ConnA], [], []⟩ : GRelData) ∈
      (getCompleteGraph c8Users c8Txs c8Fetch).userRelationships := by
  have h := fetch_failure_isolated c8Users c8Txs c8Fetch ⟨"A", none⟩
    "network down" (by decide) (by decide) rfl
  refine ⟨⟨by decide, by decide, rfl⟩, h.1, h.2.2.1, h.2.2.2.1,
    h.2.2.2.2.1, ?_, ?_⟩
  · exact h.2.2.2.2.2.1 [(userNodeId "A", c7NodeA)] ⟨[], [], 0⟩ rfl
  · exact h.2.2.2.2.2.2 ⟨"B", none⟩ c8OkB (by decide) (by decide) rfl
      (by decide)

end UTV
